import Mathlib

/-!
Verification of the vim-trainer editing engine (`vim-engine.ts`).

The engine is shallowly embedded: JavaScript strings become `List Char`
(the test content is ASCII), the mutable `EditorState` becomes an
immutable structure threaded through pure functions, and each method of
the `VimEngine` class becomes a Lean definition of the same name.  The
`registers` record is only ever used at the single key `"`, so it is
modelled as one string.  The command-decay timer and the DOM callback
(`notifyChange`, `preventDefault`) have no effect on the editor state
within a key event and are not modelled.  JavaScript out-of-range index
reads (which yield `undefined`) are modelled with `List.getD`.
-/

namespace VimTrainer

set_option maxHeartbeats 1000000

/-- Convert a Lean string literal to the `List Char` representation used
throughout the embedding. -/
def str (s : String) : List Char := s.toList

/-- The single-quote character (written via its code point to keep
character literals simple). -/
def sq : Char := Char.ofNat 39

/-- The backtick character. -/
def btick : Char := Char.ofNat 96

/-- JavaScript `/\s/` on ASCII input: space, tab, newline, carriage
return, vertical tab, form feed. -/
def jsIsSpace (c : Char) : Bool :=
  c = ' ' || c = '\t' || c = '\n' || c = '\r' || c.toNat = 11 || c.toNat = 12

/-- JavaScript `/\w/`: letters, digits and underscore. -/
def jsIsWordChar (c : Char) : Bool := c.isAlphanum || c = '_'

/-- JavaScript `toLowerCase` on ASCII input. -/
def jsToLower (l : List Char) : List Char := l.map Char.toLower

/-- Index of the first occurrence of `pat` as a contiguous sublist,
`none` when there is none (JS `indexOf` returning `-1`). -/
def subIndex (pat : List Char) : List Char → Option Nat
  | [] => if pat = [] then some 0 else none
  | c :: rest =>
    if pat.isPrefixOf (c :: rest) then some 0
    else (subIndex pat rest).map (· + 1)

/-- JavaScript `String.prototype.indexOf(pat, start)`: the first
occurrence of `pat` at an index `≥ start` (with `start` clamped to the
string length), `none` for `-1`. -/
def jsIndexOf (l pat : List Char) (start : Nat) : Option Nat :=
  let start' := min start l.length
  (subIndex pat (l.drop start')).map (· + start')

/-- Largest index `i ≤ bound` (and `i ≤ l.length`) at which `pat`
occurs, scanning downward from `bound`. -/
def lastSubIndexLe (pat l : List Char) : Nat → Option Nat
  | 0 => if pat.isPrefixOf l then some 0 else none
  | b + 1 =>
    if b + 1 ≤ l.length ∧ pat.isPrefixOf (l.drop (b + 1)) then some (b + 1)
    else lastSubIndexLe pat l b

/-- JavaScript `String.prototype.lastIndexOf(pat, pos)`: the last
occurrence starting at an index `≤ pos`, with `pos` clamped into
`[0, length]`; `none` for `-1`. -/
def jsLastIndexOf (l pat : List Char) (pos : Int) : Option Nat :=
  lastSubIndexLe pat l (Int.toNat (min (max pos 0) (Int.ofNat l.length)))

/-- JavaScript two-argument `substring(a, b)`: both ends clamped into
`[0, length]` and swapped when out of order. -/
def jsSubstring (l : List Char) (a b : Nat) : List Char :=
  let a' := min a l.length
  let b' := min b l.length
  (l.drop (min a' b')).take (max a' b' - min a' b')

/-- `Array.prototype.join(sep)` / `String` building used by the engine. -/
def jsJoin (sep : List Char) : List (List Char) → List Char
  | [] => []
  | [x] => x
  | x :: y :: rest => x ++ sep ++ jsJoin sep (y :: rest)

/-- Fuelled worker for `jsSplit`; the fuel is an upper bound on the
number of separator occurrences and makes the definition structurally
recursive (so that it reduces inside the kernel). -/
def jsSplitF (sep : List Char) : Nat → List Char → List (List Char)
  | 0, l => [l]
  | fuel + 1, l =>
    match jsIndexOf l sep 0 with
    | none => [l]
    | some i => l.take i :: jsSplitF sep fuel (l.drop (i + sep.length))

/-- JavaScript `String.prototype.split(sep)` for a string separator:
splits at each non-overlapping occurrence scanning left to right; an
empty separator splits into single characters. -/
def jsSplit (sep l : List Char) : List (List Char) :=
  if sep = [] then l.map (fun c => [c])
  else jsSplitF sep (l.length + 1) l

/-- `GetSubstitution` for JavaScript `String.prototype.replace` with a
string pattern (so no capture groups): `$$`, `$&`, `$`-backtick and
`$`-quote escapes are expanded, any other `$` is literal. -/
def expandRepl (matched pre post : List Char) : List Char → List Char
  | [] => []
  | [c] => [c]
  | c :: d :: rest =>
    if c = '$' then
      if d = '$' then '$' :: expandRepl matched pre post rest
      else if d = '&' then matched ++ expandRepl matched pre post rest
      else if d = btick then pre ++ expandRepl matched pre post rest
      else if d = sq then post ++ expandRepl matched pre post rest
      else '$' :: expandRepl matched pre post (d :: rest)
    else c :: expandRepl matched pre post (d :: rest)

/-- JavaScript `String.prototype.replace(pat, rep)` with string
arguments: replaces the first occurrence of `pat`, expanding `$`
escapes in `rep`. -/
def jsReplaceFirst (pat rep l : List Char) : List Char :=
  match jsIndexOf l pat 0 with
  | none => l
  | some i =>
    l.take i
      ++ expandRepl ((l.drop i).take pat.length) (l.take i) (l.drop (i + pat.length)) rep
      ++ l.drop (i + pat.length)

/-- Value of a decimal digit string (callers only pass digit strings). -/
def parseNatDigits (l : List Char) : Nat :=
  l.foldl (fun a c => a * 10 + (c.toNat - 48)) 0

/-- `parseInt(s) || 1` as used for the repeat count. -/
def parseCount (l : List Char) : Nat :=
  let n := parseNatDigits l
  if n = 0 then 1 else n

/-- `Array.prototype.splice(i, 0, ...new)`. -/
def spliceIn {α : Type} (i : Nat) (new l : List α) : List α :=
  l.take i ++ new ++ l.drop i

/-- Length of the maximal prefix satisfying `p`. -/
def countWhile (p : Char → Bool) : List Char → Nat
  | [] => 0
  | c :: rest => if p c then countWhile p rest + 1 else 0

/-- `while (i < l.length && p(l[i])) i++` starting from `i`. -/
def scanWhile (p : Char → Bool) (l : List Char) (i : Nat) : Nat :=
  i + countWhile p (l.drop i)

/-- `while (i > 0 && p(l[i])) i--` (an out-of-range read stops the
loop, as `p` applied to `undefined` is false for the predicates the
engine uses). -/
def scanBackWhileAt (p : Char → Bool) (l : List Char) : Nat → Nat
  | 0 => 0
  | i + 1 =>
    if decide (i + 1 < l.length) && p (l.getD (i + 1) ' ') then scanBackWhileAt p l i
    else i + 1

/-- `while (i > 0 && p(l[i-1])) i--`. -/
def scanBackWhilePrev (p : Char → Bool) (l : List Char) : Nat → Nat
  | 0 => 0
  | i + 1 =>
    if decide (i < l.length) && p (l.getD i ' ') then scanBackWhilePrev p l i
    else i + 1

/-- `while (i < l.length - 1 && p(l[i+1])) i++`: advances over the run
of `p`-characters beginning just after `i`. -/
def scanWhileNext (p : Char → Bool) (l : List Char) (i : Nat) : Nat :=
  i + countWhile p (l.drop (i + 1))

/-- Test `/^[1-9]$/` on a key string. -/
def isDigit19 (key : List Char) : Bool :=
  match key with
  | [c] => decide ('1' ≤ c ∧ c ≤ '9')
  | _ => false

/-- Test `/^[0-9]$/` on a key string. -/
def isDigit09 (key : List Char) : Bool :=
  match key with
  | [c] => decide ('0' ≤ c ∧ c ≤ '9')
  | _ => false

/-- Test `/^\d+$/`. -/
def regexAllDigits (l : List Char) : Bool :=
  !l.isEmpty && l.all (fun c => decide ('0' ≤ c ∧ c ≤ '9'))

/-- `line.search(/\S/)`: index of the first non-whitespace character,
`none` when the line is all whitespace (JS `-1`). -/
def firstNonSpace (l : List Char) : Option Nat :=
  let i := scanWhile jsIsSpace l 0
  if i = l.length then none else some i

inductive VimMode
  | normal
  | insert
  | visual
  | command
deriving DecidableEq

structure CursorPosition where
  line : Nat
  col : Nat
deriving DecidableEq

/-- `Selection` from `types.ts`; the source field `end` is a Lean
keyword and is called `sEnd` here. -/
structure Selection where
  start : CursorPosition
  sEnd : CursorPosition
deriving DecidableEq

/-- `EditorState` from `types.ts`; `registers` holds the contents of
the single register `"` (the only one the engine uses). -/
structure EditorState where
  lines : List (List Char)
  cursor : CursorPosition
  mode : VimMode
  selection : Option Selection
  commandBuffer : List Char
  registers : List Char
  lastSearch : List Char
  message : List Char
deriving DecidableEq

/-- The engine: the editor state plus the private `countBuffer` class
field.  The `commandTimeout` handle is time-based and not modelled. -/
structure VimEngine where
  state : EditorState
  countBuffer : List Char
deriving DecidableEq

/-- `clampCursor`. -/
def clampCursor (s : EditorState) (c : CursorPosition) : CursorPosition :=
  let line := min c.line (s.lines.length - 1)
  let lineLength := (s.lines.getD line []).length
  let maxCol := if s.mode = VimMode.insert then lineLength else lineLength - 1
  ⟨line, min c.col maxCol⟩

/-- `getCurrentLine`. -/
def getCurrentLine (s : EditorState) : List Char :=
  s.lines.getD s.cursor.line []

/-- `setCurrentLine`. -/
def setCurrentLine (s : EditorState) (text : List Char) : EditorState :=
  { s with lines := s.lines.set s.cursor.line text }

/-- `deleteChar`. -/
def deleteChar (s : EditorState) : EditorState :=
  let line := getCurrentLine s
  let col := s.cursor.col
  if col < line.length then
    let s1 := setCurrentLine { s with registers := (line.drop col).take 1 }
      (jsSubstring line 0 col ++ line.drop (col + 1))
    { s1 with cursor := clampCursor s1 s1.cursor }
  else s

/-- `deleteCharBefore`. -/
def deleteCharBefore (s : EditorState) : EditorState :=
  let col := s.cursor.col
  if 0 < col then
    let line := getCurrentLine s
    let s1 := setCurrentLine { s with registers := (line.drop (col - 1)).take 1 }
      (jsSubstring line 0 (col - 1) ++ line.drop col)
    { s1 with cursor := { s1.cursor with col := col - 1 } }
  else s

/-- `deleteLine`. -/
def deleteLine (count : Nat) (s : EditorState) : EditorState :=
  let startLine := s.cursor.line
  let endLine := min (startLine + count) s.lines.length
  let deleted := (s.lines.drop startLine).take (endLine - startLine)
  let s1 := { s with lines := s.lines.take startLine ++ s.lines.drop endLine,
                     registers := jsJoin ['\n'] deleted ++ ['\n'] }
  let s2 := if s1.lines.length = 0 then { s1 with lines := [[]] } else s1
  let s3 := { s2 with cursor := { s2.cursor with line := min s2.cursor.line (s2.lines.length - 1) } }
  { s3 with cursor := clampCursor s3 s3.cursor }

/-- `yankLine`. -/
def yankLine (count : Nat) (s : EditorState) : EditorState :=
  let startLine := s.cursor.line
  let endLine := min (startLine + count) s.lines.length
  let yanked := (s.lines.drop startLine).take (endLine - startLine)
  { s with registers := jsJoin ['\n'] yanked ++ ['\n'],
           message := str (toString count) ++ str " line(s) yanked" }

/-- `changeLine`. -/
def changeLine (s : EditorState) : EditorState :=
  let s1 := setCurrentLine s []
  { s1 with cursor := { s1.cursor with col := 0 }, mode := VimMode.insert }

/-- One iteration of the `deleteWord` loop body. -/
def deleteWordStep (s : EditorState) : EditorState :=
  let line := getCurrentLine s
  let startCol := s.cursor.col
  let e1 := scanWhile jsIsWordChar line startCol
  let endCol := scanWhile jsIsSpace line e1
  if startCol < endCol then
    setCurrentLine { s with registers := jsSubstring line startCol endCol }
      (jsSubstring line 0 startCol ++ line.drop endCol)
  else s

/-- `for (let i = 0; i < n; i++) f` on the state. -/
def iterateOp (f : EditorState → EditorState) : Nat → EditorState → EditorState
  | 0, s => s
  | n + 1, s => iterateOp f n (f s)

/-- `deleteWord`. -/
def deleteWord (count : Nat) (s : EditorState) : EditorState :=
  let s1 := iterateOp deleteWordStep count s
  { s1 with cursor := clampCursor s1 s1.cursor }

/-- `changeWord`. -/
def changeWord (s : EditorState) : EditorState :=
  let line := getCurrentLine s
  let startCol := s.cursor.col
  let endCol := scanWhile jsIsWordChar line startCol
  let s1 := setCurrentLine { s with registers := jsSubstring line startCol endCol }
    (jsSubstring line 0 startCol ++ line.drop endCol)
  { s1 with mode := VimMode.insert }

/-- `deleteToEnd`. -/
def deleteToEnd (s : EditorState) : EditorState :=
  let line := getCurrentLine s
  let col := s.cursor.col
  let s1 := setCurrentLine { s with registers := line.drop col } (jsSubstring line 0 col)
  { s1 with cursor := clampCursor s1 s1.cursor }

/-- `deleteInQuotes`. -/
def deleteInQuotes (q : Char) (s : EditorState) : EditorState :=
  let line := getCurrentLine s
  let col := s.cursor.col
  let st0 := jsLastIndexOf line [q] (Int.ofNat col)
  let en0 := jsIndexOf line [q] (col + 1)
  let p :=
    if st0 = none ∨ en0 = none then
      let st1 := jsIndexOf line [q] 0
      (st1, jsIndexOf line [q] ((st1.map (· + 1)).getD 0))
    else (st0, en0)
  match p with
  | (some a, some b) =>
    if a < b then
      let s1 := setCurrentLine { s with registers := jsSubstring line (a + 1) b }
        (jsSubstring line 0 (a + 1) ++ line.drop b)
      { s1 with cursor := { s1.cursor with col := a + 1 } }
    else s
  | _ => s

/-- `changeInQuotes`. -/
def changeInQuotes (q : Char) (s : EditorState) : EditorState :=
  { deleteInQuotes q s with mode := VimMode.insert }

/-- `paste`; `after = true` for position `'after'`, `false` for
`'before'`. -/
def paste (after : Bool) (s : EditorState) : EditorState :=
  let text := s.registers
  if text = [] then s
  else if text.getLast? = some '\n' then
    let plines := jsSplit ['\n'] (text.take (text.length - 1))
    let insertLine := if after then s.cursor.line + 1 else s.cursor.line
    { s with lines := spliceIn insertLine plines s.lines,
             cursor := ⟨insertLine, 0⟩ }
  else
    let line := getCurrentLine s
    let col := if after then s.cursor.col + 1 else s.cursor.col
    let s1 := setCurrentLine s (jsSubstring line 0 col ++ text ++ line.drop col)
    { s1 with cursor := { s1.cursor with col := col + text.length - 1 } }

/-- `joinLines`. -/
def joinLines (s : EditorState) : EditorState :=
  if s.cursor.line + 1 < s.lines.length then
    let currentLine := getCurrentLine s
    let nextLine := (s.lines.getD (s.cursor.line + 1) []).dropWhile jsIsSpace
    let s1 := setCurrentLine s (currentLine ++ [' '] ++ nextLine)
    { s1 with lines := s1.lines.take (s.cursor.line + 1) ++ s1.lines.drop (s.cursor.line + 2) }
  else s

/-- `updateSelection`. -/
def updateSelection (s : EditorState) : EditorState :=
  match s.selection with
  | some sel => { s with selection := some { sel with sEnd := s.cursor } }
  | none => s

/-- `normalizeSelection`. -/
def normalizeSelection (sel : Selection) : Selection :=
  if sel.start.line > sel.sEnd.line ∨
      (sel.start.line = sel.sEnd.line ∧ sel.start.col > sel.sEnd.col) then
    ⟨sel.sEnd, sel.start⟩
  else sel

/-- The multi-line yank text built by `deleteSelection` /
`yankSelection`: start-line suffix, `\n`-joined interior lines, and the
end-line prefix. -/
def selectionText (s : EditorState) (a b : CursorPosition) : List Char :=
  let startLine := s.lines.getD a.line []
  let endLine := s.lines.getD b.line []
  let interior := (s.lines.drop (a.line + 1)).take (b.line - (a.line + 1))
  (interior.foldl (fun acc l => acc ++ '\n' :: l) (startLine.drop a.col))
    ++ '\n' :: jsSubstring endLine 0 (b.col + 1)

/-- `deleteSelection`. -/
def deleteSelection (s : EditorState) : EditorState :=
  match s.selection with
  | none => s
  | some sel0 =>
    let sel := normalizeSelection sel0
    let a := sel.start
    let b := sel.sEnd
    let s1 :=
      if a.line = b.line then
        let line := s.lines.getD a.line []
        { s with registers := jsSubstring line a.col (b.col + 1),
                 lines := s.lines.set a.line (jsSubstring line 0 a.col ++ line.drop (b.col + 1)) }
      else
        let startLine := s.lines.getD a.line []
        let endLine := s.lines.getD b.line []
        let newLines0 := s.lines.set a.line (jsSubstring startLine 0 a.col ++ endLine.drop (b.col + 1))
        { s with registers := selectionText s a b,
                 lines := newLines0.take (a.line + 1) ++ newLines0.drop (b.line + 1) }
    let s2 := { s1 with cursor := a, selection := none }
    { s2 with cursor := clampCursor s2 s2.cursor }

/-- `yankSelection`. -/
def yankSelection (s : EditorState) : EditorState :=
  match s.selection with
  | none => s
  | some sel0 =>
    let sel := normalizeSelection sel0
    let a := sel.start
    let b := sel.sEnd
    if a.line = b.line then
      let line := s.lines.getD a.line []
      { s with registers := jsSubstring line a.col (b.col + 1) }
    else
      { s with registers := selectionText s a b }

/-- `moveWordForward`. -/
def moveWordForward (s : EditorState) : EditorState :=
  let line := getCurrentLine s
  let c1 := scanWhile jsIsWordChar line s.cursor.col
  let col := scanWhile jsIsSpace line c1
  if line.length ≤ col ∧ s.cursor.line + 1 < s.lines.length then
    let s1 := { s with cursor := ⟨s.cursor.line + 1, 0⟩ }
    let newLine := getCurrentLine s1
    { s1 with cursor := { s1.cursor with col := scanWhile jsIsSpace newLine 0 } }
  else
    { s with cursor := { s.cursor with col := min col (line.length - 1) } }

/-- `moveWordBackward`. -/
def moveWordBackward (s : EditorState) : EditorState :=
  let line := getCurrentLine s
  let c0 := if 0 < s.cursor.col then s.cursor.col - 1 else s.cursor.col
  let c1 := scanBackWhileAt jsIsSpace line c0
  let c2 := scanBackWhilePrev jsIsWordChar line c1
  { s with cursor := { s.cursor with col := c2 } }

/-- `moveToEndOfWord`. -/
def moveToEndOfWord (s : EditorState) : EditorState :=
  let line := getCurrentLine s
  let c0 := if s.cursor.col + 1 < line.length then s.cursor.col + 1 else s.cursor.col
  let c1 := scanWhile jsIsSpace line c0
  let c2 := scanWhileNext jsIsWordChar line c1
  { s with cursor := { s.cursor with col := min c2 (line.length - 1) } }

/-- `insertText`. -/
def insertText (text : List Char) (s : EditorState) : EditorState :=
  let line := getCurrentLine s
  let col := s.cursor.col
  let s1 := setCurrentLine s (jsSubstring line 0 col ++ text ++ line.drop col)
  { s1 with cursor := { s1.cursor with col := col + text.length } }

/-- `insertNewline`. -/
def insertNewline (s : EditorState) : EditorState :=
  let line := getCurrentLine s
  let col := s.cursor.col
  let s1 := setCurrentLine s (jsSubstring line 0 col)
  let s2 := { s1 with lines := spliceIn (s.cursor.line + 1) [line.drop col] s1.lines }
  { s2 with cursor := ⟨s.cursor.line + 1, 0⟩ }

/-- `backspace`. -/
def backspace (s : EditorState) : EditorState :=
  let col := s.cursor.col
  if 0 < col then
    let line := getCurrentLine s
    let s1 := setCurrentLine s (jsSubstring line 0 (col - 1) ++ line.drop col)
    { s1 with cursor := { s1.cursor with col := col - 1 } }
  else if 0 < s.cursor.line then
    let currentLine := getCurrentLine s
    let prevLine := s.lines.getD (s.cursor.line - 1) []
    let s1 := { s with lines := s.lines.take s.cursor.line ++ s.lines.drop (s.cursor.line + 1) }
    let s2 := { s1 with cursor := ⟨s.cursor.line - 1, prevLine.length⟩ }
    setCurrentLine s2 (prevLine ++ currentLine)
  else s

/-- The scan loop of `searchNext` over the offsets `is` (the source
iterates `i = 0 .. lines.length - 1`). -/
def scanForward (lines : List (List Char)) (pat : List Char) (startLine startCol : Nat) :
    List Nat → Option (Nat × Nat)
  | [] => none
  | i :: rest =>
    let lineIdx := (startLine + i) % lines.length
    let line := jsToLower (lines.getD lineIdx [])
    let searchStart := if i = 0 then startCol else 0
    match jsIndexOf line pat searchStart with
    | some idx => some (lineIdx, idx)
    | none => scanForward lines pat startLine startCol rest

/-- `searchNext`. -/
def searchNext (s : EditorState) : EditorState :=
  if s.lastSearch = [] then s
  else
    match scanForward s.lines (jsToLower s.lastSearch) s.cursor.line (s.cursor.col + 1)
        (List.range s.lines.length) with
    | some lc => { s with cursor := ⟨lc.1, lc.2⟩ }
    | none => s

/-- The scan loop of `searchPrev`; `(startLine - i + n) % n` is written
with natural subtraction made safe by `i < n`. -/
def scanBackward (lines : List (List Char)) (pat : List Char) (startLine : Nat) (startCol : Int) :
    List Nat → Option (Nat × Nat)
  | [] => none
  | i :: rest =>
    let n := lines.length
    let lineIdx := (startLine + n - i) % n
    let line := jsToLower (lines.getD lineIdx [])
    let searchEnd : Int := if i = 0 then startCol else Int.ofNat line.length
    match jsLastIndexOf line pat searchEnd with
    | some idx => some (lineIdx, idx)
    | none => scanBackward lines pat startLine startCol rest

/-- `searchPrev`. -/
def searchPrev (s : EditorState) : EditorState :=
  if s.lastSearch = [] then s
  else
    match scanBackward s.lines (jsToLower s.lastSearch) s.cursor.line ((s.cursor.col : Int) - 1)
        (List.range s.lines.length) with
    | some lc => { s with cursor := ⟨lc.1, lc.2⟩ }
    | none => s

/-- `searchWordUnderCursor`. -/
def searchWordUnderCursor (s : EditorState) : EditorState :=
  let line := getCurrentLine s
  let col := s.cursor.col
  let a := scanBackWhilePrev jsIsWordChar line col
  let b := scanWhile jsIsWordChar line col
  let word := jsSubstring line a b
  if word ≠ [] then searchNext { s with lastSearch := word } else s

/-- `executeSubstitution`. -/
def executeSubstitution (cmd : List Char) (s : EditorState) : EditorState :=
  let parts := jsSplit ['/'] cmd
  if 3 ≤ parts.length then
    let search := parts.getD 1 []
    let repl := parts.getD 2 []
    let flags := parts.getD 3 []
    let line := getCurrentLine s
    if flags.contains 'g' then setCurrentLine s (jsJoin repl (jsSplit search line))
    else setCurrentLine s (jsReplaceFirst search repl line)
  else s

/-- `executeCommand`. -/
def executeCommand (s : EditorState) : EditorState :=
  let cmd := s.commandBuffer
  let s1 :=
    match cmd with
    | '/' :: pat =>
      if pat ≠ [] then searchNext { s with lastSearch := pat } else s
    | ':' :: command =>
      if command = str "w" ∨ command = str "write" then
        { s with message := str "File saved (simulated)" }
      else if command = str "q" ∨ command = str "quit" then
        { s with message := str "Would quit (simulated)" }
      else if command = str "wq" ∨ command = str "x" then
        { s with message := str "Saved and quit (simulated)" }
      else if regexAllDigits command then
        let lineNum : Int := Int.ofNat (parseNatDigits command) - 1
        let newLine : Nat := (max 0 (min lineNum (Int.ofNat s.lines.length - 1))).toNat
        let s2 := { s with cursor := { s.cursor with line := newLine } }
        { s2 with cursor := clampCursor s2 s2.cursor }
      else if command.take 2 = str "s/" then executeSubstitution command s
      else s
    | _ => s
  { s1 with mode := VimMode.normal, commandBuffer := [] }

/-- The multi-key prefix keys of `handleNormalMode`. -/
def prefixKeys : List (List Char) :=
  [str "d", str "c", str "y", str "g", str "f", str "F", str "t", str "T", str "r"]

/-- The single-character command `switch` at the bottom of
`handleNormalMode`, reached after the command buffer has been cleared;
returns the new state and whether the key was consumed. -/
def handleNormalSwitch (count : Nat) (s : EditorState) (key : List Char) :
    EditorState × Bool :=
  if key = str "h" ∨ key = str "ArrowLeft" then
    (iterateOp (fun st => { st with cursor := { st.cursor with col := st.cursor.col - 1 } })
      count s, true)
  else if key = str "j" ∨ key = str "ArrowDown" then
    let s1 := iterateOp
      (fun st => { st with cursor :=
        { st.cursor with line := min (st.lines.length - 1) (st.cursor.line + 1) } }) count s
    ({ s1 with cursor := clampCursor s1 s1.cursor }, true)
  else if key = str "k" ∨ key = str "ArrowUp" then
    let s1 := iterateOp
      (fun st => { st with cursor := { st.cursor with line := st.cursor.line - 1 } }) count s
    ({ s1 with cursor := clampCursor s1 s1.cursor }, true)
  else if key = str "l" ∨ key = str "ArrowRight" then
    (iterateOp (fun st =>
      { st with cursor := { st.cursor with
          col := min ((getCurrentLine st).length - 1) (st.cursor.col + 1) } }) count s, true)
  else if key = str "w" then (iterateOp moveWordForward count s, true)
  else if key = str "b" then (iterateOp moveWordBackward count s, true)
  else if key = str "e" then (iterateOp moveToEndOfWord count s, true)
  else if key = str "0" then ({ s with cursor := { s.cursor with col := 0 } }, true)
  else if key = str "$" then
    ({ s with cursor := { s.cursor with col := (getCurrentLine s).length - 1 } }, true)
  else if key = str "^" then
    ({ s with cursor := { s.cursor with col := (firstNonSpace (getCurrentLine s)).getD 0 } },
      true)
  else if key = str "G" then
    let s1 := { s with cursor := { s.cursor with line := s.lines.length - 1 } }
    ({ s1 with cursor := clampCursor s1 s1.cursor }, true)
  else if key = str "i" then ({ s with mode := VimMode.insert }, true)
  else if key = str "a" then
    let s1 := { s with mode := VimMode.insert }
    ({ s1 with cursor :=
        { s1.cursor with col := min (getCurrentLine s1).length (s1.cursor.col + 1) } }, true)
  else if key = str "A" then
    let s1 := { s with mode := VimMode.insert }
    ({ s1 with cursor := { s1.cursor with col := (getCurrentLine s1).length } }, true)
  else if key = str "I" then
    let s1 := { s with mode := VimMode.insert }
    ({ s1 with cursor :=
        { s1.cursor with col := (firstNonSpace (getCurrentLine s1)).getD 0 } }, true)
  else if key = str "o" then
    ({ s with
        lines := spliceIn (s.cursor.line + 1) [[]] s.lines,
        cursor := ⟨s.cursor.line + 1, 0⟩, mode := VimMode.insert }, true)
  else if key = str "O" then
    ({ s with
        lines := spliceIn s.cursor.line [[]] s.lines,
        cursor := { s.cursor with col := 0 }, mode := VimMode.insert }, true)
  else if key = str "v" then
    ({ s with mode := VimMode.visual, selection := some ⟨s.cursor, s.cursor⟩ }, true)
  else if key = str "V" then
    ({ s with
        mode := VimMode.visual,
        selection := some ⟨⟨s.cursor.line, 0⟩,
                          ⟨s.cursor.line, (getCurrentLine s).length⟩⟩ }, true)
  else if key = str "x" then (iterateOp deleteChar count s, true)
  else if key = str "X" then (iterateOp deleteCharBefore count s, true)
  else if key = str "s" then ({ deleteChar s with mode := VimMode.insert }, true)
  else if key = str "S" then
    let s1 := setCurrentLine s []
    ({ s1 with cursor := { s1.cursor with col := 0 }, mode := VimMode.insert }, true)
  else if key = str "D" then (deleteToEnd s, true)
  else if key = str "C" then ({ deleteToEnd s with mode := VimMode.insert }, true)
  else if key = str "p" then (paste true s, true)
  else if key = str "P" then (paste false s, true)
  else if key = str "u" then
    ({ s with message := str "Undo not available in this trainer" }, true)
  else if key = str "J" then (joinLines s, true)
  else if key = str ":" then
    ({ s with mode := VimMode.command, commandBuffer := str ":" }, true)
  else if key = str "/" then
    ({ s with mode := VimMode.command, commandBuffer := str "/" }, true)
  else if key = str "n" then (searchNext s, true)
  else if key = str "N" then (searchPrev s, true)
  else if key = str "*" then (searchWordUnderCursor s, true)
  else if key = str "Escape" then
    ({ s with selection := none, commandBuffer := [] }, true)
  else (s, false)

/-- `handleNormalMode`; returns the new engine and whether the key was
consumed.  The decay timer armed when a prefix is stored is time-based
and not modelled.  The single-character `switch` at the bottom of the
source function is `handleNormalSwitch`. -/
def handleNormalMode (eng : VimEngine) (key : List Char) : VimEngine × Bool :=
  let s := eng.state
  if isDigit19 key || (!eng.countBuffer.isEmpty && isDigit09 key) then
    let cb := eng.countBuffer ++ key
    (⟨{ s with commandBuffer := cb }, cb⟩, true)
  else
    let count := parseCount eng.countBuffer
    let buffer := s.commandBuffer ++ key
    if buffer = str "dd" then (⟨{ deleteLine count s with commandBuffer := [] }, []⟩, true)
    else if buffer = str "yy" then (⟨{ yankLine count s with commandBuffer := [] }, []⟩, true)
    else if buffer = str "cc" then (⟨{ changeLine s with commandBuffer := [] }, []⟩, true)
    else if buffer = str "gg" then
      (⟨{ s with cursor := ⟨0, 0⟩, commandBuffer := [] }, []⟩, true)
    else if buffer = str "dw" then (⟨{ deleteWord count s with commandBuffer := [] }, []⟩, true)
    else if buffer = str "cw" then (⟨{ changeWord s with commandBuffer := [] }, []⟩, true)
    else if buffer = str "di\"" ∨ buffer = str "di" ++ [sq] then
      (⟨{ deleteInQuotes (buffer.getD 2 ' ') s with commandBuffer := [] }, []⟩, true)
    else if buffer = str "ci\"" ∨ buffer = str "ci" ++ [sq] then
      (⟨{ changeInQuotes (buffer.getD 2 ' ') s with commandBuffer := [] }, []⟩, true)
    else if prefixKeys.contains key && decide (buffer = key) then
      (⟨{ s with commandBuffer := key }, []⟩, true)
    else if s.commandBuffer = str "r" ∧ key.length = 1 then
      let line := getCurrentLine s
      let col := s.cursor.col
      (⟨{ setCurrentLine s (jsSubstring line 0 col ++ key ++ line.drop (col + 1)) with
            commandBuffer := [] }, []⟩, true)
    else if s.commandBuffer = str "f" ∧ key.length = 1 then
      let line := getCurrentLine s
      let s1 :=
        match jsIndexOf line key (s.cursor.col + 1) with
        | some idx => { s with cursor := { s.cursor with col := idx } }
        | none => s
      (⟨{ s1 with commandBuffer := [] }, []⟩, true)
    else if s.commandBuffer = str "F" ∧ key.length = 1 then
      let line := getCurrentLine s
      let s1 :=
        match jsLastIndexOf line key ((s.cursor.col : Int) - 1) with
        | some idx => { s with cursor := { s.cursor with col := idx } }
        | none => s
      (⟨{ s1 with commandBuffer := [] }, []⟩, true)
    else
      let r := handleNormalSwitch count { s with commandBuffer := [] } key
      (⟨r.1, []⟩, r.2)

/-- `handleInsertMode`. -/
def handleInsertMode (eng : VimEngine) (key : List Char) (ctrl : Bool) : VimEngine × Bool :=
  let s := eng.state
  if key = str "Escape" then
    (⟨{ s with
          mode := VimMode.normal,
          cursor := { s.cursor with col := s.cursor.col - 1 } }, eng.countBuffer⟩, true)
  else if key = str "Backspace" then (⟨backspace s, eng.countBuffer⟩, true)
  else if key = str "Delete" then (⟨deleteChar s, eng.countBuffer⟩, true)
  else if key = str "Enter" then (⟨insertNewline s, eng.countBuffer⟩, true)
  else if key = str "Tab" then (⟨insertText (str "  ") s, eng.countBuffer⟩, true)
  else if key = str "ArrowLeft" then
    (⟨{ s with cursor := { s.cursor with col := s.cursor.col - 1 } }, eng.countBuffer⟩, true)
  else if key = str "ArrowRight" then
    (⟨{ s with cursor :=
        { s.cursor with col := min (getCurrentLine s).length (s.cursor.col + 1) } },
      eng.countBuffer⟩, true)
  else if key = str "ArrowUp" then
    let s1 := { s with cursor := { s.cursor with line := s.cursor.line - 1 } }
    (⟨{ s1 with cursor := clampCursor s1 s1.cursor }, eng.countBuffer⟩, true)
  else if key = str "ArrowDown" then
    let s1 := { s with cursor :=
      { s.cursor with line := min (s.lines.length - 1) (s.cursor.line + 1) } }
    (⟨{ s1 with cursor := clampCursor s1 s1.cursor }, eng.countBuffer⟩, true)
  else if key.length = 1 ∧ ctrl = false then (⟨insertText key s, eng.countBuffer⟩, true)
  else (⟨s, eng.countBuffer⟩, false)

/-- `handleVisualMode`. -/
def handleVisualMode (eng : VimEngine) (key : List Char) : VimEngine × Bool :=
  let s := eng.state
  if key = str "Escape" then
    (⟨{ s with mode := VimMode.normal, selection := none }, eng.countBuffer⟩, true)
  else if key = str "h" ∨ key = str "ArrowLeft" then
    (⟨updateSelection { s with cursor := { s.cursor with col := s.cursor.col - 1 } },
      eng.countBuffer⟩, true)
  else if key = str "j" ∨ key = str "ArrowDown" then
    let s1 := { s with cursor :=
      { s.cursor with line := min (s.lines.length - 1) (s.cursor.line + 1) } }
    (⟨updateSelection { s1 with cursor := clampCursor s1 s1.cursor }, eng.countBuffer⟩, true)
  else if key = str "k" ∨ key = str "ArrowUp" then
    let s1 := { s with cursor := { s.cursor with line := s.cursor.line - 1 } }
    (⟨updateSelection { s1 with cursor := clampCursor s1 s1.cursor }, eng.countBuffer⟩, true)
  else if key = str "l" ∨ key = str "ArrowRight" then
    (⟨updateSelection { s with cursor :=
        { s.cursor with col := min (getCurrentLine s).length (s.cursor.col + 1) } },
      eng.countBuffer⟩, true)
  else if key = str "w" then (⟨updateSelection (moveWordForward s), eng.countBuffer⟩, true)
  else if key = str "b" then (⟨updateSelection (moveWordBackward s), eng.countBuffer⟩, true)
  else if key = str "e" then (⟨updateSelection (moveToEndOfWord s), eng.countBuffer⟩, true)
  else if key = str "0" then
    (⟨updateSelection { s with cursor := { s.cursor with col := 0 } }, eng.countBuffer⟩, true)
  else if key = str "$" then
    (⟨updateSelection { s with cursor :=
        { s.cursor with col := (getCurrentLine s).length } }, eng.countBuffer⟩, true)
  else if key = str "d" ∨ key = str "x" then
    (⟨{ deleteSelection s with mode := VimMode.normal }, eng.countBuffer⟩, true)
  else if key = str "y" then
    (⟨{ yankSelection s with mode := VimMode.normal, selection := none }, eng.countBuffer⟩, true)
  else if key = str "c" then
    (⟨{ deleteSelection s with mode := VimMode.insert }, eng.countBuffer⟩, true)
  else (⟨s, eng.countBuffer⟩, false)

/-- `handleCommandMode`; every key is reported as consumed, matching
the source (its `switch` has no path returning `false`). -/
def handleCommandMode (eng : VimEngine) (key : List Char) : VimEngine × Bool :=
  let s := eng.state
  if key = str "Escape" then
    (⟨{ s with mode := VimMode.normal, commandBuffer := [] }, eng.countBuffer⟩, true)
  else if key = str "Enter" then (⟨executeCommand s, eng.countBuffer⟩, true)
  else if key = str "Backspace" then
    if 1 < s.commandBuffer.length then
      (⟨{ s with commandBuffer := s.commandBuffer.dropLast }, eng.countBuffer⟩, true)
    else
      (⟨{ s with mode := VimMode.normal, commandBuffer := [] }, eng.countBuffer⟩, true)
  else if key.length = 1 then
    (⟨{ s with commandBuffer := s.commandBuffer ++ key }, eng.countBuffer⟩, true)
  else (⟨s, eng.countBuffer⟩, true)

/-- `handleKeyDown`: mode dispatch (the `preventDefault` block has no
effect on editor state). -/
def handleKeyDown (eng : VimEngine) (key : List Char) (ctrl _shift : Bool) : VimEngine × Bool :=
  match eng.state.mode with
  | VimMode.normal => handleNormalMode eng key
  | VimMode.insert => handleInsertMode eng key ctrl
  | VimMode.visual => handleVisualMode eng key
  | VimMode.command => handleCommandMode eng key

/-- Press a key (no modifiers) and keep the resulting engine. -/
def press (eng : VimEngine) (k : String) : VimEngine :=
  (handleKeyDown eng (str k) false false).1

/-- Whether a key press (no modifiers) is reported as consumed. -/
def consumed (eng : VimEngine) (k : String) : Bool :=
  (handleKeyDown eng (str k) false false).2

/-- Structural part of the documented state invariant: the line list is
never empty and the cursor line is in range. -/
def INV0 (s : EditorState) : Prop :=
  s.lines ≠ [] ∧ s.cursor.line < s.lines.length

/-- Full invariant: additionally the cursor column is at most the
current line's length (the one-past-end position). -/
def INV (s : EditorState) : Prop :=
  INV0 s ∧ s.cursor.col ≤ (getCurrentLine s).length

instance (s : EditorState) : Decidable (INV0 s) := by
  unfold INV0
  infer_instance

instance (s : EditorState) : Decidable (INV s) := by
  unfold INV
  infer_instance

/-- Modelled from the spec: replace the first occurrence of the
substring `se` by the literal string `re` (the spec's reading of an
`s/…/…/` substitution without the `g` flag). -/
def replaceFirstSpec (se re l : List Char) : List Char :=
  match subIndex se l with
  | none => l
  | some i => l.take i ++ re ++ l.drop (i + se.length)

/-- Fuelled worker for `replaceFirstSpec` iterated over every
occurrence; the fuel (any number larger than the string length) only
makes the recursion structural. -/
def replaceAllSpecF (se re : List Char) : Nat → List Char → List Char
  | 0, l => l
  | fuel + 1, l =>
    match subIndex se l with
    | none => l
    | some i => l.take i ++ re ++ replaceAllSpecF se re fuel (l.drop (i + se.length))

/-- Modelled from the spec: replace every occurrence of the substring
`se` by the literal string `re`, scanning left to right (the spec's
reading of an `s/…/…/g` substitution). -/
def replaceAllSpec (se re l : List Char) : List Char :=
  replaceAllSpecF se re (l.length + 1) l

/-- Whether `pat` occurs as a contiguous substring. -/
def occursIn (pat l : List Char) : Bool :=
  (subIndex pat l).isSome

/-- A visual-mode state on the line `ab` with the cursor on the last
character (reachable by typing `ab`, `Escape`, `v`). -/
def exC1visual : VimEngine :=
  ⟨⟨[str "ab"], ⟨0, 1⟩, VimMode.visual, some ⟨⟨0, 1⟩, ⟨0, 1⟩⟩, [], [], [], []⟩, []⟩

/-- A command-mode state about to run `:s/foo//` on the line `foo` with
the cursor on column 2. -/
def exC1subst : VimEngine :=
  ⟨⟨[str "foo"], ⟨0, 2⟩, VimMode.command, none, str ":s/foo//", [], [], []⟩, []⟩

/-- A normal-mode state with a pending `f` prefix on the line `ab3`. -/
def exC2 : VimEngine :=
  ⟨⟨[str "ab3"], ⟨0, 0⟩, VimMode.normal, none, str "f", [], [], []⟩, []⟩

/-- A normal-mode state with a pending `f` prefix on the line `abxc`. -/
def exC2b : VimEngine :=
  ⟨⟨[str "abxc"], ⟨0, 0⟩, VimMode.normal, none, str "f", [], [], []⟩, []⟩

/-- Lines `a`, `b`, `a` with the cursor on line 2 and last search `a`
(the spec's wrap-around example). -/
def exC3wrap : EditorState :=
  ⟨[str "a", str "b", str "a"], ⟨2, 0⟩, VimMode.normal, none, [], [], str "a", []⟩

/-- Single line `ab`, cursor on column 1, last search `a`: the only
occurrence of the pattern is before the cursor on the cursor's line. -/
def exC3miss : EditorState :=
  ⟨[str "ab"], ⟨0, 1⟩, VimMode.normal, none, [], [], str "a", []⟩

/-- Single line `ab`, last search `z`: the pattern occurs nowhere. -/
def exC3none : EditorState :=
  ⟨[str "ab"], ⟨0, 0⟩, VimMode.normal, none, [], [], str "z", []⟩

/-- Single line `ab cd`, cursor at the start, empty register. -/
def exC4 : EditorState :=
  ⟨[str "ab cd"], ⟨0, 0⟩, VimMode.normal, none, [], [], [], []⟩

/-- A state whose single line is empty but whose register holds stale
text `old`. -/
def exC4e : EditorState :=
  ⟨[[]], ⟨0, 0⟩, VimMode.normal, none, [], str "old", [], []⟩

/-- Single line `ab cd` with the cursor on column 3. -/
def exC4b : EditorState :=
  ⟨[str "ab cd"], ⟨0, 3⟩, VimMode.normal, none, [], [], [], []⟩

/-- Normal mode over the two lines `a`, `b` with the cursor at the top. -/
def exC5 : VimEngine :=
  ⟨⟨[str "a", str "b"], ⟨0, 0⟩, VimMode.normal, none, [], [], [], []⟩, []⟩

/-- Normal mode on the single line `ab` with the cursor on the last
character. -/
def exC6 : VimEngine :=
  ⟨⟨[str "ab"], ⟨0, 1⟩, VimMode.normal, none, [], [], [], []⟩, []⟩

/-- Normal mode over the three lines `aa`, `bb`, `cc` with the cursor
on the middle line. -/
def exC5w : VimEngine :=
  ⟨⟨[str "aa", str "bb", str "cc"], ⟨1, 0⟩, VimMode.normal, none, [], [], [], []⟩, []⟩

/-- Normal mode over the two lines `a`, `b` with the cursor on the last
line. -/
def exC5last : VimEngine :=
  ⟨⟨[str "a", str "b"], ⟨1, 0⟩, VimMode.normal, none, [], [], [], []⟩, []⟩

/-- Normal mode on the single line `ab` with the cursor on the first
character. -/
def exC6a : VimEngine :=
  ⟨⟨[str "ab"], ⟨0, 0⟩, VimMode.normal, none, [], [], [], []⟩, []⟩

/-- Single line `foo foo`, used for the substitution examples. -/
def exC7 : EditorState :=
  ⟨[str "foo foo"], ⟨0, 0⟩, VimMode.normal, none, [], [], [], []⟩

/-- A command-mode state holding the malformed command `:s/foo` (the
substitution is missing its third `/`-delimited segment), with
non-trivial register and message contents. -/
def exC8 : VimEngine :=
  ⟨⟨[str "abc"], ⟨0, 1⟩, VimMode.command, none, str ":s/foo", str "reg", str "pat",
    str "msg"⟩, []⟩

/-- Normal mode over the two lines `ab`, `c` with the cursor on the
last line and a pending `d` prefix. -/
def exC10 : VimEngine :=
  ⟨⟨[str "ab", str "c"], ⟨1, 0⟩, VimMode.normal, none, str "d", str "reg", [], []⟩, []⟩

/-- The quote-pair range computed by `deleteInQuotes` before its
`a < b` guard: the surrounding pair around the cursor, falling back to
the first pair on the line (verbatim the `start`/`end` computation of
the source). -/
def quoteRange (q : Char) (s : EditorState) : Option Nat × Option Nat :=
  let line := getCurrentLine s
  let col := s.cursor.col
  let st0 := jsLastIndexOf line [q] (Int.ofNat col)
  let en0 := jsIndexOf line [q] (col + 1)
  if st0 = none ∨ en0 = none then
    let st1 := jsIndexOf line [q] 0
    (st1, jsIndexOf line [q] ((st1.map (· + 1)).getD 0))
  else (st0, en0)

/-- The register text written by `deleteSelection` / `yankSelection`
for the selection `sel0`: the single-line slice when the normalized
selection stays on one line, otherwise the multi-line
`selectionText` (verbatim the two register expressions of the
source). -/
def visualYankText (s : EditorState) (sel0 : Selection) : List Char :=
  let sel := normalizeSelection sel0
  let a := sel.start
  let b := sel.sEnd
  if a.line = b.line then jsSubstring (s.lines.getD a.line []) a.col (b.col + 1)
  else selectionText s a b

/-- Single line `a"bc"d` with the cursor at the start. -/
def exC4q : EditorState :=
  ⟨[str "a\"bc\"d"], ⟨0, 0⟩, VimMode.normal, none, [], [], [], []⟩

/-- A visual-mode state over `ab`, `cd` whose selection runs from
(0,1) to (1,0). -/
def exC4v : EditorState :=
  ⟨[str "ab", str "cd"], ⟨1, 0⟩, VimMode.visual, some ⟨⟨0, 1⟩, ⟨1, 0⟩⟩, [], [], [], []⟩

theorem getD_set_self {α : Type} (l : List α) (i : Nat) (a d : α) (h : i < l.length) :
    (l.set i a).getD i d = a := by
  induction l generalizing i with
  | nil => simp at h
  | cons x xs ih =>
    cases i with
    | zero => rfl
    | succ j => simpa using ih j (by simpa using h)

theorem getD_set_ne {α : Type} (l : List α) (i j : Nat) (a : α) (d : α) (h : i ≠ j) :
    (l.set i a).getD j d = l.getD j d := by
  induction l generalizing i j with
  | nil => rfl
  | cons x xs ih =>
    cases i with
    | zero =>
      cases j with
      | zero => exact absurd rfl h
      | succ k => rfl
    | succ i' =>
      cases j with
      | zero => rfl
      | succ k => simpa using ih i' k (by omega)

theorem set_getD_self {α : Type} (l : List α) (i : Nat) (d : α) (h : i < l.length) :
    l.set i (l.getD i d) = l := by
  induction l generalizing i with
  | nil => rfl
  | cons x xs ih =>
    cases i with
    | zero => rfl
    | succ j => simpa using ih j (by simpa using h)

theorem countWhile_le (p : Char → Bool) (l : List Char) : countWhile p l ≤ l.length := by
  induction l with
  | nil => simp [countWhile]
  | cons c rest ih =>
    simp only [countWhile, List.length_cons]
    split
    · omega
    · exact Nat.zero_le _

theorem scanWhile_ge (p : Char → Bool) (l : List Char) (i : Nat) : i ≤ scanWhile p l i :=
  Nat.le_add_right i _

theorem scanWhile_le (p : Char → Bool) (l : List Char) (i : Nat) (h : i ≤ l.length) :
    scanWhile p l i ≤ l.length := by
  have h1 := countWhile_le p (l.drop i)
  simp only [List.length_drop] at h1
  simp only [scanWhile]
  omega

theorem scanBackWhileAt_le (p : Char → Bool) (l : List Char) (i : Nat) :
    scanBackWhileAt p l i ≤ i := by
  induction i with
  | zero => simp [scanBackWhileAt]
  | succ j ih =>
    simp only [scanBackWhileAt]
    split
    · omega
    · exact Nat.le_refl _

theorem scanBackWhilePrev_le (p : Char → Bool) (l : List Char) (i : Nat) :
    scanBackWhilePrev p l i ≤ i := by
  induction i with
  | zero => simp [scanBackWhilePrev]
  | succ j ih =>
    simp only [scanBackWhilePrev]
    split
    · omega
    · exact Nat.le_refl _

theorem subIndex_bound {pat l : List Char} {i : Nat} (h : subIndex pat l = some i) :
    i + pat.length ≤ l.length := by
  induction l generalizing i with
  | nil =>
    simp only [subIndex] at h
    split at h
    · rename_i hp
      simp only [Option.some.injEq] at h
      simp [hp, ← h]
    · exact absurd h (by simp)
  | cons c rest ih =>
    simp only [subIndex] at h
    split at h
    · rename_i hp
      simp only [Option.some.injEq] at h
      have := (List.isPrefixOf_iff_prefix.mp hp).length_le
      simp only [← h]
      simpa using this
    · rcases Option.map_eq_some'.mp h with ⟨j, hj, hji⟩
      have := ih hj
      simp only [List.length_cons]
      omega

theorem subIndex_isPrefixOf {pat l : List Char} {i : Nat} (h : subIndex pat l = some i) :
    pat.isPrefixOf (l.drop i) = true := by
  induction l generalizing i with
  | nil =>
    simp only [subIndex] at h
    split at h
    · rename_i hp
      simp only [Option.some.injEq] at h
      simp [hp, ← h]
    · exact absurd h (by simp)
  | cons c rest ih =>
    simp only [subIndex] at h
    split at h
    · rename_i hp
      simp only [Option.some.injEq] at h
      simpa [← h] using hp
    · rcases Option.map_eq_some'.mp h with ⟨j, hj, hji⟩
      have := ih hj
      simpa [← hji] using this

theorem subIndex_none_iff {pat l : List Char} :
    subIndex pat l = none ↔ ∀ i, ¬ pat.isPrefixOf (l.drop i) = true := by
  induction l with
  | nil =>
    simp only [subIndex]
    constructor
    · intro h i
      split at h
      · exact absurd h (by simp)
      · rename_i hp
        simpa [List.isPrefixOf_iff_prefix, List.prefix_iff_eq_take] using hp
    · intro h
      split
      · rename_i hp
        exact absurd (by simp [hp, List.isPrefixOf_iff_prefix] : pat.isPrefixOf (([] : List Char).drop 0) = true) (h 0)
      · rfl
  | cons c rest ih =>
    simp only [subIndex]
    constructor
    · intro h i
      split at h
      · exact absurd h (by simp)
      · rename_i hp
        cases i with
        | zero => simpa using hp
        | succ j =>
          have h2 := Option.map_eq_none'.mp h
          exact fun hc => (ih.mp h2 j) (by simpa using hc)
    · intro h
      split
      · rename_i hp
        exact absurd (by simpa using hp) (h 0)
      · simp only [Option.map_eq_none']
        exact ih.mpr fun j hc => (h (j + 1)) (by simpa using hc)

theorem jsIndexOf_some {l pat : List Char} {st i : Nat} (h : jsIndexOf l pat st = some i) :
    i + pat.length ≤ l.length ∧ pat.isPrefixOf (l.drop i) = true ∧ min st l.length ≤ i := by
  simp only [jsIndexOf] at h
  rcases Option.map_eq_some'.mp h with ⟨j, hj, hji⟩
  have hb := subIndex_bound hj
  have hp := subIndex_isPrefixOf hj
  simp only [List.length_drop] at hb
  rw [List.drop_drop] at hp
  constructor
  · omega
  · constructor
    · have : j + min st l.length = i := hji
      rw [← this, Nat.add_comm j]
      exact hp
    · omega

theorem jsIndexOf_none_of_subIndex_none {l pat : List Char} (h : subIndex pat l = none)
    (st : Nat) : jsIndexOf l pat st = none := by
  simp only [jsIndexOf, Option.map_eq_none']
  rw [subIndex_none_iff]
  intro i
  rw [List.drop_drop, Nat.add_comm]
  exact subIndex_none_iff.mp h (i + min st l.length)

theorem lastSubIndexLe_some {pat l : List Char} {b i : Nat}
    (h : lastSubIndexLe pat l b = some i) :
    i ≤ b ∧ i ≤ l.length ∧ pat.isPrefixOf (l.drop i) = true := by
  induction b with
  | zero =>
    simp only [lastSubIndexLe] at h
    split at h
    · rename_i hp
      simp only [Option.some.injEq] at h
      subst h
      exact ⟨Nat.le_refl _, Nat.zero_le _, by simpa using hp⟩
    · exact absurd h (by simp)
  | succ b' ih =>
    simp only [lastSubIndexLe] at h
    split at h
    · rename_i hp
      simp only [Option.some.injEq] at h
      subst h
      exact ⟨Nat.le_refl _, hp.1, hp.2⟩
    · have := ih h
      exact ⟨Nat.le_succ_of_le this.1, this.2.1, this.2.2⟩

theorem jsLastIndexOf_some {l pat : List Char} {pos : Int} {i : Nat}
    (h : jsLastIndexOf l pat pos = some i) :
    i ≤ l.length ∧ pat.isPrefixOf (l.drop i) = true := by
  have := lastSubIndexLe_some h
  exact ⟨this.2.1, this.2.2⟩

theorem jsSubstring_zero (l : List Char) (b : Nat) : jsSubstring l 0 b = l.take b := by
  simp only [jsSubstring, Nat.min_zero, Nat.zero_min, List.drop_zero, Nat.max_comm,
    Nat.max_zero, Nat.sub_zero]
  rcases Nat.le_total b l.length with hb | hb
  · rw [Nat.min_eq_left hb]
  · rw [Nat.min_eq_right hb, List.take_of_length_le (Nat.le_refl _),
      List.take_of_length_le hb]

theorem jsSubstring_of_le {l : List Char} {a b : Nat} (hab : a ≤ b) (hb : b ≤ l.length) :
    jsSubstring l a b = (l.drop a).take (b - a) := by
  have ha : a ≤ l.length := Nat.le_trans hab hb
  simp only [jsSubstring, Nat.min_eq_left ha, Nat.min_eq_left hb, Nat.min_eq_left hab,
    Nat.max_eq_right hab]

theorem length_jsSubstring_zero (l : List Char) (b : Nat) (h : b ≤ l.length) :
    (jsSubstring l 0 b).length = b := by
  rw [jsSubstring_zero]
  simp [Nat.min_eq_left h]

theorem clampCursor_line_lt (s : EditorState) (c : CursorPosition) (h : s.lines ≠ []) :
    (clampCursor s c).line < s.lines.length := by
  have : 0 < s.lines.length := List.length_pos.mpr h
  simp only [clampCursor]
  omega

theorem clampCursor_col_le (s : EditorState) (c : CursorPosition) :
    (clampCursor s c).col ≤ (s.lines.getD (clampCursor s c).line []).length := by
  simp only [clampCursor]
  split
  · omega
  · omega

theorem INV_clamped (s1 : EditorState) (c : CursorPosition) (h : s1.lines ≠ []) :
    INV { s1 with cursor := clampCursor s1 c } := by
  refine ⟨⟨h, clampCursor_line_lt s1 c h⟩, ?_⟩
  exact clampCursor_col_le s1 c

theorem INV0_of_INV {s : EditorState} (h : INV s) : INV0 s := h.1

theorem set_ne_nil {α : Type} (l : List α) (i : Nat) (a : α) (h : l ≠ []) :
    l.set i a ≠ [] := by
  have h1 : 0 < l.length := List.length_pos.mpr h
  have h2 : 0 < (l.set i a).length := by simpa using h1
  exact List.length_pos.mp h2

theorem ne_nil_iff_length_pos {α : Type} (l : List α) : l ≠ [] ↔ 0 < l.length :=
  ⟨List.length_pos.mpr, List.length_pos.mp⟩

theorem iterateOp_pres {f : EditorState → EditorState} {P : EditorState → Prop}
    (hf : ∀ t, P t → P (f t)) : ∀ (n : Nat) (s : EditorState), P s → P (iterateOp f n s) := by
  intro n
  induction n with
  | zero => intro s h; exact h
  | succ m ih => intro s h; exact ih (f s) (hf s h)

theorem iterateOp_lines_const {f : EditorState → EditorState} (n : Nat) (s : EditorState)
    (hf : ∀ t, (f t).lines = t.lines) : (iterateOp f n s).lines = s.lines := by
  induction n generalizing s with
  | zero => rfl
  | succ m ih => rw [iterateOp, ih, hf]

theorem jsSplitF_ne_nil (sep : List Char) (fuel : Nat) (l : List Char) :
    jsSplitF sep fuel l ≠ [] := by
  cases fuel with
  | zero => simp [jsSplitF]
  | succ m =>
    simp only [jsSplitF]
    split <;> simp

theorem firstNonSpace_getD_le (l : List Char) : (firstNonSpace l).getD 0 ≤ l.length := by
  simp only [firstNonSpace]
  split
  · exact Nat.zero_le _
  · exact scanWhile_le _ _ _ (Nat.zero_le _)

theorem getD_append_left {α : Type} (a b : List α) (i : Nat) (d : α) (h : i < a.length) :
    (a ++ b).getD i d = a.getD i d := by
  induction a generalizing i with
  | nil => simp at h
  | cons x xs ih =>
    cases i with
    | zero => rfl
    | succ j => simpa using ih j (by simpa using h)

theorem INV_deleteChar {s : EditorState} (h : INV s) : INV (deleteChar s) := by
  simp only [deleteChar]
  split
  · exact INV_clamped _ _ (set_ne_nil _ _ _ h.1.1)
  · exact h

theorem INV0_deleteChar {s : EditorState} (h : INV0 s) : INV0 (deleteChar s) := by
  simp only [deleteChar]
  split
  · exact INV0_of_INV (INV_clamped _ _ (set_ne_nil _ _ _ h.1))
  · exact h

theorem INV_deleteCharBefore {s : EditorState} (h : INV s) : INV (deleteCharBefore s) := by
  obtain ⟨⟨hne, hline⟩, hcol⟩ := h
  simp only [deleteCharBefore, setCurrentLine]
  split
  · rename_i hpos
    refine ⟨⟨set_ne_nil _ _ _ hne, ?_⟩, ?_⟩
    · show s.cursor.line < (s.lines.set s.cursor.line _).length
      simpa using hline
    · show s.cursor.col - 1 ≤ ((s.lines.set s.cursor.line _).getD s.cursor.line []).length
      rw [getD_set_self _ _ _ _ hline, jsSubstring_zero]
      simp only [getCurrentLine, List.length_append, List.length_take, List.length_drop]
      simp only [getCurrentLine] at hcol
      omega
  · exact ⟨⟨hne, hline⟩, hcol⟩

theorem INV0_deleteCharBefore {s : EditorState} (h : INV0 s) : INV0 (deleteCharBefore s) := by
  obtain ⟨hne, hline⟩ := h
  simp only [deleteCharBefore, setCurrentLine]
  split
  · refine ⟨set_ne_nil _ _ _ hne, ?_⟩
    show s.cursor.line < (s.lines.set s.cursor.line _).length
    simpa using hline
  · exact ⟨hne, hline⟩

theorem INV_deleteLine (count : Nat) (s : EditorState) : INV (deleteLine count s) := by
  unfold deleteLine
  apply INV_clamped
  split
  · simp
  · rename_i hz
    dsimp only at hz ⊢
    rw [ne_nil_iff_length_pos]
    omega

theorem INV_yankLine {count : Nat} {s : EditorState} (h : INV s) : INV (yankLine count s) :=
  h

theorem INV0_yankLine {count : Nat} {s : EditorState} (h : INV0 s) : INV0 (yankLine count s) :=
  h

theorem INV_changeLine {s : EditorState} (h : INV s) : INV (changeLine s) := by
  obtain ⟨⟨hne, hline⟩, _⟩ := h
  simp only [changeLine, setCurrentLine]
  refine ⟨⟨set_ne_nil _ _ _ hne, ?_⟩, Nat.zero_le _⟩
  show s.cursor.line < (s.lines.set s.cursor.line []).length
  simpa using hline

theorem INV0_changeLine {s : EditorState} (h : INV0 s) : INV0 (changeLine s) := by
  obtain ⟨hne, hline⟩ := h
  simp only [changeLine, setCurrentLine]
  refine ⟨set_ne_nil _ _ _ hne, ?_⟩
  show s.cursor.line < (s.lines.set s.cursor.line []).length
  simpa using hline

theorem INV_deleteWordStep {s : EditorState} (h : INV s) : INV (deleteWordStep s) := by
  obtain ⟨⟨hne, hline⟩, hcol⟩ := h
  simp only [deleteWordStep, setCurrentLine]
  split
  · refine ⟨⟨set_ne_nil _ _ _ hne, ?_⟩, ?_⟩
    · show s.cursor.line < (s.lines.set s.cursor.line _).length
      simpa using hline
    · show s.cursor.col ≤ ((s.lines.set s.cursor.line _).getD s.cursor.line []).length
      rw [getD_set_self _ _ _ _ hline, jsSubstring_zero]
      simp only [getCurrentLine, List.length_append, List.length_take, List.length_drop]
      simp only [getCurrentLine] at hcol
      omega
  · exact ⟨⟨hne, hline⟩, hcol⟩

theorem deleteWordStep_lines_ne {s : EditorState} (h : s.lines ≠ []) :
    (deleteWordStep s).lines ≠ [] := by
  simp only [deleteWordStep, setCurrentLine]
  split
  · exact set_ne_nil _ _ _ h
  · exact h

theorem INV_deleteWord (count : Nat) {s : EditorState} (h : s.lines ≠ []) :
    INV (deleteWord count s) := by
  unfold deleteWord
  apply INV_clamped
  exact @iterateOp_pres deleteWordStep (fun t => t.lines ≠ [])
    (fun t ht => deleteWordStep_lines_ne ht) count s h

theorem INV_changeWord {s : EditorState} (h : INV s) : INV (changeWord s) := by
  obtain ⟨⟨hne, hline⟩, hcol⟩ := h
  simp only [changeWord, setCurrentLine]
  refine ⟨⟨set_ne_nil _ _ _ hne, ?_⟩, ?_⟩
  · show s.cursor.line < (s.lines.set s.cursor.line _).length
    simpa using hline
  · show s.cursor.col ≤ ((s.lines.set s.cursor.line _).getD s.cursor.line []).length
    rw [getD_set_self _ _ _ _ hline, jsSubstring_zero]
    simp only [getCurrentLine, List.length_append, List.length_take, List.length_drop]
    simp only [getCurrentLine] at hcol
    omega

theorem INV0_changeWord {s : EditorState} (h : INV0 s) : INV0 (changeWord s) := by
  obtain ⟨hne, hline⟩ := h
  simp only [changeWord, setCurrentLine]
  refine ⟨set_ne_nil _ _ _ hne, ?_⟩
  show s.cursor.line < (s.lines.set s.cursor.line _).length
  simpa using hline

theorem INV_deleteToEnd {s : EditorState} (h : s.lines ≠ []) : INV (deleteToEnd s) := by
  unfold deleteToEnd setCurrentLine
  apply INV_clamped
  exact set_ne_nil _ _ _ h

theorem INV_deleteInQuotes {q : Char} {s : EditorState} (h : INV s) :
    INV (deleteInQuotes q s) := by
  obtain ⟨⟨hne, hline⟩, hcol⟩ := h
  simp only [deleteInQuotes, setCurrentLine]
  split
  · rename_i a b heq
    split
    · rename_i hab
      have hb : b + 1 ≤ (getCurrentLine s).length := by
        split at heq
        all_goals
          rw [Prod.mk.injEq] at heq
          have h3 := jsIndexOf_some heq.2
          simp only [List.length_cons, List.length_nil] at h3
          omega
      refine ⟨⟨set_ne_nil _ _ _ hne, ?_⟩, ?_⟩
      · show s.cursor.line < (s.lines.set s.cursor.line _).length
        simpa using hline
      · show a + 1 ≤ ((s.lines.set s.cursor.line _).getD s.cursor.line []).length
        rw [getD_set_self _ _ _ _ hline, jsSubstring_zero]
        simp only [getCurrentLine, List.length_append, List.length_take, List.length_drop]
        simp only [getCurrentLine] at hb
        omega
    · exact ⟨⟨hne, hline⟩, hcol⟩
  · exact ⟨⟨hne, hline⟩, hcol⟩

theorem INV0_deleteInQuotes {q : Char} {s : EditorState} (h : INV0 s) :
    INV0 (deleteInQuotes q s) := by
  obtain ⟨hne, hline⟩ := h
  simp only [deleteInQuotes, setCurrentLine]
  split
  · split
    · refine ⟨set_ne_nil _ _ _ hne, ?_⟩
      show s.cursor.line < (s.lines.set s.cursor.line _).length
      simpa using hline
    · exact ⟨hne, hline⟩
  · exact ⟨hne, hline⟩

theorem INV_changeInQuotes {q : Char} {s : EditorState} (h : INV s) :
    INV (changeInQuotes q s) :=
  INV_deleteInQuotes h

theorem jsSplit_ne_nil (sep l : List Char) (hs : sep ≠ []) : jsSplit sep l ≠ [] := by
  simp only [jsSplit, if_neg hs]
  exact jsSplitF_ne_nil _ _ _

theorem INV_paste {after : Bool} {s : EditorState} (h : INV s) : INV (paste after s) := by
  obtain ⟨⟨hne, hline⟩, hcol⟩ := h
  simp only [paste, setCurrentLine, spliceIn]
  split
  · exact ⟨⟨hne, hline⟩, hcol⟩
  · rename_i htext
    have htl : 0 < s.registers.length := List.length_pos.mpr htext
    split
    · have hk : 0 < (jsSplit ['\n'] (s.registers.take (s.registers.length - 1))).length :=
        List.length_pos.mpr (jsSplit_ne_nil _ _ (by simp))
      have hn : 0 < s.lines.length := List.length_pos.mpr hne
      split
      · refine ⟨⟨?_, ?_⟩, Nat.zero_le _⟩
        · rw [ne_nil_iff_length_pos]
          simp only [List.length_append, List.length_take, List.length_drop]
          omega
        · simp only [List.length_append, List.length_take, List.length_drop]
          omega
      · refine ⟨⟨?_, ?_⟩, Nat.zero_le _⟩
        · rw [ne_nil_iff_length_pos]
          simp only [List.length_append, List.length_take, List.length_drop]
          omega
        · simp only [List.length_append, List.length_take, List.length_drop]
          omega
    · split
      · refine ⟨⟨set_ne_nil _ _ _ hne, ?_⟩, ?_⟩
        · show s.cursor.line < (s.lines.set s.cursor.line _).length
          simpa using hline
        · show s.cursor.col + 1 + s.registers.length - 1 ≤
            ((s.lines.set s.cursor.line _).getD s.cursor.line []).length
          rw [getD_set_self _ _ _ _ hline, jsSubstring_zero]
          simp only [getCurrentLine, List.length_append, List.length_take, List.length_drop]
          simp only [getCurrentLine] at hcol
          omega
      · refine ⟨⟨set_ne_nil _ _ _ hne, ?_⟩, ?_⟩
        · show s.cursor.line < (s.lines.set s.cursor.line _).length
          simpa using hline
        · show s.cursor.col + s.registers.length - 1 ≤
            ((s.lines.set s.cursor.line _).getD s.cursor.line []).length
          rw [getD_set_self _ _ _ _ hline, jsSubstring_zero]
          simp only [getCurrentLine, List.length_append, List.length_take, List.length_drop]
          simp only [getCurrentLine] at hcol
          omega

theorem INV0_paste {after : Bool} {s : EditorState} (h : INV0 s) : INV0 (paste after s) := by
  obtain ⟨hne, hline⟩ := h
  simp only [paste, setCurrentLine, spliceIn]
  split
  · exact ⟨hne, hline⟩
  · rename_i htext
    split
    · have hk : 0 < (jsSplit ['\n'] (s.registers.take (s.registers.length - 1))).length :=
        List.length_pos.mpr (jsSplit_ne_nil _ _ (by simp))
      have hn : 0 < s.lines.length := List.length_pos.mpr hne
      split
      · refine ⟨?_, ?_⟩
        · rw [ne_nil_iff_length_pos]
          simp only [List.length_append, List.length_take, List.length_drop]
          omega
        · simp only [List.length_append, List.length_take, List.length_drop]
          omega
      · refine ⟨?_, ?_⟩
        · rw [ne_nil_iff_length_pos]
          simp only [List.length_append, List.length_take, List.length_drop]
          omega
        · simp only [List.length_append, List.length_take, List.length_drop]
          omega
    · split
      · refine ⟨set_ne_nil _ _ _ hne, ?_⟩
        show s.cursor.line < (s.lines.set s.cursor.line _).length
        simpa using hline
      · refine ⟨set_ne_nil _ _ _ hne, ?_⟩
        show s.cursor.line < (s.lines.set s.cursor.line _).length
        simpa using hline

theorem getD_take {α : Type} (l : List α) (k i : Nat) (d : α) (h : i < k) :
    (l.take k).getD i d = l.getD i d := by
  induction l generalizing k i with
  | nil => simp
  | cons x xs ih =>
    cases k with
    | zero => omega
    | succ k' =>
      cases i with
      | zero => rfl
      | succ j => simpa using ih k' j (by omega)

theorem INV_joinLines {s : EditorState} (h : INV s) : INV (joinLines s) := by
  obtain ⟨⟨hne, hline⟩, hcol⟩ := h
  simp only [joinLines, setCurrentLine]
  split
  · rename_i hlt
    refine ⟨⟨?_, ?_⟩, ?_⟩
    · rw [ne_nil_iff_length_pos]
      simp only [List.length_append, List.length_take, List.length_drop, List.length_set]
      omega
    · show s.cursor.line < (List.length _)
      simp only [List.length_append, List.length_take, List.length_drop, List.length_set]
      omega
    · show s.cursor.col ≤ (List.getD _ s.cursor.line []).length
      rw [getD_append_left _ _ _ _
          (by simp only [List.length_take, List.length_set]; omega),
        getD_take _ _ _ _ (by omega), getD_set_self _ _ _ _ hline]
      simp only [getCurrentLine, List.length_append, List.length_cons] at hcol ⊢
      omega
  · exact ⟨⟨hne, hline⟩, hcol⟩

theorem INV0_joinLines {s : EditorState} (h : INV0 s) : INV0 (joinLines s) := by
  obtain ⟨hne, hline⟩ := h
  simp only [joinLines, setCurrentLine]
  split
  · rename_i hlt
    refine ⟨?_, ?_⟩
    · rw [ne_nil_iff_length_pos]
      simp only [List.length_append, List.length_take, List.length_drop, List.length_set]
      omega
    · show s.cursor.line < (List.length _)
      simp only [List.length_append, List.length_take, List.length_drop, List.length_set]
      omega
  · exact ⟨hne, hline⟩

theorem INV_insertText {text : List Char} {s : EditorState} (h : INV s) :
    INV (insertText text s) := by
  obtain ⟨⟨hne, hline⟩, hcol⟩ := h
  simp only [insertText, setCurrentLine]
  refine ⟨⟨set_ne_nil _ _ _ hne, ?_⟩, ?_⟩
  · show s.cursor.line < (s.lines.set s.cursor.line _).length
    simpa using hline
  · show s.cursor.col + text.length ≤
      ((s.lines.set s.cursor.line _).getD s.cursor.line []).length
    rw [getD_set_self _ _ _ _ hline, jsSubstring_zero]
    simp only [getCurrentLine, List.length_append, List.length_take, List.length_drop]
    simp only [getCurrentLine] at hcol
    omega

theorem INV_insertNewline {s : EditorState} (h : INV s) : INV (insertNewline s) := by
  obtain ⟨⟨hne, hline⟩, hcol⟩ := h
  simp only [insertNewline, setCurrentLine, spliceIn]
  refine ⟨⟨?_, ?_⟩, Nat.zero_le _⟩
  · rw [ne_nil_iff_length_pos]
    simp only [List.length_append, List.length_take, List.length_drop, List.length_set,
      List.length_cons, List.length_nil]
    omega
  · show s.cursor.line + 1 < List.length _
    simp only [List.length_append, List.length_take, List.length_drop, List.length_set,
      List.length_cons, List.length_nil]
    omega

theorem INV_backspace {s : EditorState} (h : INV s) : INV (backspace s) := by
  obtain ⟨⟨hne, hline⟩, hcol⟩ := h
  simp only [backspace, setCurrentLine]
  split
  · refine ⟨⟨set_ne_nil _ _ _ hne, ?_⟩, ?_⟩
    · show s.cursor.line < (s.lines.set s.cursor.line _).length
      simpa using hline
    · show s.cursor.col - 1 ≤ ((s.lines.set s.cursor.line _).getD s.cursor.line []).length
      rw [getD_set_self _ _ _ _ hline, jsSubstring_zero]
      simp only [getCurrentLine, List.length_append, List.length_take, List.length_drop]
      simp only [getCurrentLine] at hcol
      omega
  · split
    · rename_i hc0 hl0
      refine ⟨⟨?_, ?_⟩, ?_⟩
      · rw [ne_nil_iff_length_pos]
        simp only [List.length_set, List.length_append, List.length_take, List.length_drop]
        omega
      · show s.cursor.line - 1 < List.length _
        simp only [List.length_set, List.length_append, List.length_take, List.length_drop]
        omega
      · show (s.lines.getD (s.cursor.line - 1) []).length ≤ (List.getD _ (s.cursor.line - 1) []).length
        rw [getD_set_self]
        · simp
        · simp only [List.length_append, List.length_take, List.length_drop]
          omega
    · exact ⟨⟨hne, hline⟩, hcol⟩

theorem INV0_backspace {s : EditorState} (h : INV0 s) : INV0 (backspace s) := by
  obtain ⟨hne, hline⟩ := h
  simp only [backspace, setCurrentLine]
  split
  · refine ⟨set_ne_nil _ _ _ hne, ?_⟩
    show s.cursor.line < (s.lines.set s.cursor.line _).length
    simpa using hline
  · split
    · rename_i hc0 hl0
      refine ⟨?_, ?_⟩
      · rw [ne_nil_iff_length_pos]
        simp only [List.length_set, List.length_append, List.length_take, List.length_drop]
        omega
      · show s.cursor.line - 1 < List.length _
        simp only [List.length_set, List.length_append, List.length_take, List.length_drop]
        omega
    · exact ⟨hne, hline⟩

theorem INV_updateSelection {s : EditorState} (h : INV s) : INV (updateSelection s) := by
  simp only [updateSelection]
  split
  · exact h
  · exact h

theorem INV_deleteSelection {s : EditorState} (h : INV s) : INV (deleteSelection s) := by
  obtain ⟨⟨hne, hline⟩, hcol⟩ := h
  simp only [deleteSelection]
  split
  · exact ⟨⟨hne, hline⟩, hcol⟩
  · apply INV_clamped
    split
    · exact set_ne_nil _ _ _ hne
    · rw [ne_nil_iff_length_pos]
      have hn : 0 < s.lines.length := List.length_pos.mpr hne
      simp only [List.length_append, List.length_take, List.length_drop, List.length_set]
      omega

theorem INV_yankSelection {s : EditorState} (h : INV s) : INV (yankSelection s) := by
  simp only [yankSelection]
  split
  · exact h
  · split
    · exact h
    · exact h

theorem INV_moveWordForward {s : EditorState} (h : INV s) : INV (moveWordForward s) := by
  obtain ⟨⟨hne, hline⟩, hcol⟩ := h
  simp only [moveWordForward]
  split
  · rename_i hcond
    exact ⟨⟨hne, hcond.2⟩, scanWhile_le _ _ _ (Nat.zero_le _)⟩
  · refine ⟨⟨hne, hline⟩, ?_⟩
    show min _ ((getCurrentLine s).length - 1) ≤ (getCurrentLine s).length
    omega

theorem INV0_moveWordForward {s : EditorState} (h : INV0 s) : INV0 (moveWordForward s) := by
  obtain ⟨hne, hline⟩ := h
  simp only [moveWordForward]
  split
  · rename_i hcond
    exact ⟨hne, hcond.2⟩
  · exact ⟨hne, hline⟩

theorem INV_moveWordBackward {s : EditorState} (h : INV s) : INV (moveWordBackward s) := by
  obtain ⟨⟨hne, hline⟩, hcol⟩ := h
  simp only [moveWordBackward]
  refine ⟨⟨hne, hline⟩, ?_⟩
  have hc0 : (if 0 < s.cursor.col then s.cursor.col - 1 else s.cursor.col) ≤ s.cursor.col := by
    split
    · omega
    · omega
  have h2 := scanBackWhileAt_le jsIsSpace (getCurrentLine s)
    (if 0 < s.cursor.col then s.cursor.col - 1 else s.cursor.col)
  have h1 := scanBackWhilePrev_le jsIsWordChar (getCurrentLine s)
    (scanBackWhileAt jsIsSpace (getCurrentLine s)
      (if 0 < s.cursor.col then s.cursor.col - 1 else s.cursor.col))
  show scanBackWhilePrev _ _ (scanBackWhileAt _ _ _) ≤ (getCurrentLine s).length
  omega

theorem INV0_moveWordBackward {s : EditorState} (h : INV0 s) : INV0 (moveWordBackward s) :=
  h

theorem INV_moveToEndOfWord {s : EditorState} (h : INV s) : INV (moveToEndOfWord s) := by
  obtain ⟨⟨hne, hline⟩, hcol⟩ := h
  refine ⟨⟨hne, hline⟩, ?_⟩
  show min _ ((getCurrentLine s).length - 1) ≤ (getCurrentLine s).length
  omega

theorem INV0_moveToEndOfWord {s : EditorState} (h : INV0 s) : INV0 (moveToEndOfWord s) :=
  h

theorem scanForward_some {lines : List (List Char)} {pat : List Char}
    {startLine startCol : Nat} {is : List Nat} {L c : Nat}
    (h : scanForward lines pat startLine startCol is = some (L, c)) (hn : lines ≠ []) :
    L < lines.length ∧ c ≤ (lines.getD L []).length := by
  induction is with
  | nil => exact absurd h (by simp [scanForward])
  | cons i rest ih =>
    simp only [scanForward] at h
    split at h
    · rename_i idx hidx
      simp only [Option.some.injEq, Prod.mk.injEq] at h
      obtain ⟨hL, hc⟩ := h
      have hb := jsIndexOf_some hidx
      simp only [jsToLower, List.length_map] at hb
      refine ⟨?_, ?_⟩
      · rw [← hL]
        exact Nat.mod_lt _ (List.length_pos.mpr hn)
      · rw [← hc, ← hL]
        omega
    · exact ih h

theorem scanBackward_some {lines : List (List Char)} {pat : List Char}
    {startLine : Nat} {startCol : Int} {is : List Nat} {L c : Nat}
    (h : scanBackward lines pat startLine startCol is = some (L, c)) (hn : lines ≠ []) :
    L < lines.length ∧ c ≤ (lines.getD L []).length := by
  induction is with
  | nil => exact absurd h (by simp [scanBackward])
  | cons i rest ih =>
    simp only [scanBackward] at h
    split at h
    · rename_i idx hidx
      simp only [Option.some.injEq, Prod.mk.injEq] at h
      obtain ⟨hL, hc⟩ := h
      have hb := jsLastIndexOf_some hidx
      simp only [jsToLower, List.length_map] at hb
      refine ⟨?_, ?_⟩
      · rw [← hL]
        exact Nat.mod_lt _ (List.length_pos.mpr hn)
      · rw [← hc, ← hL]
        omega
    · exact ih h

theorem INV_searchNext {s : EditorState} (h : INV s) : INV (searchNext s) := by
  obtain ⟨⟨hne, hline⟩, hcol⟩ := h
  simp only [searchNext]
  split
  · exact ⟨⟨hne, hline⟩, hcol⟩
  · split
    · rename_i lc hlc
      obtain ⟨L, c⟩ := lc
      have := scanForward_some hlc hne
      exact ⟨⟨hne, this.1⟩, this.2⟩
    · exact ⟨⟨hne, hline⟩, hcol⟩

theorem INV_searchPrev {s : EditorState} (h : INV s) : INV (searchPrev s) := by
  obtain ⟨⟨hne, hline⟩, hcol⟩ := h
  simp only [searchPrev]
  split
  · exact ⟨⟨hne, hline⟩, hcol⟩
  · split
    · rename_i lc hlc
      obtain ⟨L, c⟩ := lc
      have := scanBackward_some hlc hne
      exact ⟨⟨hne, this.1⟩, this.2⟩
    · exact ⟨⟨hne, hline⟩, hcol⟩

theorem INV_searchWordUnderCursor {s : EditorState} (h : INV s) :
    INV (searchWordUnderCursor s) := by
  simp only [searchWordUnderCursor]
  split
  · exact INV_searchNext h
  · exact h

theorem INV0_executeSubstitution {cmd : List Char} {s : EditorState} (h : INV0 s) :
    INV0 (executeSubstitution cmd s) := by
  obtain ⟨hne, hline⟩ := h
  simp only [executeSubstitution, setCurrentLine]
  split
  · split
    all_goals
      refine ⟨set_ne_nil _ _ _ hne, ?_⟩
      show s.cursor.line < (s.lines.set s.cursor.line _).length
      simpa using hline
  · exact ⟨hne, hline⟩

theorem INV0_searchNext {s : EditorState} (h : INV0 s) : INV0 (searchNext s) := by
  obtain ⟨hne, hline⟩ := h
  simp only [searchNext]
  split
  · exact ⟨hne, hline⟩
  · split
    · rename_i lc hlc
      obtain ⟨L, c⟩ := lc
      exact ⟨hne, (scanForward_some hlc hne).1⟩
    · exact ⟨hne, hline⟩

theorem INV0_searchPrev {s : EditorState} (h : INV0 s) : INV0 (searchPrev s) := by
  obtain ⟨hne, hline⟩ := h
  simp only [searchPrev]
  split
  · exact ⟨hne, hline⟩
  · split
    · rename_i lc hlc
      obtain ⟨L, c⟩ := lc
      exact ⟨hne, (scanBackward_some hlc hne).1⟩
    · exact ⟨hne, hline⟩

theorem INV0_searchWordUnderCursor {s : EditorState} (h : INV0 s) :
    INV0 (searchWordUnderCursor s) := by
  simp only [searchWordUnderCursor]
  split
  · exact INV0_searchNext h
  · exact h

theorem INV0_executeCommand {s : EditorState} (h : INV0 s) : INV0 (executeCommand s) := by
  obtain ⟨hne, hline⟩ := h
  simp only [executeCommand]
  have step : ∀ t : EditorState, INV0 t →
      INV0 { t with mode := VimMode.normal, commandBuffer := [] } := fun t ht => ht
  apply step
  split
  · split
    · exact INV0_searchNext ⟨hne, hline⟩
    · exact ⟨hne, hline⟩
  · split
    · exact ⟨hne, hline⟩
    split
    · exact ⟨hne, hline⟩
    split
    · exact ⟨hne, hline⟩
    split
    · apply INV0_of_INV
      apply INV_clamped
      exact hne
    split
    · exact INV0_executeSubstitution ⟨hne, hline⟩
    · exact ⟨hne, hline⟩
  · exact ⟨hne, hline⟩

theorem INV0_updateSelection {s : EditorState} (h : INV0 s) : INV0 (updateSelection s) := by
  simp only [updateSelection]
  split
  · exact h
  · exact h

theorem INV0_deleteSelection {s : EditorState} (h : INV0 s) : INV0 (deleteSelection s) := by
  obtain ⟨hne, hline⟩ := h
  simp only [deleteSelection]
  split
  · exact ⟨hne, hline⟩
  · refine INV0_of_INV (INV_clamped _ _ ?_)
    split
    · exact set_ne_nil _ _ _ hne
    · rw [ne_nil_iff_length_pos]
      have hn : 0 < s.lines.length := List.length_pos.mpr hne
      simp only [List.length_append, List.length_take, List.length_drop, List.length_set]
      omega

theorem INV0_yankSelection {s : EditorState} (h : INV0 s) : INV0 (yankSelection s) := by
  simp only [yankSelection]
  split
  · exact h
  · split
    · exact h
    · exact h

theorem INV0_insertText {text : List Char} {s : EditorState} (h : INV0 s) :
    INV0 (insertText text s) := by
  obtain ⟨hne, hline⟩ := h
  simp only [insertText, setCurrentLine]
  refine ⟨set_ne_nil _ _ _ hne, ?_⟩
  show s.cursor.line < (s.lines.set s.cursor.line _).length
  simpa using hline

theorem INV0_insertNewline {s : EditorState} (h : INV0 s) : INV0 (insertNewline s) := by
  obtain ⟨hne, hline⟩ := h
  simp only [insertNewline, setCurrentLine, spliceIn]
  refine ⟨?_, ?_⟩
  · rw [ne_nil_iff_length_pos]
    simp only [List.length_append, List.length_take, List.length_drop, List.length_set,
      List.length_cons, List.length_nil]
    omega
  · show s.cursor.line + 1 < List.length _
    simp only [List.length_append, List.length_take, List.length_drop, List.length_set,
      List.length_cons, List.length_nil]
    omega

theorem switch_INV (count : Nat) (s : EditorState) (key : List Char) (h : INV s) :
    INV (handleNormalSwitch count s key).1 := by
  obtain ⟨⟨hne, hline⟩, hcol⟩ := h
  have h : INV s := ⟨⟨hne, hline⟩, hcol⟩
  unfold handleNormalSwitch
  dsimp only
  by_cases hcnd1 : ((key = str "h") ∨ (key = str "ArrowLeft"))
  · rw [if_pos hcnd1]
    refine @iterateOp_pres _ INV ?_ _ _ h
    intro t ht
    refine ⟨ht.1, ?_⟩
    show t.cursor.col - 1 ≤ (getCurrentLine t).length
    have := ht.2
    omega
  rw [if_neg hcnd1]
  by_cases hcnd2 : ((key = str "j") ∨ (key = str "ArrowDown"))
  · rw [if_pos hcnd2]
    apply INV_clamped
    rw [iterateOp_lines_const]
    · exact hne
    · exact fun t => rfl
  rw [if_neg hcnd2]
  by_cases hcnd3 : ((key = str "k") ∨ (key = str "ArrowUp"))
  · rw [if_pos hcnd3]
    apply INV_clamped
    rw [iterateOp_lines_const]
    · exact hne
    · exact fun t => rfl
  rw [if_neg hcnd3]
  by_cases hcnd4 : ((key = str "l") ∨ (key = str "ArrowRight"))
  · rw [if_pos hcnd4]
    refine @iterateOp_pres _ INV ?_ _ _ h
    intro t ht
    refine ⟨ht.1, ?_⟩
    show min ((getCurrentLine t).length - 1) (t.cursor.col + 1) ≤ (getCurrentLine t).length
    omega
  rw [if_neg hcnd4]
  by_cases hcnd5 : (key = str "w")
  · rw [if_pos hcnd5]
    exact @iterateOp_pres _ INV (fun t ht => INV_moveWordForward ht) _ _ h
  rw [if_neg hcnd5]
  by_cases hcnd6 : (key = str "b")
  · rw [if_pos hcnd6]
    exact @iterateOp_pres _ INV (fun t ht => INV_moveWordBackward ht) _ _ h
  rw [if_neg hcnd6]
  by_cases hcnd7 : (key = str "e")
  · rw [if_pos hcnd7]
    exact @iterateOp_pres _ INV (fun t ht => INV_moveToEndOfWord ht) _ _ h
  rw [if_neg hcnd7]
  by_cases hcnd8 : (key = str "0")
  · rw [if_pos hcnd8]
    exact ⟨⟨hne, hline⟩, Nat.zero_le _⟩
  rw [if_neg hcnd8]
  by_cases hcnd9 : (key = str "$")
  · rw [if_pos hcnd9]
    refine ⟨⟨hne, hline⟩, ?_⟩
    show (getCurrentLine s).length - 1 ≤ (getCurrentLine s).length
    omega
  rw [if_neg hcnd9]
  by_cases hcnd10 : (key = str "^")
  · rw [if_pos hcnd10]
    exact ⟨⟨hne, hline⟩, firstNonSpace_getD_le _⟩
  rw [if_neg hcnd10]
  by_cases hcnd11 : (key = str "G")
  · rw [if_pos hcnd11]
    apply INV_clamped
    exact hne
  rw [if_neg hcnd11]
  by_cases hcnd12 : (key = str "i")
  · rw [if_pos hcnd12]
    exact h
  rw [if_neg hcnd12]
  by_cases hcnd13 : (key = str "a")
  · rw [if_pos hcnd13]
    refine ⟨⟨hne, hline⟩, ?_⟩
    show min (getCurrentLine s).length (s.cursor.col + 1) ≤ (getCurrentLine s).length
    omega
  rw [if_neg hcnd13]
  by_cases hcnd14 : (key = str "A")
  · rw [if_pos hcnd14]
    exact ⟨⟨hne, hline⟩, Nat.le_refl _⟩
  rw [if_neg hcnd14]
  by_cases hcnd15 : (key = str "I")
  · rw [if_pos hcnd15]
    exact ⟨⟨hne, hline⟩, firstNonSpace_getD_le _⟩
  rw [if_neg hcnd15]
  by_cases hcnd16 : (key = str "o")
  · rw [if_pos hcnd16]
    refine ⟨⟨?_, ?_⟩, Nat.zero_le _⟩
    · rw [ne_nil_iff_length_pos]
      show 0 < (spliceIn (s.cursor.line + 1) [[]] s.lines).length
      simp only [spliceIn, List.length_append, List.length_take, List.length_drop,
        List.length_cons, List.length_nil]
      omega
    · show s.cursor.line + 1 < (spliceIn (s.cursor.line + 1) [[]] s.lines).length
      simp only [spliceIn, List.length_append, List.length_take, List.length_drop,
        List.length_cons, List.length_nil]
      omega
  rw [if_neg hcnd16]
  by_cases hcnd17 : (key = str "O")
  · rw [if_pos hcnd17]
    refine ⟨⟨?_, ?_⟩, Nat.zero_le _⟩
    · rw [ne_nil_iff_length_pos]
      show 0 < (spliceIn s.cursor.line [[]] s.lines).length
      simp only [spliceIn, List.length_append, List.length_take, List.length_drop,
        List.length_cons, List.length_nil]
      omega
    · show s.cursor.line < (spliceIn s.cursor.line [[]] s.lines).length
      simp only [spliceIn, List.length_append, List.length_take, List.length_drop,
        List.length_cons, List.length_nil]
      omega
  rw [if_neg hcnd17]
  by_cases hcnd18 : (key = str "v")
  · rw [if_pos hcnd18]
    exact h
  rw [if_neg hcnd18]
  by_cases hcnd19 : (key = str "V")
  · rw [if_pos hcnd19]
    exact h
  rw [if_neg hcnd19]
  by_cases hcnd20 : (key = str "x")
  · rw [if_pos hcnd20]
    exact @iterateOp_pres _ INV (fun t ht => INV_deleteChar ht) _ _ h
  rw [if_neg hcnd20]
  by_cases hcnd21 : (key = str "X")
  · rw [if_pos hcnd21]
    exact @iterateOp_pres _ INV (fun t ht => INV_deleteCharBefore ht) _ _ h
  rw [if_neg hcnd21]
  by_cases hcnd22 : (key = str "s")
  · rw [if_pos hcnd22]
    exact INV_deleteChar h
  rw [if_neg hcnd22]
  by_cases hcnd23 : (key = str "S")
  · rw [if_pos hcnd23]
    refine ⟨⟨set_ne_nil _ _ _ hne, ?_⟩, Nat.zero_le _⟩
    show s.cursor.line < (s.lines.set s.cursor.line []).length
    simpa using hline
  rw [if_neg hcnd23]
  by_cases hcnd24 : (key = str "D")
  · rw [if_pos hcnd24]
    exact INV_deleteToEnd hne
  rw [if_neg hcnd24]
  by_cases hcnd25 : (key = str "C")
  · rw [if_pos hcnd25]
    exact INV_deleteToEnd hne
  rw [if_neg hcnd25]
  by_cases hcnd26 : (key = str "p")
  · rw [if_pos hcnd26]
    exact INV_paste h
  rw [if_neg hcnd26]
  by_cases hcnd27 : (key = str "P")
  · rw [if_pos hcnd27]
    exact INV_paste h
  rw [if_neg hcnd27]
  by_cases hcnd28 : (key = str "u")
  · rw [if_pos hcnd28]
    exact h
  rw [if_neg hcnd28]
  by_cases hcnd29 : (key = str "J")
  · rw [if_pos hcnd29]
    exact INV_joinLines h
  rw [if_neg hcnd29]
  by_cases hcnd30 : (key = str ":")
  · rw [if_pos hcnd30]
    exact h
  rw [if_neg hcnd30]
  by_cases hcnd31 : (key = str "/")
  · rw [if_pos hcnd31]
    exact h
  rw [if_neg hcnd31]
  by_cases hcnd32 : (key = str "n")
  · rw [if_pos hcnd32]
    exact INV_searchNext h
  rw [if_neg hcnd32]
  by_cases hcnd33 : (key = str "N")
  · rw [if_pos hcnd33]
    exact INV_searchPrev h
  rw [if_neg hcnd33]
  by_cases hcnd34 : (key = str "*")
  · rw [if_pos hcnd34]
    exact INV_searchWordUnderCursor h
  rw [if_neg hcnd34]
  by_cases hcnd35 : (key = str "Escape")
  · rw [if_pos hcnd35]
    exact h
  rw [if_neg hcnd35]
  exact h

theorem normal_INV (eng : VimEngine) (key : List Char) (h : INV eng.state) :
    INV (handleNormalMode eng key).1.state := by
  obtain ⟨⟨hne, hline⟩, hcol⟩ := h
  have h : INV eng.state := ⟨⟨hne, hline⟩, hcol⟩
  unfold handleNormalMode
  dsimp only
  by_cases hcnd1 : (isDigit19 key || (!eng.countBuffer.isEmpty && isDigit09 key)) = true
  · rw [if_pos hcnd1]
    exact h
  rw [if_neg hcnd1]
  by_cases hcnd2 : (eng.state.commandBuffer ++ key = str "dd")
  · rw [if_pos hcnd2]
    exact INV_deleteLine _ _
  rw [if_neg hcnd2]
  by_cases hcnd3 : (eng.state.commandBuffer ++ key = str "yy")
  · rw [if_pos hcnd3]
    exact h
  rw [if_neg hcnd3]
  by_cases hcnd4 : (eng.state.commandBuffer ++ key = str "cc")
  · rw [if_pos hcnd4]
    exact INV_changeLine h
  rw [if_neg hcnd4]
  by_cases hcnd5 : (eng.state.commandBuffer ++ key = str "gg")
  · rw [if_pos hcnd5]
    exact ⟨⟨hne, List.length_pos.mpr hne⟩, Nat.zero_le _⟩
  rw [if_neg hcnd5]
  by_cases hcnd6 : (eng.state.commandBuffer ++ key = str "dw")
  · rw [if_pos hcnd6]
    exact INV_deleteWord _ hne
  rw [if_neg hcnd6]
  by_cases hcnd7 : (eng.state.commandBuffer ++ key = str "cw")
  · rw [if_pos hcnd7]
    exact INV_changeWord h
  rw [if_neg hcnd7]
  by_cases hcnd8 : (eng.state.commandBuffer ++ key = str "di\"" ∨ eng.state.commandBuffer ++ key = str "di" ++ [sq])
  · rw [if_pos hcnd8]
    exact INV_deleteInQuotes h
  rw [if_neg hcnd8]
  by_cases hcnd9 : (eng.state.commandBuffer ++ key = str "ci\"" ∨ eng.state.commandBuffer ++ key = str "ci" ++ [sq])
  · rw [if_pos hcnd9]
    exact INV_changeInQuotes h
  rw [if_neg hcnd9]
  by_cases hcnd10 : (prefixKeys.contains key && decide (eng.state.commandBuffer ++ key = key)) = true
  · rw [if_pos hcnd10]
    exact h
  rw [if_neg hcnd10]
  by_cases hcnd11 : (eng.state.commandBuffer = str "r" ∧ key.length = 1)
  · rw [if_pos hcnd11]
    refine ⟨⟨set_ne_nil _ _ _ hne, ?_⟩, ?_⟩
    · show eng.state.cursor.line < (eng.state.lines.set eng.state.cursor.line _).length
      simpa using hline
    · show eng.state.cursor.col ≤
        ((eng.state.lines.set eng.state.cursor.line _).getD eng.state.cursor.line []).length
      rw [getD_set_self _ _ _ _ hline, jsSubstring_zero]
      simp only [getCurrentLine, List.length_append, List.length_take, List.length_drop]
      simp only [getCurrentLine] at hcol
      omega
  rw [if_neg hcnd11]
  by_cases hcnd12 : (eng.state.commandBuffer = str "f" ∧ key.length = 1)
  · rw [if_pos hcnd12]
    split
    · rename_i idx hidx
      obtain ⟨hb1, -, -⟩ := jsIndexOf_some hidx
      refine ⟨⟨hne, hline⟩, ?_⟩
      show idx ≤ (getCurrentLine eng.state).length
      omega
    · exact h
  rw [if_neg hcnd12]
  by_cases hcnd13 : (eng.state.commandBuffer = str "F" ∧ key.length = 1)
  · rw [if_pos hcnd13]
    split
    · rename_i idx hidx
      obtain ⟨hb1, -⟩ := jsLastIndexOf_some hidx
      refine ⟨⟨hne, hline⟩, ?_⟩
      show idx ≤ (getCurrentLine eng.state).length
      omega
    · exact h
  rw [if_neg hcnd13]
  exact switch_INV _ _ _ h

theorem switch_INV0 (count : Nat) (s : EditorState) (key : List Char) (h : INV0 s) :
    INV0 (handleNormalSwitch count s key).1 := by
  obtain ⟨hne, hline⟩ := h
  have h : INV0 s := ⟨hne, hline⟩
  unfold handleNormalSwitch
  dsimp only
  by_cases hcnd1 : ((key = str "h") ∨ (key = str "ArrowLeft"))
  · rw [if_pos hcnd1]
    refine @iterateOp_pres _ INV0 ?_ _ _ h
    intro t ht
    exact ht
  rw [if_neg hcnd1]
  by_cases hcnd2 : ((key = str "j") ∨ (key = str "ArrowDown"))
  · rw [if_pos hcnd2]
    refine INV0_of_INV (INV_clamped _ _ ?_)
    rw [iterateOp_lines_const]
    · exact hne
    · exact fun t => rfl
  rw [if_neg hcnd2]
  by_cases hcnd3 : ((key = str "k") ∨ (key = str "ArrowUp"))
  · rw [if_pos hcnd3]
    refine INV0_of_INV (INV_clamped _ _ ?_)
    rw [iterateOp_lines_const]
    · exact hne
    · exact fun t => rfl
  rw [if_neg hcnd3]
  by_cases hcnd4 : ((key = str "l") ∨ (key = str "ArrowRight"))
  · rw [if_pos hcnd4]
    refine @iterateOp_pres _ INV0 ?_ _ _ h
    intro t ht
    exact ht
  rw [if_neg hcnd4]
  by_cases hcnd5 : (key = str "w")
  · rw [if_pos hcnd5]
    exact @iterateOp_pres _ INV0 (fun t ht => INV0_moveWordForward ht) _ _ h
  rw [if_neg hcnd5]
  by_cases hcnd6 : (key = str "b")
  · rw [if_pos hcnd6]
    refine @iterateOp_pres _ INV0 ?_ _ _ h
    intro t ht
    exact ht
  rw [if_neg hcnd6]
  by_cases hcnd7 : (key = str "e")
  · rw [if_pos hcnd7]
    refine @iterateOp_pres _ INV0 ?_ _ _ h
    intro t ht
    exact ht
  rw [if_neg hcnd7]
  by_cases hcnd8 : (key = str "0")
  · rw [if_pos hcnd8]
    exact h
  rw [if_neg hcnd8]
  by_cases hcnd9 : (key = str "$")
  · rw [if_pos hcnd9]
    exact h
  rw [if_neg hcnd9]
  by_cases hcnd10 : (key = str "^")
  · rw [if_pos hcnd10]
    exact h
  rw [if_neg hcnd10]
  by_cases hcnd11 : (key = str "G")
  · rw [if_pos hcnd11]
    refine INV0_of_INV (INV_clamped _ _ ?_)
    exact hne
  rw [if_neg hcnd11]
  by_cases hcnd12 : (key = str "i")
  · rw [if_pos hcnd12]
    exact h
  rw [if_neg hcnd12]
  by_cases hcnd13 : (key = str "a")
  · rw [if_pos hcnd13]
    exact h
  rw [if_neg hcnd13]
  by_cases hcnd14 : (key = str "A")
  · rw [if_pos hcnd14]
    exact h
  rw [if_neg hcnd14]
  by_cases hcnd15 : (key = str "I")
  · rw [if_pos hcnd15]
    exact h
  rw [if_neg hcnd15]
  by_cases hcnd16 : (key = str "o")
  · rw [if_pos hcnd16]
    refine ⟨?_, ?_⟩
    · rw [ne_nil_iff_length_pos]
      show 0 < (spliceIn (s.cursor.line + 1) [[]] s.lines).length
      simp only [spliceIn, List.length_append, List.length_take, List.length_drop,
        List.length_cons, List.length_nil]
      omega
    · show s.cursor.line + 1 < (spliceIn (s.cursor.line + 1) [[]] s.lines).length
      simp only [spliceIn, List.length_append, List.length_take, List.length_drop,
        List.length_cons, List.length_nil]
      omega
  rw [if_neg hcnd16]
  by_cases hcnd17 : (key = str "O")
  · rw [if_pos hcnd17]
    refine ⟨?_, ?_⟩
    · rw [ne_nil_iff_length_pos]
      show 0 < (spliceIn s.cursor.line [[]] s.lines).length
      simp only [spliceIn, List.length_append, List.length_take, List.length_drop,
        List.length_cons, List.length_nil]
      omega
    · show s.cursor.line < (spliceIn s.cursor.line [[]] s.lines).length
      simp only [spliceIn, List.length_append, List.length_take, List.length_drop,
        List.length_cons, List.length_nil]
      omega
  rw [if_neg hcnd17]
  by_cases hcnd18 : (key = str "v")
  · rw [if_pos hcnd18]
    exact h
  rw [if_neg hcnd18]
  by_cases hcnd19 : (key = str "V")
  · rw [if_pos hcnd19]
    exact h
  rw [if_neg hcnd19]
  by_cases hcnd20 : (key = str "x")
  · rw [if_pos hcnd20]
    exact @iterateOp_pres _ INV0 (fun t ht => INV0_deleteChar ht) _ _ h
  rw [if_neg hcnd20]
  by_cases hcnd21 : (key = str "X")
  · rw [if_pos hcnd21]
    exact @iterateOp_pres _ INV0 (fun t ht => INV0_deleteCharBefore ht) _ _ h
  rw [if_neg hcnd21]
  by_cases hcnd22 : (key = str "s")
  · rw [if_pos hcnd22]
    exact INV0_deleteChar h
  rw [if_neg hcnd22]
  by_cases hcnd23 : (key = str "S")
  · rw [if_pos hcnd23]
    refine ⟨set_ne_nil _ _ _ hne, ?_⟩
    show s.cursor.line < (s.lines.set s.cursor.line []).length
    simpa using hline
  rw [if_neg hcnd23]
  by_cases hcnd24 : (key = str "D")
  · rw [if_pos hcnd24]
    exact (INV_deleteToEnd hne).1
  rw [if_neg hcnd24]
  by_cases hcnd25 : (key = str "C")
  · rw [if_pos hcnd25]
    exact (INV_deleteToEnd hne).1
  rw [if_neg hcnd25]
  by_cases hcnd26 : (key = str "p")
  · rw [if_pos hcnd26]
    exact INV0_paste h
  rw [if_neg hcnd26]
  by_cases hcnd27 : (key = str "P")
  · rw [if_pos hcnd27]
    exact INV0_paste h
  rw [if_neg hcnd27]
  by_cases hcnd28 : (key = str "u")
  · rw [if_pos hcnd28]
    exact h
  rw [if_neg hcnd28]
  by_cases hcnd29 : (key = str "J")
  · rw [if_pos hcnd29]
    exact INV0_joinLines h
  rw [if_neg hcnd29]
  by_cases hcnd30 : (key = str ":")
  · rw [if_pos hcnd30]
    exact h
  rw [if_neg hcnd30]
  by_cases hcnd31 : (key = str "/")
  · rw [if_pos hcnd31]
    exact h
  rw [if_neg hcnd31]
  by_cases hcnd32 : (key = str "n")
  · rw [if_pos hcnd32]
    exact INV0_searchNext h
  rw [if_neg hcnd32]
  by_cases hcnd33 : (key = str "N")
  · rw [if_pos hcnd33]
    exact INV0_searchPrev h
  rw [if_neg hcnd33]
  by_cases hcnd34 : (key = str "*")
  · rw [if_pos hcnd34]
    exact INV0_searchWordUnderCursor h
  rw [if_neg hcnd34]
  by_cases hcnd35 : (key = str "Escape")
  · rw [if_pos hcnd35]
    exact h
  rw [if_neg hcnd35]
  exact h

theorem normal_INV0 (eng : VimEngine) (key : List Char) (h : INV0 eng.state) :
    INV0 (handleNormalMode eng key).1.state := by
  obtain ⟨hne, hline⟩ := h
  have h : INV0 eng.state := ⟨hne, hline⟩
  unfold handleNormalMode
  dsimp only
  by_cases hcnd1 : (isDigit19 key || (!eng.countBuffer.isEmpty && isDigit09 key)) = true
  · rw [if_pos hcnd1]
    exact h
  rw [if_neg hcnd1]
  by_cases hcnd2 : (eng.state.commandBuffer ++ key = str "dd")
  · rw [if_pos hcnd2]
    exact (INV_deleteLine _ _).1
  rw [if_neg hcnd2]
  by_cases hcnd3 : (eng.state.commandBuffer ++ key = str "yy")
  · rw [if_pos hcnd3]
    exact h
  rw [if_neg hcnd3]
  by_cases hcnd4 : (eng.state.commandBuffer ++ key = str "cc")
  · rw [if_pos hcnd4]
    exact INV0_changeLine h
  rw [if_neg hcnd4]
  by_cases hcnd5 : (eng.state.commandBuffer ++ key = str "gg")
  · rw [if_pos hcnd5]
    exact ⟨hne, List.length_pos.mpr hne⟩
  rw [if_neg hcnd5]
  by_cases hcnd6 : (eng.state.commandBuffer ++ key = str "dw")
  · rw [if_pos hcnd6]
    exact (INV_deleteWord _ hne).1
  rw [if_neg hcnd6]
  by_cases hcnd7 : (eng.state.commandBuffer ++ key = str "cw")
  · rw [if_pos hcnd7]
    exact INV0_changeWord h
  rw [if_neg hcnd7]
  by_cases hcnd8 : (eng.state.commandBuffer ++ key = str "di\"" ∨ eng.state.commandBuffer ++ key = str "di" ++ [sq])
  · rw [if_pos hcnd8]
    exact INV0_deleteInQuotes h
  rw [if_neg hcnd8]
  by_cases hcnd9 : (eng.state.commandBuffer ++ key = str "ci\"" ∨ eng.state.commandBuffer ++ key = str "ci" ++ [sq])
  · rw [if_pos hcnd9]
    exact INV0_deleteInQuotes h
  rw [if_neg hcnd9]
  by_cases hcnd10 : (prefixKeys.contains key && decide (eng.state.commandBuffer ++ key = key)) = true
  · rw [if_pos hcnd10]
    exact h
  rw [if_neg hcnd10]
  by_cases hcnd11 : (eng.state.commandBuffer = str "r" ∧ key.length = 1)
  · rw [if_pos hcnd11]
    refine ⟨set_ne_nil _ _ _ hne, ?_⟩
    show eng.state.cursor.line < (eng.state.lines.set eng.state.cursor.line _).length
    simpa using hline
  rw [if_neg hcnd11]
  by_cases hcnd12 : (eng.state.commandBuffer = str "f" ∧ key.length = 1)
  · rw [if_pos hcnd12]
    split
    · exact h
    · exact h
  rw [if_neg hcnd12]
  by_cases hcnd13 : (eng.state.commandBuffer = str "F" ∧ key.length = 1)
  · rw [if_pos hcnd13]
    split
    · exact h
    · exact h
  rw [if_neg hcnd13]
  exact switch_INV0 _ _ _ h

theorem insert_INV (eng : VimEngine) (key : List Char) (ctrl : Bool) (h : INV eng.state) :
    INV (handleInsertMode eng key ctrl).1.state := by
  obtain ⟨⟨hne, hline⟩, hcol⟩ := h
  have h : INV eng.state := ⟨⟨hne, hline⟩, hcol⟩
  unfold handleInsertMode
  dsimp only
  by_cases hcnd1 : (key = str "Escape")
  · rw [if_pos hcnd1]
    refine ⟨⟨hne, hline⟩, ?_⟩
    show eng.state.cursor.col - 1 ≤ (getCurrentLine eng.state).length
    omega
  rw [if_neg hcnd1]
  by_cases hcnd2 : (key = str "Backspace")
  · rw [if_pos hcnd2]
    exact INV_backspace h
  rw [if_neg hcnd2]
  by_cases hcnd3 : (key = str "Delete")
  · rw [if_pos hcnd3]
    exact INV_deleteChar h
  rw [if_neg hcnd3]
  by_cases hcnd4 : (key = str "Enter")
  · rw [if_pos hcnd4]
    exact INV_insertNewline h
  rw [if_neg hcnd4]
  by_cases hcnd5 : (key = str "Tab")
  · rw [if_pos hcnd5]
    exact INV_insertText h
  rw [if_neg hcnd5]
  by_cases hcnd6 : (key = str "ArrowLeft")
  · rw [if_pos hcnd6]
    refine ⟨⟨hne, hline⟩, ?_⟩
    show eng.state.cursor.col - 1 ≤ (getCurrentLine eng.state).length
    omega
  rw [if_neg hcnd6]
  by_cases hcnd7 : (key = str "ArrowRight")
  · rw [if_pos hcnd7]
    refine ⟨⟨hne, hline⟩, ?_⟩
    show min (getCurrentLine eng.state).length (eng.state.cursor.col + 1) ≤
      (getCurrentLine eng.state).length
    omega
  rw [if_neg hcnd7]
  by_cases hcnd8 : (key = str "ArrowUp")
  · rw [if_pos hcnd8]
    apply INV_clamped
    exact hne
  rw [if_neg hcnd8]
  by_cases hcnd9 : (key = str "ArrowDown")
  · rw [if_pos hcnd9]
    apply INV_clamped
    exact hne
  rw [if_neg hcnd9]
  by_cases hcnd10 : (key.length = 1 ∧ ctrl = false)
  · rw [if_pos hcnd10]
    exact INV_insertText h
  rw [if_neg hcnd10]
  exact h

theorem insert_INV0 (eng : VimEngine) (key : List Char) (ctrl : Bool) (h : INV0 eng.state) :
    INV0 (handleInsertMode eng key ctrl).1.state := by
  obtain ⟨hne, hline⟩ := h
  have h : INV0 eng.state := ⟨hne, hline⟩
  unfold handleInsertMode
  dsimp only
  by_cases hcnd1 : (key = str "Escape")
  · rw [if_pos hcnd1]
    exact h
  rw [if_neg hcnd1]
  by_cases hcnd2 : (key = str "Backspace")
  · rw [if_pos hcnd2]
    exact INV0_backspace h
  rw [if_neg hcnd2]
  by_cases hcnd3 : (key = str "Delete")
  · rw [if_pos hcnd3]
    exact INV0_deleteChar h
  rw [if_neg hcnd3]
  by_cases hcnd4 : (key = str "Enter")
  · rw [if_pos hcnd4]
    exact INV0_insertNewline h
  rw [if_neg hcnd4]
  by_cases hcnd5 : (key = str "Tab")
  · rw [if_pos hcnd5]
    exact INV0_insertText h
  rw [if_neg hcnd5]
  by_cases hcnd6 : (key = str "ArrowLeft")
  · rw [if_pos hcnd6]
    exact h
  rw [if_neg hcnd6]
  by_cases hcnd7 : (key = str "ArrowRight")
  · rw [if_pos hcnd7]
    exact h
  rw [if_neg hcnd7]
  by_cases hcnd8 : (key = str "ArrowUp")
  · rw [if_pos hcnd8]
    refine INV0_of_INV (INV_clamped _ _ ?_)
    exact hne
  rw [if_neg hcnd8]
  by_cases hcnd9 : (key = str "ArrowDown")
  · rw [if_pos hcnd9]
    refine INV0_of_INV (INV_clamped _ _ ?_)
    exact hne
  rw [if_neg hcnd9]
  by_cases hcnd10 : (key.length = 1 ∧ ctrl = false)
  · rw [if_pos hcnd10]
    exact INV0_insertText h
  rw [if_neg hcnd10]
  exact h

theorem visual_INV (eng : VimEngine) (key : List Char) (h : INV eng.state) :
    INV (handleVisualMode eng key).1.state := by
  obtain ⟨⟨hne, hline⟩, hcol⟩ := h
  have h : INV eng.state := ⟨⟨hne, hline⟩, hcol⟩
  unfold handleVisualMode
  dsimp only
  by_cases hcnd1 : (key = str "Escape")
  · rw [if_pos hcnd1]
    exact h
  rw [if_neg hcnd1]
  by_cases hcnd2 : ((key = str "h") ∨ (key = str "ArrowLeft"))
  · rw [if_pos hcnd2]
    apply INV_updateSelection
    refine ⟨⟨hne, hline⟩, ?_⟩
    show eng.state.cursor.col - 1 ≤ (getCurrentLine eng.state).length
    omega
  rw [if_neg hcnd2]
  by_cases hcnd3 : ((key = str "j") ∨ (key = str "ArrowDown"))
  · rw [if_pos hcnd3]
    apply INV_updateSelection
    apply INV_clamped
    exact hne
  rw [if_neg hcnd3]
  by_cases hcnd4 : ((key = str "k") ∨ (key = str "ArrowUp"))
  · rw [if_pos hcnd4]
    apply INV_updateSelection
    apply INV_clamped
    exact hne
  rw [if_neg hcnd4]
  by_cases hcnd5 : ((key = str "l") ∨ (key = str "ArrowRight"))
  · rw [if_pos hcnd5]
    apply INV_updateSelection
    refine ⟨⟨hne, hline⟩, ?_⟩
    show min (getCurrentLine eng.state).length (eng.state.cursor.col + 1) ≤
      (getCurrentLine eng.state).length
    omega
  rw [if_neg hcnd5]
  by_cases hcnd6 : (key = str "w")
  · rw [if_pos hcnd6]
    apply INV_updateSelection
    exact INV_moveWordForward h
  rw [if_neg hcnd6]
  by_cases hcnd7 : (key = str "b")
  · rw [if_pos hcnd7]
    apply INV_updateSelection
    exact INV_moveWordBackward h
  rw [if_neg hcnd7]
  by_cases hcnd8 : (key = str "e")
  · rw [if_pos hcnd8]
    apply INV_updateSelection
    exact INV_moveToEndOfWord h
  rw [if_neg hcnd8]
  by_cases hcnd9 : (key = str "0")
  · rw [if_pos hcnd9]
    apply INV_updateSelection
    exact ⟨⟨hne, hline⟩, Nat.zero_le _⟩
  rw [if_neg hcnd9]
  by_cases hcnd10 : (key = str "$")
  · rw [if_pos hcnd10]
    apply INV_updateSelection
    exact ⟨⟨hne, hline⟩, Nat.le_refl _⟩
  rw [if_neg hcnd10]
  by_cases hcnd11 : ((key = str "d") ∨ (key = str "x"))
  · rw [if_pos hcnd11]
    exact INV_deleteSelection h
  rw [if_neg hcnd11]
  by_cases hcnd12 : (key = str "y")
  · rw [if_pos hcnd12]
    exact INV_yankSelection h
  rw [if_neg hcnd12]
  by_cases hcnd13 : (key = str "c")
  · rw [if_pos hcnd13]
    exact INV_deleteSelection h
  rw [if_neg hcnd13]
  exact h

theorem visual_INV0 (eng : VimEngine) (key : List Char) (h : INV0 eng.state) :
    INV0 (handleVisualMode eng key).1.state := by
  obtain ⟨hne, hline⟩ := h
  have h : INV0 eng.state := ⟨hne, hline⟩
  unfold handleVisualMode
  dsimp only
  by_cases hcnd1 : (key = str "Escape")
  · rw [if_pos hcnd1]
    exact h
  rw [if_neg hcnd1]
  by_cases hcnd2 : ((key = str "h") ∨ (key = str "ArrowLeft"))
  · rw [if_pos hcnd2]
    apply INV0_updateSelection
    exact h
  rw [if_neg hcnd2]
  by_cases hcnd3 : ((key = str "j") ∨ (key = str "ArrowDown"))
  · rw [if_pos hcnd3]
    apply INV0_updateSelection
    refine INV0_of_INV (INV_clamped _ _ ?_)
    exact hne
  rw [if_neg hcnd3]
  by_cases hcnd4 : ((key = str "k") ∨ (key = str "ArrowUp"))
  · rw [if_pos hcnd4]
    apply INV0_updateSelection
    refine INV0_of_INV (INV_clamped _ _ ?_)
    exact hne
  rw [if_neg hcnd4]
  by_cases hcnd5 : ((key = str "l") ∨ (key = str "ArrowRight"))
  · rw [if_pos hcnd5]
    apply INV0_updateSelection
    exact h
  rw [if_neg hcnd5]
  by_cases hcnd6 : (key = str "w")
  · rw [if_pos hcnd6]
    apply INV0_updateSelection
    exact INV0_moveWordForward h
  rw [if_neg hcnd6]
  by_cases hcnd7 : (key = str "b")
  · rw [if_pos hcnd7]
    apply INV0_updateSelection
    exact h
  rw [if_neg hcnd7]
  by_cases hcnd8 : (key = str "e")
  · rw [if_pos hcnd8]
    apply INV0_updateSelection
    exact h
  rw [if_neg hcnd8]
  by_cases hcnd9 : (key = str "0")
  · rw [if_pos hcnd9]
    apply INV0_updateSelection
    exact h
  rw [if_neg hcnd9]
  by_cases hcnd10 : (key = str "$")
  · rw [if_pos hcnd10]
    apply INV0_updateSelection
    exact h
  rw [if_neg hcnd10]
  by_cases hcnd11 : ((key = str "d") ∨ (key = str "x"))
  · rw [if_pos hcnd11]
    exact INV0_deleteSelection h
  rw [if_neg hcnd11]
  by_cases hcnd12 : (key = str "y")
  · rw [if_pos hcnd12]
    exact INV0_yankSelection h
  rw [if_neg hcnd12]
  by_cases hcnd13 : (key = str "c")
  · rw [if_pos hcnd13]
    exact INV0_deleteSelection h
  rw [if_neg hcnd13]
  exact h

theorem command_INV0 (eng : VimEngine) (key : List Char) (h : INV0 eng.state) :
    INV0 (handleCommandMode eng key).1.state := by
  obtain ⟨hne, hline⟩ := h
  have h : INV0 eng.state := ⟨hne, hline⟩
  unfold handleCommandMode
  dsimp only
  by_cases hcnd1 : (key = str "Escape")
  · rw [if_pos hcnd1]
    exact h
  rw [if_neg hcnd1]
  by_cases hcnd2 : (key = str "Enter")
  · rw [if_pos hcnd2]
    exact INV0_executeCommand h
  rw [if_neg hcnd2]
  by_cases hcnd3 : (key = str "Backspace")
  · rw [if_pos hcnd3]
    split
    · exact h
    · exact h
  rw [if_neg hcnd3]
  by_cases hcnd4 : (key.length = 1)
  · rw [if_pos hcnd4]
    exact h
  rw [if_neg hcnd4]
  exact h

theorem keydown_INV0 (eng : VimEngine) (key : List Char) (ctrl shift : Bool)
    (h : INV0 eng.state) : INV0 (handleKeyDown eng key ctrl shift).1.state := by
  unfold handleKeyDown
  split
  · exact normal_INV0 eng key h
  · exact insert_INV0 eng key ctrl h
  · exact visual_INV0 eng key h
  · exact command_INV0 eng key h

theorem keydown_INV (eng : VimEngine) (key : List Char) (ctrl shift : Bool)
    (hm : eng.state.mode ≠ VimMode.command) (h : INV eng.state) :
    INV (handleKeyDown eng key ctrl shift).1.state := by
  unfold handleKeyDown
  split
  · exact normal_INV eng key h
  · exact insert_INV eng key ctrl h
  · exact visual_INV eng key h
  · rename_i heq
    exact absurd heq hm

theorem keydown_normal (eng : VimEngine) (key : List Char) (ctrl shift : Bool)
    (hmode : eng.state.mode = VimMode.normal) :
    handleKeyDown eng key ctrl shift = handleNormalMode eng key := by
  unfold handleKeyDown
  rw [hmode]

theorem append_key_ne {l k lit : List Char} (hk : k.getLast? ≠ none)
    (h : lit.getLast? ≠ k.getLast?) : l ++ k ≠ lit := by
  intro he
  apply h
  rw [← he, List.getLast?_append]
  cases hkk : k.getLast? with
  | none => exact absurd hkk hk
  | some c => simp [hkk]

theorem handleNormalMode_plain (eng : VimEngine) (key : List Char)
    (hcb : eng.state.commandBuffer = []) (hct : eng.countBuffer = [])
    (hd : isDigit19 key = false) (hlen : key.length = 1)
    (hpre : prefixKeys.contains key = false) :
    handleNormalMode eng key =
      (⟨(handleNormalSwitch 1 { eng.state with commandBuffer := [] } key).1, []⟩,
        (handleNormalSwitch 1 { eng.state with commandBuffer := [] } key).2) := by
  unfold handleNormalMode
  dsimp only
  rw [hcb, hct]
  rw [if_neg (by simp [hd])]
  simp only [List.nil_append]
  rw [if_neg (fun he => absurd (he ▸ hlen) (by decide))]
  rw [if_neg (fun he => absurd (he ▸ hlen) (by decide))]
  rw [if_neg (fun he => absurd (he ▸ hlen) (by decide))]
  rw [if_neg (fun he => absurd (he ▸ hlen) (by decide))]
  rw [if_neg (fun he => absurd (he ▸ hlen) (by decide))]
  rw [if_neg (fun he => absurd (he ▸ hlen) (by decide))]
  rw [if_neg (fun hor => hor.elim (fun he => absurd (he ▸ hlen) (by decide))
      (fun he => absurd (he ▸ hlen) (by decide)))]
  rw [if_neg (fun hor => hor.elim (fun he => absurd (he ▸ hlen) (by decide))
      (fun he => absurd (he ▸ hlen) (by decide)))]
  rw [if_neg (by rw [hpre]; simp)]
  rw [if_neg (fun hc => absurd hc.1 (by decide))]
  rw [if_neg (fun hc => absurd hc.1 (by decide))]
  rw [if_neg (fun hc => absurd hc.1 (by decide))]
  rfl

theorem handleNormalMode_pfx (eng : VimEngine) (key : List Char)
    (hcb : eng.state.commandBuffer = []) (hct : eng.countBuffer = [])
    (hd : isDigit19 key = false) (hlen : key.length = 1)
    (hpre : prefixKeys.contains key = true) :
    handleNormalMode eng key = (⟨{ eng.state with commandBuffer := key }, []⟩, true) := by
  unfold handleNormalMode
  dsimp only
  rw [hcb, hct]
  rw [if_neg (by simp [hd])]
  simp only [List.nil_append]
  rw [if_neg (fun he => absurd (he ▸ hlen) (by decide))]
  rw [if_neg (fun he => absurd (he ▸ hlen) (by decide))]
  rw [if_neg (fun he => absurd (he ▸ hlen) (by decide))]
  rw [if_neg (fun he => absurd (he ▸ hlen) (by decide))]
  rw [if_neg (fun he => absurd (he ▸ hlen) (by decide))]
  rw [if_neg (fun he => absurd (he ▸ hlen) (by decide))]
  rw [if_neg (fun hor => hor.elim (fun he => absurd (he ▸ hlen) (by decide))
      (fun he => absurd (he ▸ hlen) (by decide)))]
  rw [if_neg (fun hor => hor.elim (fun he => absurd (he ▸ hlen) (by decide))
      (fun he => absurd (he ▸ hlen) (by decide)))]
  rw [if_pos (by rw [hpre]; simp)]

theorem handleNormalMode_dd (eng : VimEngine)
    (hcb : eng.state.commandBuffer = str "d") (hct : eng.countBuffer = []) :
    handleNormalMode eng (str "d") =
      (⟨{ deleteLine 1 eng.state with commandBuffer := [] }, []⟩, true) := by
  unfold handleNormalMode
  dsimp only
  rw [hcb, hct]
  rw [if_neg (by decide)]
  rw [if_pos (by decide)]
  rfl

theorem handleNormalMode_yy (eng : VimEngine)
    (hcb : eng.state.commandBuffer = str "y") (hct : eng.countBuffer = []) :
    handleNormalMode eng (str "y") =
      (⟨{ yankLine 1 eng.state with commandBuffer := [] }, []⟩, true) := by
  unfold handleNormalMode
  dsimp only
  rw [hcb, hct]
  rw [if_neg (by decide)]
  rw [if_neg (by decide)]
  rw [if_pos (by decide)]
  rfl

theorem handleNormalSwitch_p (count : Nat) (s : EditorState) :
    handleNormalSwitch count s (str "p") = (paste true s, true) := by
  unfold handleNormalSwitch
  rw [if_neg (by decide)]
  rw [if_neg (by decide)]
  rw [if_neg (by decide)]
  rw [if_neg (by decide)]
  rw [if_neg (by decide)]
  rw [if_neg (by decide)]
  rw [if_neg (by decide)]
  rw [if_neg (by decide)]
  rw [if_neg (by decide)]
  rw [if_neg (by decide)]
  rw [if_neg (by decide)]
  rw [if_neg (by decide)]
  rw [if_neg (by decide)]
  rw [if_neg (by decide)]
  rw [if_neg (by decide)]
  rw [if_neg (by decide)]
  rw [if_neg (by decide)]
  rw [if_neg (by decide)]
  rw [if_neg (by decide)]
  rw [if_neg (by decide)]
  rw [if_neg (by decide)]
  rw [if_neg (by decide)]
  rw [if_neg (by decide)]
  rw [if_neg (by decide)]
  rw [if_neg (by decide)]
  rw [if_pos (by decide)]

theorem handleNormalSwitch_P (count : Nat) (s : EditorState) :
    handleNormalSwitch count s (str "P") = (paste false s, true) := by
  unfold handleNormalSwitch
  rw [if_neg (by decide)]
  rw [if_neg (by decide)]
  rw [if_neg (by decide)]
  rw [if_neg (by decide)]
  rw [if_neg (by decide)]
  rw [if_neg (by decide)]
  rw [if_neg (by decide)]
  rw [if_neg (by decide)]
  rw [if_neg (by decide)]
  rw [if_neg (by decide)]
  rw [if_neg (by decide)]
  rw [if_neg (by decide)]
  rw [if_neg (by decide)]
  rw [if_neg (by decide)]
  rw [if_neg (by decide)]
  rw [if_neg (by decide)]
  rw [if_neg (by decide)]
  rw [if_neg (by decide)]
  rw [if_neg (by decide)]
  rw [if_neg (by decide)]
  rw [if_neg (by decide)]
  rw [if_neg (by decide)]
  rw [if_neg (by decide)]
  rw [if_neg (by decide)]
  rw [if_neg (by decide)]
  rw [if_neg (by decide)]
  rw [if_pos (by decide)]

theorem handleNormalSwitch_x (count : Nat) (s : EditorState) :
    handleNormalSwitch count s (str "x") = (iterateOp deleteChar count s, true) := by
  unfold handleNormalSwitch
  rw [if_neg (by decide)]
  rw [if_neg (by decide)]
  rw [if_neg (by decide)]
  rw [if_neg (by decide)]
  rw [if_neg (by decide)]
  rw [if_neg (by decide)]
  rw [if_neg (by decide)]
  rw [if_neg (by decide)]
  rw [if_neg (by decide)]
  rw [if_neg (by decide)]
  rw [if_neg (by decide)]
  rw [if_neg (by decide)]
  rw [if_neg (by decide)]
  rw [if_neg (by decide)]
  rw [if_neg (by decide)]
  rw [if_neg (by decide)]
  rw [if_neg (by decide)]
  rw [if_neg (by decide)]
  rw [if_neg (by decide)]
  rw [if_pos (by decide)]

theorem handleNormalSwitch_J (count : Nat) (s : EditorState) :
    handleNormalSwitch count s (str "J") = (joinLines s, true) := by
  unfold handleNormalSwitch
  rw [if_neg (by decide)]
  rw [if_neg (by decide)]
  rw [if_neg (by decide)]
  rw [if_neg (by decide)]
  rw [if_neg (by decide)]
  rw [if_neg (by decide)]
  rw [if_neg (by decide)]
  rw [if_neg (by decide)]
  rw [if_neg (by decide)]
  rw [if_neg (by decide)]
  rw [if_neg (by decide)]
  rw [if_neg (by decide)]
  rw [if_neg (by decide)]
  rw [if_neg (by decide)]
  rw [if_neg (by decide)]
  rw [if_neg (by decide)]
  rw [if_neg (by decide)]
  rw [if_neg (by decide)]
  rw [if_neg (by decide)]
  rw [if_neg (by decide)]
  rw [if_neg (by decide)]
  rw [if_neg (by decide)]
  rw [if_neg (by decide)]
  rw [if_neg (by decide)]
  rw [if_neg (by decide)]
  rw [if_neg (by decide)]
  rw [if_neg (by decide)]
  rw [if_neg (by decide)]
  rw [if_pos (by decide)]

/-- C1 (counterexample): the claimed mode-appropriate column bound
`col ≤ max(0, len(currentLine) - 1)` in visual and command modes is
violated by the code.  In visual mode on the line `ab` with the cursor
on column 1 (a state that itself satisfies the claimed invariant),
pressing `l` moves the column to 2 = `len(currentLine)`, exceeding
`max(0, len - 1) = 1`; and executing `:s/foo//` on the line `foo` with
the cursor on column 2 returns to normal mode with the column still 2
although the line is now empty (so even `col ≤ len(currentLine)`
fails there). -/
theorem C1_counterexample :
    (INV exC1visual.state ∧
      exC1visual.state.cursor.col ≤ (getCurrentLine exC1visual.state).length - 1 ∧
      consumed exC1visual "l" = true ∧
      (press exC1visual "l").state.mode = VimMode.visual ∧
      (press exC1visual "l").state.cursor.col = 2 ∧
      ¬ ((press exC1visual "l").state.cursor.col ≤
          (getCurrentLine (press exC1visual "l").state).length - 1)) ∧
    (INV exC1subst.state ∧
      consumed exC1subst "Enter" = true ∧
      (press exC1subst "Enter").state.mode = VimMode.normal ∧
      ¬ ((press exC1subst "Enter").state.cursor.col ≤
          (getCurrentLine (press exC1subst "Enter").state).length)) := by
  decide

/-- C1 (amended): every consumed or unconsumed key event in every mode
preserves `0 ≤ line < len(lines)` together with non-emptiness of
`lines`; outside command mode the column bound
`col ≤ len(currentLine)` (one-past-end allowed) is also preserved.
The strict mode-dependent bound `max(0, len - 1)` of the claim fails in
visual mode (`l`, `$`) and the column can exceed the line length
entirely after a command-mode substitution. -/
theorem C1_cursor_invariant :
    (∀ (eng : VimEngine) (key : List Char) (ctrl shift : Bool),
        INV0 eng.state → INV0 (handleKeyDown eng key ctrl shift).1.state) ∧
    (∀ (eng : VimEngine) (key : List Char) (ctrl shift : Bool),
        eng.state.mode ≠ VimMode.command → INV eng.state →
        INV (handleKeyDown eng key ctrl shift).1.state) :=
  ⟨fun eng key ctrl shift h => keydown_INV0 eng key ctrl shift h,
   fun eng key ctrl shift hm h => keydown_INV eng key ctrl shift hm h⟩

/-- Witness for C1: the amended invariant applied to a concrete state
and key. -/
theorem C1_cursor_invariant_w :
    INV0 (handleKeyDown exC5 (str "j") false false).1.state ∧
    INV (handleKeyDown exC5 (str "j") false false).1.state :=
  ⟨C1_cursor_invariant.1 exC5 (str "j") false false (by decide),
   C1_cursor_invariant.2 exC5 (str "j") false false (by decide) (by decide)⟩

/-- C9: every key event in every mode keeps `lines` non-empty (under
the structural state invariant), and `deleteLine` invoked at line 0
with a count at least the number of lines collapses the buffer to
exactly one empty string. -/
theorem C9_lines_nonempty :
    (∀ (eng : VimEngine) (key : List Char) (ctrl shift : Bool),
        INV0 eng.state → (handleKeyDown eng key ctrl shift).1.state.lines ≠ []) ∧
    (∀ (count : Nat) (s : EditorState),
        s.cursor.line = 0 → s.lines.length ≤ count →
        (deleteLine count s).lines = [[]]) := by
  constructor
  · intro eng key ctrl shift h
    exact (keydown_INV0 eng key ctrl shift h).1
  · intro count s h0 hc
    unfold deleteLine
    dsimp only
    rw [h0]
    have h1 : min (0 + count) s.lines.length = s.lines.length := by omega
    rw [h1, List.drop_length]
    simp

/-- Witness for C9: a concrete key press and a concrete collapsing
delete. -/
theorem C9_lines_nonempty_w :
    (handleKeyDown exC5 (str "x") false false).1.state.lines ≠ [] ∧
    (deleteLine 5 exC5.state).lines = [[]] :=
  ⟨C9_lines_nonempty.1 exC5 (str "x") false false (by decide),
   C9_lines_nonempty.2 5 exC5.state (by decide) (by decide)⟩

/-- C10: pressing `J` in normal mode with the cursor on the last line
(and no pending `r`/`f`/`F` prefix, which would capture the key as an
argument instead) leaves `lines`, `cursor`, `registers`, `mode` and
`message` unchanged, and the key is still reported as consumed. -/
theorem C10_join_last_line (eng : VimEngine)
    (hmode : eng.state.mode = VimMode.normal)
    (hlast : eng.state.cursor.line + 1 = eng.state.lines.length)
    (hr : eng.state.commandBuffer ≠ str "r")
    (hf : eng.state.commandBuffer ≠ str "f")
    (hF : eng.state.commandBuffer ≠ str "F") :
    (handleKeyDown eng (str "J") false false).2 = true ∧
    (handleKeyDown eng (str "J") false false).1.state.lines = eng.state.lines ∧
    (handleKeyDown eng (str "J") false false).1.state.cursor = eng.state.cursor ∧
    (handleKeyDown eng (str "J") false false).1.state.registers = eng.state.registers ∧
    (handleKeyDown eng (str "J") false false).1.state.mode = VimMode.normal ∧
    (handleKeyDown eng (str "J") false false).1.state.message = eng.state.message := by
  rw [keydown_normal eng (str "J") false false hmode]
  unfold handleNormalMode
  dsimp only
  rw [if_neg (by simp [show isDigit19 (str "J") = false from rfl,
    show isDigit09 (str "J") = false from rfl])]
  rw [if_neg (append_key_ne (by decide) (by decide))]
  rw [if_neg (append_key_ne (by decide) (by decide))]
  rw [if_neg (append_key_ne (by decide) (by decide))]
  rw [if_neg (append_key_ne (by decide) (by decide))]
  rw [if_neg (append_key_ne (by decide) (by decide))]
  rw [if_neg (append_key_ne (by decide) (by decide))]
  rw [if_neg (fun hor => hor.elim (append_key_ne (by decide) (by decide))
      (append_key_ne (by decide) (by decide)))]
  rw [if_neg (fun hor => hor.elim (append_key_ne (by decide) (by decide))
      (append_key_ne (by decide) (by decide)))]
  rw [if_neg (by rw [show prefixKeys.contains (str "J") = false from rfl]; simp)]
  rw [if_neg (fun hc => hr hc.1)]
  rw [if_neg (fun hc => hf hc.1)]
  rw [if_neg (fun hc => hF hc.1)]
  rw [handleNormalSwitch_J]
  unfold joinLines
  rw [if_neg (by dsimp only; omega)]
  exact ⟨rfl, rfl, rfl, rfl, hmode, rfl⟩

/-- Witness for C10: `J` with a pending `d` prefix on the last line of
a two-line buffer. -/
theorem C10_join_last_line_w :
    (handleKeyDown exC10 (str "J") false false).2 = true ∧
    (handleKeyDown exC10 (str "J") false false).1.state.lines = exC10.state.lines ∧
    (handleKeyDown exC10 (str "J") false false).1.state.cursor = exC10.state.cursor ∧
    (handleKeyDown exC10 (str "J") false false).1.state.registers = exC10.state.registers ∧
    (handleKeyDown exC10 (str "J") false false).1.state.mode = VimMode.normal ∧
    (handleKeyDown exC10 (str "J") false false).1.state.message = exC10.state.message :=
  C10_join_last_line exC10 (by decide) (by decide) (by decide) (by decide) (by decide)

theorem f_append_ne {c : Char} {lit : List Char} (h : lit.head? ≠ some 'f') :
    str "f" ++ [c] ≠ lit := by
  intro he
  apply h
  rw [← he]
  rfl

theorem f_append_ne_single {c : Char} : str "f" ++ [c] ≠ [c] := by
  intro he
  have h2 := congrArg List.length he
  have h3 : (2 : Nat) = 1 := h2
  exact absurd h3 (by decide)

/-- C2 (counterexample): with a pending `f` prefix on the line `ab3`
(cursor at column 0), the next `3` on the line is at column 2, yet
pressing `3` leaves the cursor at column 0: the digit is consumed by
the count-prefix rule, which runs first and overwrites the pending
prefix with the count digits. -/
theorem C2_counterexample :
    exC2.state.commandBuffer = str "f" ∧
    jsIndexOf (getCurrentLine exC2.state) (str "3") (exC2.state.cursor.col + 1) = some 2 ∧
    consumed exC2 "3" = true ∧
    (press exC2 "3").state.cursor = ⟨0, 0⟩ ∧
    (press exC2 "3").state.commandBuffer = str "3" ∧
    (press exC2 "3").countBuffer = str "3" ∧
    (press exC2 "3").state.lines = exC2.state.lines := by
  decide

/-- C2 (amended): in normal mode a digit `1`–`9` is always consumed by
the count-prefix rule — even when `r`, `f` or `F` is pending, in which
case the pending prefix is overwritten by the count digits; the next
key is consumed as the prefix's single-character argument only when it
is not such a digit (here stated for a pending `f` with no count in
progress: the cursor moves to the next occurrence of the key on the
current line, or stays put when there is none). -/
theorem C2_prefix_vs_count :
    (∀ (eng : VimEngine) (key : List Char),
        eng.state.mode = VimMode.normal → isDigit19 key = true →
        handleKeyDown eng key false false =
          (⟨{ eng.state with commandBuffer := eng.countBuffer ++ key },
            eng.countBuffer ++ key⟩, true)) ∧
    (∀ (eng : VimEngine) (c : Char),
        eng.state.mode = VimMode.normal →
        eng.state.commandBuffer = str "f" → eng.countBuffer = [] →
        isDigit19 [c] = false →
        (handleKeyDown eng [c] false false).2 = true ∧
        (handleKeyDown eng [c] false false).1.state.commandBuffer = [] ∧
        (handleKeyDown eng [c] false false).1.state.lines = eng.state.lines ∧
        (handleKeyDown eng [c] false false).1.state.cursor.line = eng.state.cursor.line ∧
        (handleKeyDown eng [c] false false).1.state.cursor.col =
          (jsIndexOf (getCurrentLine eng.state) [c]
            (eng.state.cursor.col + 1)).getD eng.state.cursor.col) := by
  constructor
  · intro eng key hmode hdig
    rw [keydown_normal eng key false false hmode]
    unfold handleNormalMode
    dsimp only
    rw [if_pos (by rw [hdig]; simp)]
  · intro eng c hmode hcb hct hdig
    rw [keydown_normal eng [c] false false hmode]
    unfold handleNormalMode
    dsimp only
    rw [hcb, hct]
    rw [if_neg (by rw [hdig]; simp)]
    rw [if_neg (f_append_ne (by decide))]
    rw [if_neg (f_append_ne (by decide))]
    rw [if_neg (f_append_ne (by decide))]
    rw [if_neg (f_append_ne (by decide))]
    rw [if_neg (f_append_ne (by decide))]
    rw [if_neg (f_append_ne (by decide))]
    rw [if_neg (fun hor => hor.elim (f_append_ne (by decide)) (f_append_ne (by decide)))]
    rw [if_neg (fun hor => hor.elim (f_append_ne (by decide)) (f_append_ne (by decide)))]
    rw [if_neg (by
      intro hc
      rw [Bool.and_eq_true] at hc
      exact f_append_ne_single (of_decide_eq_true hc.2))]
    rw [if_neg (fun hc => absurd hc.1 (by decide))]
    rw [if_pos ⟨rfl, rfl⟩]
    cases hidx : jsIndexOf (getCurrentLine eng.state) [c] (eng.state.cursor.col + 1) with
    | none => exact ⟨rfl, rfl, rfl, rfl, by simp⟩
    | some idx => exact ⟨rfl, rfl, rfl, rfl, by simp⟩

/-- Witness for C2: the digit part applied to the `f`-pending state
`exC2` (the digit is captured as a count), and the argument part
applied to a pending `f` followed by `x` on the line `abxc` (the
cursor jumps to column 2). -/
theorem C2_prefix_vs_count_w :
    (handleKeyDown exC2 (str "3") false false =
      (⟨{ exC2.state with commandBuffer := exC2.countBuffer ++ str "3" },
        exC2.countBuffer ++ str "3"⟩, true)) ∧
    (handleKeyDown exC2b [Char.ofNat 120] false false).1.state.cursor.col =
      (jsIndexOf (getCurrentLine exC2b.state) [Char.ofNat 120]
        (exC2b.state.cursor.col + 1)).getD exC2b.state.cursor.col :=
  ⟨C2_prefix_vs_count.1 exC2 (str "3") (by decide) (by decide),
   (C2_prefix_vs_count.2 exC2b (Char.ofNat 120) (by decide) (by decide) (by decide)
      (by decide)).2.2.2.2⟩


/-! ### List and scanning helper lemmas shared by several claims -/

theorem take_append_of_len {T : Type} {a : List T} (b : List T) {i : Nat}
    (h : a.length = i) : (a ++ b).take i = a := by
  rw [← h, List.take_left]

theorem drop_append_of_len {T : Type} {a : List T} (b : List T) {i : Nat}
    (h : a.length = i) : (a ++ b).drop i = b := by
  rw [← h, List.drop_left]

theorem take_getD_drop {T : Type} (l : List T) (i : Nat) (d : T) (h : i < l.length) :
    l.take i ++ l.getD i d :: l.drop (i + 1) = l := by
  rw [List.getD_eq_getElem l d h, ← List.drop_eq_getElem_cons h, List.take_append_drop]

theorem getD_mem {T : Type} {l : List T} {i : Nat} (d : T) (h : i < l.length) :
    l.getD i d ∈ l := by
  rw [List.getD_eq_getElem l d h]
  exact List.getElem_mem h

theorem iterateOp_one (f : EditorState → EditorState) (s : EditorState) :
    iterateOp f 1 s = f s := rfl

theorem subIndex_single_none {c : Char} {l : List Char} (h : ¬ c ∈ l) :
    subIndex [c] l = none := by
  induction l with
  | nil => rfl
  | cons d rest ih =>
    unfold subIndex
    rw [if_neg ?hpre]
    case hpre =>
      simp only [List.isPrefixOf, Bool.and_eq_true, beq_iff_eq]
      intro hc
      exact h (hc.1 ▸ List.mem_cons_self d rest)
    rw [ih (fun hm => h (List.mem_cons_of_mem d hm))]
    rfl

theorem jsIndexOf_single_none {c : Char} {l : List Char} (h : ¬ c ∈ l) (st : Nat) :
    jsIndexOf l [c] st = none := by
  unfold jsIndexOf
  dsimp only
  rw [subIndex_single_none (fun hm => h (List.mem_of_mem_drop hm))]
  rfl

theorem jsSplit_single {c : Char} {l : List Char} (h : ¬ c ∈ l) : jsSplit [c] l = [l] := by
  unfold jsSplit
  rw [if_neg (by simp)]
  unfold jsSplitF
  rw [jsIndexOf_single_none h 0]

theorem splice_back {T : Type} (l : List T) (i : Nat) (d : T) (h : i < l.length) :
    spliceIn i [l.getD i d] (l.take i ++ l.drop (i + 1)) = l := by
  unfold spliceIn
  have hlen : (l.take i).length = i := by
    simp only [List.length_take]
    omega
  rw [take_append_of_len _ hlen, drop_append_of_len _ hlen]
  rw [List.append_assoc, List.singleton_append]
  exact take_getD_drop l i d h

theorem splice_end {T : Type} (l : List T) (i : Nat) (d : T) (h : i + 1 = l.length) :
    spliceIn i [l.getD i d] (l.take i) = l := by
  unfold spliceIn
  have hlen : (l.take i).length = i := by
    simp only [List.length_take]
    omega
  rw [List.take_take, Nat.min_self]
  rw [List.drop_eq_nil_of_le (le_of_eq hlen), List.append_nil]
  have h2 := take_getD_drop l i d (by omega)
  rw [List.drop_eq_nil_of_le (by omega)] at h2
  exact h2

/-! ### Characterizations of the line- and character-wise delete, yank
and paste operations, used by the round-trip claims -/

theorem deleteLine_one_mid (s : EditorState) (hi : s.cursor.line + 1 < s.lines.length) :
    (deleteLine 1 s).lines =
      s.lines.take s.cursor.line ++ s.lines.drop (s.cursor.line + 1) ∧
    (deleteLine 1 s).registers = s.lines.getD s.cursor.line [] ++ ['\n'] ∧
    (deleteLine 1 s).cursor.line = s.cursor.line ∧
    (deleteLine 1 s).mode = s.mode ∧
    (deleteLine 1 s).commandBuffer = s.commandBuffer := by
  have hlt : s.cursor.line < s.lines.length := by omega
  unfold deleteLine clampCursor
  dsimp only
  rw [show min (s.cursor.line + 1) s.lines.length = s.cursor.line + 1 from by omega]
  rw [show s.cursor.line + 1 - s.cursor.line = 1 from by omega]
  rw [List.drop_eq_getElem_cons hlt]
  rw [show ∀ (x : List Char) (r : List (List Char)), List.take 1 (x :: r) = [x] from
    fun x r => rfl]
  rw [List.getD_eq_getElem s.lines [] hlt]
  rw [if_neg (by
    simp only [List.length_append, List.length_take, List.length_drop]
    omega)]
  refine ⟨rfl, rfl, ?_, rfl, rfl⟩
  dsimp only
  simp only [List.length_append, List.length_take, List.length_drop]
  omega

theorem deleteLine_one_last (s : EditorState) (hi : s.cursor.line + 1 = s.lines.length)
    (h2 : 2 ≤ s.lines.length) :
    (deleteLine 1 s).lines = s.lines.take s.cursor.line ∧
    (deleteLine 1 s).registers = s.lines.getD s.cursor.line [] ++ ['\n'] ∧
    (deleteLine 1 s).cursor.line = s.cursor.line - 1 ∧
    (deleteLine 1 s).mode = s.mode ∧
    (deleteLine 1 s).commandBuffer = s.commandBuffer := by
  have hlt : s.cursor.line < s.lines.length := by omega
  unfold deleteLine clampCursor
  dsimp only
  rw [show min (s.cursor.line + 1) s.lines.length = s.cursor.line + 1 from by omega]
  rw [show s.cursor.line + 1 - s.cursor.line = 1 from by omega]
  rw [List.drop_eq_getElem_cons hlt]
  rw [show ∀ (x : List Char) (r : List (List Char)), List.take 1 (x :: r) = [x] from
    fun x r => rfl]
  rw [List.getD_eq_getElem s.lines [] hlt]
  rw [List.drop_eq_nil_of_le (show s.lines.length ≤ s.cursor.line + 1 from by omega)]
  rw [List.append_nil]
  rw [if_neg (by
    simp only [List.length_take]
    omega)]
  refine ⟨rfl, rfl, ?_, rfl, rfl⟩
  dsimp only
  simp only [List.length_take]
  omega

theorem yankLine_one (s : EditorState) (hi : s.cursor.line < s.lines.length) :
    (yankLine 1 s).lines = s.lines ∧
    (yankLine 1 s).registers = s.lines.getD s.cursor.line [] ++ ['\n'] ∧
    (yankLine 1 s).cursor = s.cursor ∧
    (yankLine 1 s).mode = s.mode ∧
    (yankLine 1 s).commandBuffer = s.commandBuffer := by
  unfold yankLine
  dsimp only
  rw [show min (s.cursor.line + 1) s.lines.length = s.cursor.line + 1 from by omega]
  rw [show s.cursor.line + 1 - s.cursor.line = 1 from by omega]
  rw [List.drop_eq_getElem_cons hi]
  rw [show ∀ (x : List Char) (r : List (List Char)), List.take 1 (x :: r) = [x] from
    fun x r => rfl]
  rw [List.getD_eq_getElem s.lines [] hi]
  exact ⟨rfl, rfl, rfl, rfl, rfl⟩

theorem paste_line_before (s : EditorState) (el : List Char)
    (hreg : s.registers = el ++ ['\n']) (hnl : ¬ '\n' ∈ el) :
    (paste false s).lines = spliceIn s.cursor.line [el] s.lines ∧
    (paste false s).cursor.line = s.cursor.line := by
  unfold paste
  dsimp only
  rw [hreg]
  rw [if_neg (by simp)]
  rw [if_pos (List.getLast?_concat el)]
  rw [show (el ++ ['\n']).length - 1 = el.length from by simp]
  rw [take_append_of_len _ rfl]
  rw [jsSplit_single hnl]
  rw [if_neg Bool.false_ne_true]
  exact ⟨rfl, rfl⟩

theorem paste_line_after (s : EditorState) (el : List Char)
    (hreg : s.registers = el ++ ['\n']) (hnl : ¬ '\n' ∈ el) :
    (paste true s).lines = spliceIn (s.cursor.line + 1) [el] s.lines ∧
    (paste true s).cursor.line = s.cursor.line + 1 := by
  unfold paste
  dsimp only
  rw [hreg]
  rw [if_neg (by simp)]
  rw [if_pos (List.getLast?_concat el)]
  rw [show (el ++ ['\n']).length - 1 = el.length from by simp]
  rw [take_append_of_len _ rfl]
  rw [jsSplit_single hnl]
  rw [if_pos rfl]
  exact ⟨rfl, rfl⟩

theorem paste_char_before (s : EditorState) (c : Char)
    (hreg : s.registers = [c]) (hc : ¬ c = '\n') :
    (paste false s).lines = s.lines.set s.cursor.line
      ((getCurrentLine s).take s.cursor.col ++ c :: (getCurrentLine s).drop s.cursor.col) ∧
    (paste false s).cursor.line = s.cursor.line ∧
    (paste false s).cursor.col = s.cursor.col := by
  unfold paste setCurrentLine
  dsimp only
  rw [hreg]
  rw [if_neg (by simp)]
  rw [if_neg (by
    simp only [List.getLast?_singleton, Option.some.injEq]
    exact hc)]
  rw [if_neg Bool.false_ne_true]
  rw [jsSubstring_zero]
  rw [List.append_assoc, List.singleton_append]
  exact ⟨rfl, rfl, rfl⟩

theorem paste_char_after (s : EditorState) (c : Char)
    (hreg : s.registers = [c]) (hc : ¬ c = '\n') :
    (paste true s).lines = s.lines.set s.cursor.line
      ((getCurrentLine s).take (s.cursor.col + 1) ++
        c :: (getCurrentLine s).drop (s.cursor.col + 1)) ∧
    (paste true s).cursor.line = s.cursor.line ∧
    (paste true s).cursor.col = s.cursor.col + 1 := by
  unfold paste setCurrentLine
  dsimp only
  rw [hreg]
  rw [if_neg (by simp)]
  rw [if_neg (by
    simp only [List.getLast?_singleton, Option.some.injEq]
    exact hc)]
  rw [if_pos rfl]
  rw [jsSubstring_zero]
  rw [List.append_assoc, List.singleton_append]
  exact ⟨rfl, rfl, rfl⟩

theorem deleteChar_char (s : EditorState)
    (hline : s.cursor.line < s.lines.length) (hmode : s.mode = VimMode.normal)
    (hcol : s.cursor.col < (getCurrentLine s).length) :
    (deleteChar s).lines = s.lines.set s.cursor.line
      ((getCurrentLine s).take s.cursor.col ++ (getCurrentLine s).drop (s.cursor.col + 1)) ∧
    (deleteChar s).registers = [(getCurrentLine s).getD s.cursor.col ' '] ∧
    (deleteChar s).cursor.line = s.cursor.line ∧
    (deleteChar s).cursor.col = min s.cursor.col ((getCurrentLine s).length - 2) ∧
    (deleteChar s).mode = s.mode ∧
    (deleteChar s).commandBuffer = s.commandBuffer := by
  unfold deleteChar setCurrentLine clampCursor
  dsimp only
  rw [if_pos hcol]
  rw [jsSubstring_zero]
  rw [List.drop_eq_getElem_cons hcol]
  rw [show ∀ (x : Char) (r : List Char), List.take 1 (x :: r) = [x] from fun x r => rfl]
  rw [List.getD_eq_getElem (getCurrentLine s) ' ' hcol]
  rw [if_neg (by
    rw [hmode]
    decide)]
  refine ⟨rfl, rfl, ?_, ?_, rfl, rfl⟩
  · dsimp only
    simp only [List.length_set]
    omega
  · dsimp only
    simp only [List.length_set]
    rw [show min s.cursor.line (s.lines.length - 1) = s.cursor.line from by omega]
    rw [getD_set_self _ _ _ _ hline]
    simp only [List.length_append, List.length_take, List.length_drop]
    omega

/-! ### Key-press plumbing: `press` reduced to the corresponding
state operation -/

theorem press_pfx (eng : VimEngine) (k : String)
    (hmode : eng.state.mode = VimMode.normal) (hcb : eng.state.commandBuffer = [])
    (hct : eng.countBuffer = []) (hd : isDigit19 (str k) = false)
    (hlen : (str k).length = 1) (hpre : prefixKeys.contains (str k) = true) :
    press eng k = ⟨{ eng.state with commandBuffer := str k }, []⟩ := by
  unfold press
  rw [keydown_normal eng (str k) false false hmode]
  rw [handleNormalMode_pfx eng (str k) hcb hct hd hlen hpre]

theorem press_plain (eng : VimEngine) (k : String)
    (hmode : eng.state.mode = VimMode.normal) (hcb : eng.state.commandBuffer = [])
    (hct : eng.countBuffer = []) (hd : isDigit19 (str k) = false)
    (hlen : (str k).length = 1) (hpre : prefixKeys.contains (str k) = false) :
    press eng k =
      ⟨(handleNormalSwitch 1 { eng.state with commandBuffer := [] } (str k)).1, []⟩ := by
  unfold press
  rw [keydown_normal eng (str k) false false hmode]
  rw [handleNormalMode_plain eng (str k) hcb hct hd hlen hpre]

theorem press_dd (eng : VimEngine)
    (hmode : eng.state.mode = VimMode.normal)
    (hcb : eng.state.commandBuffer = str "d") (hct : eng.countBuffer = []) :
    press eng "d" = ⟨{ deleteLine 1 eng.state with commandBuffer := [] }, []⟩ := by
  unfold press
  rw [keydown_normal eng (str "d") false false hmode]
  rw [handleNormalMode_dd eng hcb hct]

theorem press_yy (eng : VimEngine)
    (hmode : eng.state.mode = VimMode.normal)
    (hcb : eng.state.commandBuffer = str "y") (hct : eng.countBuffer = []) :
    press eng "y" = ⟨{ yankLine 1 eng.state with commandBuffer := [] }, []⟩ := by
  unfold press
  rw [keydown_normal eng (str "y") false false hmode]
  rw [handleNormalMode_yy eng hcb hct]

/-! ### C5: the line-wise delete/paste and yank/paste round trips -/

theorem ddP_mid (s t : EditorState)
    (hlines : t.lines = (deleteLine 1 s).lines)
    (hcur : t.cursor.line = (deleteLine 1 s).cursor.line)
    (hreg : t.registers = (deleteLine 1 s).registers)
    (hi : s.cursor.line + 1 < s.lines.length)
    (hnl : ¬ '\n' ∈ s.lines.getD s.cursor.line []) :
    (paste false t).lines = s.lines := by
  obtain ⟨hdl, hdr, hdc, hdm, hdb⟩ := deleteLine_one_mid s hi
  obtain ⟨hp, hpc⟩ := paste_line_before t (s.lines.getD s.cursor.line [])
    (hreg.trans hdr) hnl
  rw [hp, hcur, hdc, hlines, hdl]
  exact splice_back s.lines s.cursor.line [] (by omega)

theorem ddp_last (s t : EditorState)
    (hlines : t.lines = (deleteLine 1 s).lines)
    (hcur : t.cursor.line = (deleteLine 1 s).cursor.line)
    (hreg : t.registers = (deleteLine 1 s).registers)
    (hi : s.cursor.line + 1 = s.lines.length) (h2 : 2 ≤ s.lines.length)
    (hnl : ¬ '\n' ∈ s.lines.getD s.cursor.line []) :
    (paste true t).lines = s.lines := by
  obtain ⟨hdl, hdr, hdc, hdm, hdb⟩ := deleteLine_one_last s hi h2
  obtain ⟨hp, hpc⟩ := paste_line_after t (s.lines.getD s.cursor.line [])
    (hreg.trans hdr) hnl
  rw [hp, hcur, hdc, hlines, hdl]
  rw [show s.cursor.line - 1 + 1 = s.cursor.line from by omega]
  exact splice_end s.lines s.cursor.line [] hi

theorem yyp_dup (s t : EditorState)
    (hlines : t.lines = (yankLine 1 s).lines)
    (hcur : t.cursor.line = (yankLine 1 s).cursor.line)
    (hreg : t.registers = (yankLine 1 s).registers)
    (hi : s.cursor.line < s.lines.length)
    (hnl : ¬ '\n' ∈ s.lines.getD s.cursor.line []) :
    (paste true t).lines =
      spliceIn (s.cursor.line + 1) [s.lines.getD s.cursor.line []] s.lines := by
  obtain ⟨hyl, hyr, hyc, hym, hyb⟩ := yankLine_one s hi
  obtain ⟨hp, hpc⟩ := paste_line_after t (s.lines.getD s.cursor.line [])
    (hreg.trans hyr) hnl
  rw [hp, hcur, hyc, hlines, hyl]

/-- C5: the line-wise delete/paste round trip holds only in restricted
positions. `dd` followed by `P` restores the buffer when the cursor is
not on the last line, and `dd` followed by `p` restores it when the
cursor is on the last line of a multi-line buffer; `yy` followed by `p`
does not restore the buffer but inserts a duplicate of the current line
below it. The claim's unconditional `dd`+`p` (and verbatim `yy`+`p`)
round trip is refuted by `C5_counterexample`. -/
theorem C5_line_roundtrip (eng : VimEngine)
    (hmode : eng.state.mode = VimMode.normal)
    (hcb : eng.state.commandBuffer = []) (hct : eng.countBuffer = [])
    (hline : eng.state.cursor.line < eng.state.lines.length)
    (hnl : ∀ l ∈ eng.state.lines, ¬ '\n' ∈ l) :
    (eng.state.cursor.line + 1 < eng.state.lines.length →
      (press (press (press eng "d") "d") "P").state.lines = eng.state.lines) ∧
    (eng.state.cursor.line + 1 = eng.state.lines.length → 2 ≤ eng.state.lines.length →
      (press (press (press eng "d") "d") "p").state.lines = eng.state.lines) ∧
    (press (press (press eng "y") "y") "p").state.lines =
      spliceIn (eng.state.cursor.line + 1)
        [eng.state.lines.getD eng.state.cursor.line []] eng.state.lines := by
  have hnlc : ¬ '\n' ∈ eng.state.lines.getD eng.state.cursor.line [] :=
    hnl _ (getD_mem [] hline)
  have h1 : press eng "d" = ⟨{ eng.state with commandBuffer := str "d" }, []⟩ :=
    press_pfx eng "d" hmode hcb hct (by decide) (by decide) (by decide)
  have h2 : press (press eng "d") "d" =
      ⟨{ deleteLine 1 { eng.state with commandBuffer := str "d" } with
          commandBuffer := [] }, []⟩ := by
    rw [h1]
    exact press_dd _ hmode rfl rfl
  have h1y : press eng "y" = ⟨{ eng.state with commandBuffer := str "y" }, []⟩ :=
    press_pfx eng "y" hmode hcb hct (by decide) (by decide) (by decide)
  have h2y : press (press eng "y") "y" =
      ⟨{ yankLine 1 { eng.state with commandBuffer := str "y" } with
          commandBuffer := [] }, []⟩ := by
    rw [h1y]
    exact press_yy _ hmode rfl rfl
  refine ⟨?_, ?_, ?_⟩
  · intro hiA
    rw [h2]
    rw [press_plain ⟨{ deleteLine 1 { eng.state with commandBuffer := str "d" } with
          commandBuffer := [] }, []⟩ "P"
        ((deleteLine_one_mid { eng.state with commandBuffer := str "d" } hiA).2.2.2.1.trans
          hmode)
        rfl rfl (by decide) (by decide) (by decide)]
    rw [handleNormalSwitch_P]
    exact ddP_mid { eng.state with commandBuffer := str "d" } _ rfl rfl rfl hiA hnlc
  · intro hiB h2len
    rw [h2]
    rw [press_plain ⟨{ deleteLine 1 { eng.state with commandBuffer := str "d" } with
          commandBuffer := [] }, []⟩ "p"
        (((deleteLine_one_last { eng.state with commandBuffer := str "d" } hiB
          h2len).2.2.2.1).trans hmode)
        rfl rfl (by decide) (by decide) (by decide)]
    rw [handleNormalSwitch_p]
    exact ddp_last { eng.state with commandBuffer := str "d" } _ rfl rfl rfl hiB h2len hnlc
  · rw [h2y]
    rw [press_plain ⟨{ yankLine 1 { eng.state with commandBuffer := str "y" } with
          commandBuffer := [] }, []⟩ "p"
        (((yankLine_one { eng.state with commandBuffer := str "y" } hline).2.2.2.1).trans
          hmode)
        rfl rfl (by decide) (by decide) (by decide)]
    rw [handleNormalSwitch_p]
    exact yyp_dup { eng.state with commandBuffer := str "y" } _ rfl rfl rfl hline hnlc

/-- C5 counterexample: on the two-line buffer `a`, `b` with the cursor
on the first line, `dd` then `p` yields `b`, `a` — the original content
in the wrong order — and `yy` then `p` yields `a`, `a`, `b`; neither
reproduces the original buffer, refuting the unconditional round trip. -/
theorem C5_counterexample :
    (press (press (press exC5 "d") "d") "p").state.lines = [str "b", str "a"] ∧
    (press (press (press exC5 "y") "y") "p").state.lines = [str "a", str "a", str "b"] ∧
    ¬ (press (press (press exC5 "d") "d") "p").state.lines = exC5.state.lines ∧
    ¬ (press (press (press exC5 "y") "y") "p").state.lines = exC5.state.lines := by
  decide

/-- Witness for `C5_line_roundtrip` at concrete states: the mid-buffer
`dd`+`P` trip, the last-line `dd`+`p` trip, and the `yy`+`p`
duplication. -/
theorem C5_line_roundtrip_w :
    (press (press (press exC5w "d") "d") "P").state.lines = exC5w.state.lines ∧
    (press (press (press exC5last "d") "d") "p").state.lines = exC5last.state.lines ∧
    (press (press (press exC5w "y") "y") "p").state.lines =
      spliceIn 2 [str "bb"] exC5w.state.lines := by
  refine ⟨(C5_line_roundtrip exC5w rfl rfl rfl (by decide) (by decide)).1 (by decide),
    (C5_line_roundtrip exC5last rfl rfl rfl (by decide) (by decide)).2.1 rfl (by decide),
    ?_⟩
  exact (C5_line_roundtrip exC5w rfl rfl rfl (by decide) (by decide)).2.2

/-! ### C6: the character-wise delete/paste round trip -/

theorem xP_restore (s t : EditorState)
    (hline : s.cursor.line < s.lines.length) (hmode : s.mode = VimMode.normal)
    (hcol : s.cursor.col < (getCurrentLine s).length)
    (hnl : ¬ '\n' ∈ getCurrentLine s)
    (hcase : s.cursor.col + 1 < (getCurrentLine s).length ∨ (getCurrentLine s).length = 1)
    (hlines : t.lines = (deleteChar s).lines)
    (hcl : t.cursor.line = (deleteChar s).cursor.line)
    (hcc : t.cursor.col = (deleteChar s).cursor.col)
    (hreg : t.registers = (deleteChar s).registers) :
    (paste false t).lines = s.lines := by
  obtain ⟨hdl, hdr, hdcl, hdcc, hdm, hdb⟩ := deleteChar_char s hline hmode hcol
  have hcne : ¬ (getCurrentLine s).getD s.cursor.col ' ' = '\n' :=
    fun he => hnl (he ▸ getD_mem ' ' hcol)
  obtain ⟨hp, hp1, hp2⟩ := paste_char_before t _ (hreg.trans hdr) hcne
  have hct : getCurrentLine t =
      (getCurrentLine s).take s.cursor.col ++ (getCurrentLine s).drop (s.cursor.col + 1) := by
    simp only [getCurrentLine]
    rw [hlines, hdl, hcl, hdcl]
    exact getD_set_self _ _ _ _ hline
  rw [hp, hct, hlines, hdl, hcl, hdcl, hcc, hdcc]
  rw [List.set_set]
  cases hcase with
  | inl hlt =>
    rw [show min s.cursor.col ((getCurrentLine s).length - 2) = s.cursor.col from by omega]
    have hlen2 : ((getCurrentLine s).take s.cursor.col).length = s.cursor.col := by
      simp only [List.length_take]
      omega
    rw [take_append_of_len _ hlen2, drop_append_of_len _ hlen2]
    rw [take_getD_drop (getCurrentLine s) s.cursor.col ' ' hcol]
    simp only [getCurrentLine]
    exact set_getD_self _ _ _ hline
  | inr hone =>
    have hcol0 : s.cursor.col = 0 := by omega
    rw [hcol0]
    rw [show min 0 ((getCurrentLine s).length - 2) = 0 from Nat.zero_min _]
    simp only [List.take_zero, List.drop_zero, List.nil_append]
    rw [List.drop_eq_nil_of_le (show (getCurrentLine s).length ≤ 0 + 1 from by omega)]
    have h3 := take_getD_drop (getCurrentLine s) 0 ' ' (by omega)
    rw [List.take_zero, List.nil_append] at h3
    rw [List.drop_eq_nil_of_le (show (getCurrentLine s).length ≤ 0 + 1 from by omega)] at h3
    rw [h3]
    simp only [getCurrentLine]
    exact set_getD_self _ _ _ hline

theorem xp_eol (s t : EditorState)
    (hline : s.cursor.line < s.lines.length) (hmode : s.mode = VimMode.normal)
    (hcolE : s.cursor.col + 1 = (getCurrentLine s).length)
    (h2 : 2 ≤ (getCurrentLine s).length)
    (hnl : ¬ '\n' ∈ getCurrentLine s)
    (hlines : t.lines = (deleteChar s).lines)
    (hcl : t.cursor.line = (deleteChar s).cursor.line)
    (hcc : t.cursor.col = (deleteChar s).cursor.col)
    (hreg : t.registers = (deleteChar s).registers) :
    (paste true t).lines = s.lines := by
  have hcol : s.cursor.col < (getCurrentLine s).length := by omega
  obtain ⟨hdl, hdr, hdcl, hdcc, hdm, hdb⟩ := deleteChar_char s hline hmode hcol
  have hcne : ¬ (getCurrentLine s).getD s.cursor.col ' ' = '\n' :=
    fun he => hnl (he ▸ getD_mem ' ' hcol)
  obtain ⟨hp, hp1, hp2⟩ := paste_char_after t _ (hreg.trans hdr) hcne
  have hct : getCurrentLine t = (getCurrentLine s).take s.cursor.col := by
    simp only [getCurrentLine]
    rw [hlines, hdl, hcl, hdcl]
    rw [getD_set_self _ _ _ _ hline]
    rw [List.drop_eq_nil_of_le
      (show (getCurrentLine s).length ≤ s.cursor.col + 1 from by omega)]
    exact List.append_nil _
  rw [hp, hct, hlines, hdl, hcl, hdcl, hcc, hdcc]
  rw [List.set_set]
  rw [show min s.cursor.col ((getCurrentLine s).length - 2) = s.cursor.col - 1 from by omega]
  rw [show s.cursor.col - 1 + 1 = s.cursor.col from by omega]
  rw [List.take_take, Nat.min_self]
  rw [List.drop_eq_nil_of_le
    (show ((getCurrentLine s).take s.cursor.col).length ≤ s.cursor.col from by
      simp only [List.length_take]
      omega)]
  have h3 := take_getD_drop (getCurrentLine s) s.cursor.col ' ' hcol
  rw [List.drop_eq_nil_of_le
    (show (getCurrentLine s).length ≤ s.cursor.col + 1 from by omega)] at h3
  rw [h3]
  simp only [getCurrentLine]
  exact set_getD_self _ _ _ hline

/-- C6: the character-wise `x`-then-`P` round trip holds when the
deleted character is not the last one on a multi-character line (or the
line has exactly one character); at the last character of a longer line
it is `x` followed by `p` — not `P` — that restores the line, because
`x` clamps the cursor one column to the left. The claim's verbatim
`x`+`P` round trip at every column is refuted by `C6_counterexample`. -/
theorem C6_char_roundtrip (eng : VimEngine)
    (hmode : eng.state.mode = VimMode.normal)
    (hcb : eng.state.commandBuffer = []) (hct : eng.countBuffer = [])
    (hline : eng.state.cursor.line < eng.state.lines.length)
    (hcol : eng.state.cursor.col < (getCurrentLine eng.state).length)
    (hnl : ¬ '\n' ∈ getCurrentLine eng.state) :
    (eng.state.cursor.col + 1 < (getCurrentLine eng.state).length ∨
        (getCurrentLine eng.state).length = 1 →
      (press (press eng "x") "P").state.lines = eng.state.lines) ∧
    (eng.state.cursor.col + 1 = (getCurrentLine eng.state).length →
        2 ≤ (getCurrentLine eng.state).length →
      (press (press eng "x") "p").state.lines = eng.state.lines) := by
  have h1 : press eng "x" = ⟨deleteChar { eng.state with commandBuffer := [] }, []⟩ := by
    rw [press_plain eng "x" hmode hcb hct (by decide) (by decide) (by decide)]
    rw [handleNormalSwitch_x]
    rfl
  have hchar := deleteChar_char { eng.state with commandBuffer := [] } hline hmode hcol
  refine ⟨?_, ?_⟩
  · intro hcase
    rw [h1]
    rw [press_plain ⟨deleteChar { eng.state with commandBuffer := [] }, []⟩ "P"
        (hchar.2.2.2.2.1.trans hmode) hchar.2.2.2.2.2 rfl (by decide) (by decide)
        (by decide)]
    rw [handleNormalSwitch_P]
    exact xP_restore { eng.state with commandBuffer := [] } _ hline hmode hcol hnl hcase
      rfl rfl rfl rfl
  · intro hE h2l
    rw [h1]
    rw [press_plain ⟨deleteChar { eng.state with commandBuffer := [] }, []⟩ "p"
        (hchar.2.2.2.2.1.trans hmode) hchar.2.2.2.2.2 rfl (by decide) (by decide)
        (by decide)]
    rw [handleNormalSwitch_p]
    exact xp_eol { eng.state with commandBuffer := [] } _ hline hmode hE h2l hnl
      rfl rfl rfl rfl

/-- C6 counterexample: on the line `ab` with the cursor on the last
character, `x` then `P` yields `ba`, not `ab` — `x` clamps the cursor
from column 1 to column 0, so `P` re-inserts the deleted `b` before the
`a`. -/
theorem C6_counterexample :
    (press (press exC6 "x") "P").state.lines = [str "ba"] ∧
    ¬ (press (press exC6 "x") "P").state.lines = exC6.state.lines := by
  decide

/-- Witness for `C6_char_roundtrip` at concrete states: `x`+`P` at a
non-final column and `x`+`p` at the final column, both on the line
`ab`. -/
theorem C6_char_roundtrip_w :
    (press (press exC6a "x") "P").state.lines = exC6a.state.lines ∧
    (press (press exC6 "x") "p").state.lines = exC6.state.lines :=
  ⟨(C6_char_roundtrip exC6a rfl rfl rfl (by decide) (by decide) (by decide)).1
      (Or.inl (by decide)),
    (C6_char_roundtrip exC6 rfl rfl rfl (by decide) (by decide) (by decide)).2 rfl
      (by decide)⟩

/-! ### C4: register writes of the deleting and yanking operations -/

theorem deleteLine_one_registers (s : EditorState) (hi : s.cursor.line < s.lines.length) :
    (deleteLine 1 s).registers = s.lines.getD s.cursor.line [] ++ ['\n'] := by
  unfold deleteLine
  dsimp only
  rw [show min (s.cursor.line + 1) s.lines.length = s.cursor.line + 1 from by omega]
  rw [show s.cursor.line + 1 - s.cursor.line = 1 from by omega]
  rw [List.drop_eq_getElem_cons hi]
  rw [show ∀ (x : List Char) (r : List (List Char)), List.take 1 (x :: r) = [x] from
    fun x r => rfl]
  rw [List.getD_eq_getElem s.lines [] hi]
  split
  · rfl
  · rfl

theorem deleteLine_registers_all (count : Nat) (s : EditorState) :
    (deleteLine count s).registers =
      jsJoin ['\n'] ((s.lines.drop s.cursor.line).take
        (min (s.cursor.line + count) s.lines.length - s.cursor.line)) ++ ['\n'] := by
  unfold deleteLine
  dsimp only
  split
  · rfl
  · rfl

theorem yankLine_registers_all (count : Nat) (s : EditorState) :
    (yankLine count s).registers =
      jsJoin ['\n'] ((s.lines.drop s.cursor.line).take
        (min (s.cursor.line + count) s.lines.length - s.cursor.line)) ++ ['\n'] := rfl

theorem deleteInQuotes_registers (q : Char) (s : EditorState) (a b : Nat)
    (hp : quoteRange q s = (some a, some b)) (hab : a < b) :
    (deleteInQuotes q s).registers = jsSubstring (getCurrentLine s) (a + 1) b ∧
    (changeInQuotes q s).registers = jsSubstring (getCurrentLine s) (a + 1) b := by
  have hd : (deleteInQuotes q s).registers = jsSubstring (getCurrentLine s) (a + 1) b := by
    unfold deleteInQuotes setCurrentLine
    unfold quoteRange at hp
    dsimp only
    dsimp only at hp
    rw [hp]
    dsimp only
    rw [if_pos hab]
  exact ⟨hd, hd⟩

theorem deleteSelection_registers (s : EditorState) (sel0 : Selection)
    (hsel : s.selection = some sel0) :
    (deleteSelection s).registers = visualYankText s sel0 := by
  unfold deleteSelection visualYankText
  rw [hsel]
  dsimp only
  by_cases hline :
    (normalizeSelection sel0).start.line = (normalizeSelection sel0).sEnd.line
  · rw [if_pos hline, if_pos hline]
  · rw [if_neg hline, if_neg hline]

theorem yankSelection_registers (s : EditorState) (sel0 : Selection)
    (hsel : s.selection = some sel0) :
    (yankSelection s).registers = visualYankText s sel0 := by
  unfold yankSelection visualYankText
  rw [hsel]
  dsimp only
  by_cases hline :
    (normalizeSelection sel0).start.line = (normalizeSelection sel0).sEnd.line
  · rw [if_pos hline, if_pos hline]
  · rw [if_neg hline, if_neg hline]

/-- C4: how each deleting or yanking operation actually treats register
`"`. A positive invocation overwrites the register with exactly the text
it removed or copied: `x`, `X`, single-step `dw`, `cw` and `D` with the
removed characters, `dd`/`yy` with any count with all deleted (yanked)
lines joined by newlines plus a trailing newline, the quote-pair
deletes (`di"`/`ci"`/`di'`/`ci'`) with the text between the quotes, and
the visual-mode `d`/`x`/`y`/`c` with the selection text. But a vacuous
invocation (`x` past the end of the line, `X` in column 0, `dw` with
nothing to delete) leaves the register — and the whole state — untouched
rather than writing the empty string, and a counted `deleteWord` keeps
only the final chunk (`C4_counterexample`). -/
theorem C4_register_writes (s : EditorState) :
    (s.cursor.col < (getCurrentLine s).length →
      (deleteChar s).registers = [(getCurrentLine s).getD s.cursor.col ' ']) ∧
    ((getCurrentLine s).length ≤ s.cursor.col → deleteChar s = s) ∧
    (0 < s.cursor.col → s.cursor.col - 1 < (getCurrentLine s).length →
      (deleteCharBefore s).registers = [(getCurrentLine s).getD (s.cursor.col - 1) ' ']) ∧
    (s.cursor.col = 0 → deleteCharBefore s = s) ∧
    (s.cursor.line < s.lines.length →
      (deleteLine 1 s).registers = s.lines.getD s.cursor.line [] ++ ['\n']) ∧
    (s.cursor.line < s.lines.length →
      (yankLine 1 s).registers = s.lines.getD s.cursor.line [] ++ ['\n']) ∧
    (s.cursor.col < scanWhile jsIsSpace (getCurrentLine s)
        (scanWhile jsIsWordChar (getCurrentLine s) s.cursor.col) →
      (deleteWord 1 s).registers =
        jsSubstring (getCurrentLine s) s.cursor.col
          (scanWhile jsIsSpace (getCurrentLine s)
            (scanWhile jsIsWordChar (getCurrentLine s) s.cursor.col))) ∧
    (scanWhile jsIsSpace (getCurrentLine s)
        (scanWhile jsIsWordChar (getCurrentLine s) s.cursor.col) ≤ s.cursor.col →
      (deleteWord 1 s).registers = s.registers) ∧
    ((changeWord s).registers =
      jsSubstring (getCurrentLine s) s.cursor.col
        (scanWhile jsIsWordChar (getCurrentLine s) s.cursor.col)) ∧
    ((deleteToEnd s).registers = (getCurrentLine s).drop s.cursor.col) ∧
    (∀ count : Nat, (deleteLine count s).registers =
      jsJoin ['\n'] ((s.lines.drop s.cursor.line).take
        (min (s.cursor.line + count) s.lines.length - s.cursor.line)) ++ ['\n']) ∧
    (∀ count : Nat, (yankLine count s).registers =
      jsJoin ['\n'] ((s.lines.drop s.cursor.line).take
        (min (s.cursor.line + count) s.lines.length - s.cursor.line)) ++ ['\n']) ∧
    (∀ (q : Char) (a b : Nat), quoteRange q s = (some a, some b) → a < b →
      (deleteInQuotes q s).registers = jsSubstring (getCurrentLine s) (a + 1) b ∧
      (changeInQuotes q s).registers = jsSubstring (getCurrentLine s) (a + 1) b) ∧
    (∀ sel0 : Selection, s.selection = some sel0 →
      (deleteSelection s).registers = visualYankText s sel0 ∧
      (yankSelection s).registers = visualYankText s sel0) := by
  refine ⟨?_, ?_, ?_, ?_, ?_, ?_, ?_, ?_, ?_, ?_, ?_, ?_, ?_, ?_⟩
  · intro h
    unfold deleteChar setCurrentLine
    dsimp only
    rw [if_pos h]
    rw [List.drop_eq_getElem_cons h]
    rw [show ∀ (x : Char) (r : List Char), List.take 1 (x :: r) = [x] from fun x r => rfl]
    rw [List.getD_eq_getElem (getCurrentLine s) ' ' h]
  · intro h
    unfold deleteChar
    dsimp only
    rw [if_neg (by omega)]
  · intro h1 h2
    unfold deleteCharBefore setCurrentLine
    dsimp only
    rw [if_pos h1]
    rw [List.drop_eq_getElem_cons h2]
    rw [show ∀ (x : Char) (r : List Char), List.take 1 (x :: r) = [x] from fun x r => rfl]
    rw [List.getD_eq_getElem (getCurrentLine s) ' ' h2]
  · intro h
    unfold deleteCharBefore
    dsimp only
    rw [if_neg (by omega)]
  · exact deleteLine_one_registers s
  · intro hi
    exact (yankLine_one s hi).2.1
  · intro h
    unfold deleteWord
    dsimp only
    rw [iterateOp_one]
    unfold deleteWordStep setCurrentLine
    dsimp only
    rw [if_pos h]
  · intro h
    unfold deleteWord
    dsimp only
    rw [iterateOp_one]
    unfold deleteWordStep
    dsimp only
    rw [if_neg (by omega)]
  · rfl
  · rfl
  · intro count
    exact deleteLine_registers_all count s
  · intro count
    exact yankLine_registers_all count s
  · intro q a b hp hab
    exact deleteInQuotes_registers q s a b hp hab
  · intro sel0 hsel
    exact ⟨deleteSelection_registers s sel0 hsel, yankSelection_registers s sel0 hsel⟩

/-- C4 counterexample: `deleteWord` with count 2 on the line `ab cd`
removes the whole line (both chunks `ab ` and `cd`) but leaves only the
final chunk `cd` in the register — each iteration of the loop overwrites
the previous one, so the register does not hold the text the operation
affected. -/
theorem C4_counterexample :
    (deleteWord 2 exC4).registers = str "cd" ∧
    (deleteWord 2 exC4).lines = [[]] ∧
    getCurrentLine exC4 = str "ab cd" ∧
    ¬ (deleteWord 2 exC4).registers = str "ab cd" := by
  decide

/-- Witness for `C4_register_writes` at concrete states: the positive
register writes on `ab cd` (including counted `dd`/`yy`), the vacuous
invocations on an empty line with a stale register, the quote-pair
delete on `a"bc"d`, and the visual-mode selection from (0,1) to (1,0)
over `ab`, `cd`. -/
theorem C4_register_writes_w :
    (deleteChar exC4).registers = [(getCurrentLine exC4).getD 0 ' '] ∧
    deleteChar exC4e = exC4e ∧
    (deleteCharBefore exC4b).registers = [(getCurrentLine exC4b).getD 2 ' '] ∧
    deleteCharBefore exC4 = exC4 ∧
    (deleteLine 1 exC4).registers = exC4.lines.getD 0 [] ++ ['\n'] ∧
    (yankLine 1 exC4).registers = exC4.lines.getD 0 [] ++ ['\n'] ∧
    (deleteWord 1 exC4).registers = jsSubstring (getCurrentLine exC4) 0 3 ∧
    (deleteWord 1 exC4e).registers = exC4e.registers ∧
    (changeWord exC4).registers = jsSubstring (getCurrentLine exC4) 0 2 ∧
    (deleteToEnd exC4).registers = (getCurrentLine exC4).drop 0 ∧
    (deleteLine 2 exC4).registers = str "ab cd" ++ ['\n'] ∧
    (yankLine 2 exC4).registers = str "ab cd" ++ ['\n'] ∧
    (deleteInQuotes '"' exC4q).registers = str "bc" ∧
    (changeInQuotes '"' exC4q).registers = str "bc" ∧
    (deleteSelection exC4v).registers = str "b" ++ '\n' :: str "c" ∧
    (yankSelection exC4v).registers = str "b" ++ '\n' :: str "c" := by
  have hA := C4_register_writes exC4
  have hE := C4_register_writes exC4e
  have hB := C4_register_writes exC4b
  have hQ := C4_register_writes exC4q
  have hV := C4_register_writes exC4v
  have hq := hQ.2.2.2.2.2.2.2.2.2.2.2.2.1 '"' 1 4 (by decide) (by decide)
  have hv := hV.2.2.2.2.2.2.2.2.2.2.2.2.2 ⟨⟨0, 1⟩, ⟨1, 0⟩⟩ rfl
  exact ⟨hA.1 (by decide), hE.2.1 (by decide), hB.2.2.1 (by decide) (by decide),
    hA.2.2.2.1 (by decide), hA.2.2.2.2.1 (by decide), hA.2.2.2.2.2.1 (by decide),
    hA.2.2.2.2.2.2.1 (by decide), hE.2.2.2.2.2.2.2.1 (by decide),
    hA.2.2.2.2.2.2.2.2.1, hA.2.2.2.2.2.2.2.2.2.1,
    hA.2.2.2.2.2.2.2.2.2.2.1 2, hA.2.2.2.2.2.2.2.2.2.2.2.1 2,
    hq.1, hq.2, hv.1, hv.2⟩

/-! ### C3: repeat search (`n` / `N`) -/

theorem occursIn_false_iff {pat l : List Char} :
    occursIn pat l = false ↔ subIndex pat l = none := by
  unfold occursIn
  cases subIndex pat l <;> simp

theorem scanForward_none (lines : List (List Char)) (pat : List Char) (a b : Nat)
    (hall : ∀ idx : Nat, subIndex pat (jsToLower (lines.getD idx [])) = none) :
    ∀ is, scanForward lines pat a b is = none := by
  intro is
  induction is with
  | nil => rfl
  | cons i rest ih =>
    unfold scanForward
    dsimp only
    rw [jsIndexOf_none_of_subIndex_none (hall ((a + i) % lines.length))
      (if i = 0 then b else 0)]
    exact ih

theorem lastSubIndexLe_none {pat l : List Char}
    (h : ∀ k, ¬ pat.isPrefixOf (l.drop k) = true) :
    ∀ b, lastSubIndexLe pat l b = none := by
  intro b
  induction b with
  | zero =>
    unfold lastSubIndexLe
    rw [if_neg (fun hc => h 0 (by rw [List.drop_zero]; exact hc))]
  | succ b ih =>
    unfold lastSubIndexLe
    rw [if_neg (fun hc => h (b + 1) hc.2)]
    exact ih

theorem jsLastIndexOf_none_of_subIndex_none {l pat : List Char}
    (h : subIndex pat l = none) (pos : Int) : jsLastIndexOf l pat pos = none := by
  unfold jsLastIndexOf
  exact lastSubIndexLe_none (subIndex_none_iff.mp h) _

theorem scanBackward_none (lines : List (List Char)) (pat : List Char) (a : Nat) (b : Int)
    (hall : ∀ idx : Nat, subIndex pat (jsToLower (lines.getD idx [])) = none) :
    ∀ is, scanBackward lines pat a b is = none := by
  intro is
  induction is with
  | nil => rfl
  | cons i rest ih =>
    unfold scanBackward
    dsimp only
    rw [jsLastIndexOf_none_of_subIndex_none
      (hall ((a + lines.length - i) % lines.length)) _]
    exact ih

theorem scanForward_some_hit {lines : List (List Char)} {pat : List Char} {a b : Nat} :
    ∀ {is : List Nat} {lc : Nat × Nat}, scanForward lines pat a b is = some lc →
      pat.isPrefixOf ((jsToLower (lines.getD lc.1 [])).drop lc.2) = true := by
  intro is
  induction is with
  | nil =>
    intro lc h
    exact absurd h (by simp [scanForward])
  | cons i rest ih =>
    intro lc h
    unfold scanForward at h
    dsimp only at h
    cases hj : jsIndexOf (jsToLower (lines.getD ((a + i) % lines.length) [])) pat
        (if i = 0 then b else 0) with
    | some idx =>
      rw [hj] at h
      simp only [Option.some.injEq] at h
      subst h
      exact (jsIndexOf_some hj).2.1
    | none =>
      rw [hj] at h
      exact ih h

theorem scanBackward_some_hit {lines : List (List Char)} {pat : List Char} {a : Nat}
    {b : Int} :
    ∀ {is : List Nat} {lc : Nat × Nat}, scanBackward lines pat a b is = some lc →
      pat.isPrefixOf ((jsToLower (lines.getD lc.1 [])).drop lc.2) = true := by
  intro is
  induction is with
  | nil =>
    intro lc h
    exact absurd h (by simp [scanBackward])
  | cons i rest ih =>
    intro lc h
    unfold scanBackward at h
    dsimp only at h
    cases hj : jsLastIndexOf (jsToLower (lines.getD ((a + lines.length - i) % lines.length) []))
        pat (if i = 0 then b else Int.ofNat (jsToLower (lines.getD ((a + lines.length - i) % lines.length) [])).length) with
    | some idx =>
      rw [hj] at h
      simp only [Option.some.injEq] at h
      subst h
      exact (jsLastIndexOf_some hj).2
    | none =>
      rw [hj] at h
      exact ih h

/-- C3: repeat search, qualified. (1) If the (lowered) pattern occurs in
no line of the buffer, `n` and `N` leave the state unchanged. (2) If
`searchNext` moves anything, the cursor lands on a genuine
case-insensitive occurrence of the pattern, and symmetrically for
`searchPrev`. (3) On the claimed example `['a','b','a']` with the
cursor on line 2 and pattern `a`, `n` wraps to line 0, column 0. The
claim's converse — if the pattern occurs anywhere, `n` moves — is
refuted by `C3_counterexample`: the wrap never rescans the part of the
cursor line at or before the cursor. -/
theorem C3_repeat_search :
    (∀ s : EditorState,
        (∀ l ∈ s.lines, occursIn (jsToLower s.lastSearch) (jsToLower l) = false) →
        searchNext s = s ∧ searchPrev s = s) ∧
    (∀ s : EditorState, ¬ searchNext s = s →
        (jsToLower s.lastSearch).isPrefixOf
          ((jsToLower (s.lines.getD (searchNext s).cursor.line [])).drop
            (searchNext s).cursor.col) = true) ∧
    (∀ s : EditorState, ¬ searchPrev s = s →
        (jsToLower s.lastSearch).isPrefixOf
          ((jsToLower (s.lines.getD (searchPrev s).cursor.line [])).drop
            (searchPrev s).cursor.col) = true) ∧
    (searchNext exC3wrap).cursor = ⟨0, 0⟩ := by
  refine ⟨?_, ?_, ?_, by decide⟩
  · intro s hmiss
    by_cases hls : s.lastSearch = []
    · constructor
      · unfold searchNext
        rw [if_pos hls]
      · unfold searchPrev
        rw [if_pos hls]
    · have hpat : ¬ jsToLower s.lastSearch = [] := by
        simp only [jsToLower, List.map_eq_nil_iff]
        exact hls
      have hall : ∀ idx : Nat,
          subIndex (jsToLower s.lastSearch) (jsToLower (s.lines.getD idx [])) = none := by
        intro idx
        by_cases hidx : idx < s.lines.length
        · exact occursIn_false_iff.mp (hmiss _ (getD_mem [] hidx))
        · rw [List.getD_eq_default s.lines [] (by omega)]
          show subIndex (jsToLower s.lastSearch) [] = none
          unfold subIndex
          rw [if_neg hpat]
      constructor
      · unfold searchNext
        rw [if_neg hls]
        rw [scanForward_none s.lines (jsToLower s.lastSearch) s.cursor.line
          (s.cursor.col + 1) hall (List.range s.lines.length)]
      · unfold searchPrev
        rw [if_neg hls]
        rw [scanBackward_none s.lines (jsToLower s.lastSearch) s.cursor.line
          ((s.cursor.col : Int) - 1) hall (List.range s.lines.length)]
  · intro s hne
    unfold searchNext at hne ⊢
    by_cases hls : s.lastSearch = []
    · rw [if_pos hls] at hne
      exact absurd rfl hne
    · rw [if_neg hls] at hne ⊢
      cases hscan : scanForward s.lines (jsToLower s.lastSearch) s.cursor.line
          (s.cursor.col + 1) (List.range s.lines.length) with
      | none =>
        rw [hscan] at hne
        exact absurd rfl hne
      | some lc => exact scanForward_some_hit hscan
  · intro s hne
    unfold searchPrev at hne ⊢
    by_cases hls : s.lastSearch = []
    · rw [if_pos hls] at hne
      exact absurd rfl hne
    · rw [if_neg hls] at hne ⊢
      cases hscan : scanBackward s.lines (jsToLower s.lastSearch) s.cursor.line
          ((s.cursor.col : Int) - 1) (List.range s.lines.length) with
      | none =>
        rw [hscan] at hne
        exact absurd rfl hne
      | some lc => exact scanBackward_some_hit hscan

/-- C3 counterexample: on the single line `ab` with the cursor on
column 1 and pattern `a`, the pattern occurs in the buffer (column 0),
yet `n` does not move — the wrap revisits the cursor line only from
just after the cursor, never rescanning its beginning, so the claimed
full-buffer wrap fails. -/
theorem C3_counterexample :
    searchNext exC3miss = exC3miss ∧
    occursIn (jsToLower exC3miss.lastSearch)
      (jsToLower (exC3miss.lines.getD 0 [])) = true := by
  decide

/-- Witness for `C3_repeat_search` at concrete states: a pattern that
occurs nowhere leaves the state fixed, and a successful `n` lands on an
occurrence. -/
theorem C3_repeat_search_w :
    (searchNext exC3none = exC3none ∧ searchPrev exC3none = exC3none) ∧
    (jsToLower exC3wrap.lastSearch).isPrefixOf
      ((jsToLower (exC3wrap.lines.getD (searchNext exC3wrap).cursor.line [])).drop
        (searchNext exC3wrap).cursor.col) = true :=
  ⟨C3_repeat_search.1 exC3none (by decide),
    C3_repeat_search.2.1 exC3wrap (by decide)⟩

/-! ### C7: the `:s///` substitution -/

theorem jsIndexOf_zero (l pat : List Char) : jsIndexOf l pat 0 = subIndex pat l := by
  unfold jsIndexOf
  dsimp only
  rw [Nat.zero_min, List.drop_zero]
  cases h : subIndex pat l with
  | none => rfl
  | some i =>
    show some (i + 0) = some i
    rw [Nat.add_zero]

theorem subIndex_append_self {c : Char} {a : List Char} (h : ¬ c ∈ a) (rest : List Char) :
    subIndex [c] (a ++ c :: rest) = some a.length := by
  induction a with
  | nil =>
    rw [List.nil_append]
    unfold subIndex
    rw [if_pos (by simp [List.isPrefixOf])]
    rfl
  | cons d a ih =>
    rw [List.cons_append]
    unfold subIndex
    rw [if_neg ?hpre, ih (fun hm => h (List.mem_cons_of_mem d hm))]
    case hpre =>
      simp only [List.isPrefixOf, Bool.and_eq_true, beq_iff_eq]
      intro hc
      exact h (hc.1 ▸ List.mem_cons_self d a)
    rfl

theorem jsIndexOf_append_self {c : Char} {a : List Char} (h : ¬ c ∈ a) (rest : List Char) :
    jsIndexOf (a ++ c :: rest) [c] 0 = some a.length := by
  unfold jsIndexOf
  dsimp only
  rw [Nat.zero_min, List.drop_zero, subIndex_append_self h rest]
  show some (a.length + 0) = some a.length
  rw [Nat.add_zero]

theorem jsSplitF_fuel {sep : List Char} (hsep : ¬ sep = []) :
    ∀ f1 : Nat, ∀ {f2 : Nat} {l : List Char}, l.length < f1 → l.length < f2 →
      jsSplitF sep f1 l = jsSplitF sep f2 l := by
  intro f1
  induction f1 with
  | zero =>
    intro f2 l h1 h2
    exact absurd h1 (Nat.not_lt_zero _)
  | succ f ih =>
    intro f2 l h1 h2
    cases f2 with
    | zero => exact absurd h2 (Nat.not_lt_zero _)
    | succ g =>
      unfold jsSplitF
      cases hj : jsIndexOf l sep 0 with
      | none => rfl
      | some i =>
        dsimp only
        have hb := jsIndexOf_some hj
        have hpos := List.length_pos.mpr hsep
        rw [ih (show (l.drop (i + sep.length)).length < f from by
            simp only [List.length_drop]
            omega)
          (show (l.drop (i + sep.length)).length < g from by
            simp only [List.length_drop]
            omega)]

theorem jsSplit_append_slash {a : List Char} (h : ¬ '/' ∈ a) (rest : List Char) :
    jsSplit ['/'] (a ++ '/' :: rest) = a :: jsSplit ['/'] rest := by
  unfold jsSplit
  rw [if_neg (by simp), if_neg (by simp)]
  have hL : jsSplitF ['/'] ((a ++ '/' :: rest).length + 1) (a ++ '/' :: rest) =
      a :: jsSplitF ['/'] ((a ++ '/' :: rest).length) rest := by
    conv_lhs => unfold jsSplitF
    rw [jsIndexOf_append_self h rest]
    dsimp only
    rw [take_append_of_len ('/' :: rest) rfl]
    rw [show (a ++ '/' :: rest).drop (a.length + List.length ['/']) = rest from by
      rw [show a ++ '/' :: rest = (a ++ ['/']) ++ rest from by simp]
      exact drop_append_of_len rest (by simp)]
  rw [hL]
  exact congrArg (a :: .)
    (jsSplitF_fuel (show ¬ (['/'] : List Char) = [] from by simp)
      (a ++ '/' :: rest).length
      (show rest.length < (a ++ '/' :: rest).length from by
        simp only [List.length_append, List.length_cons]
        omega)
      (show rest.length < rest.length + 1 from Nat.lt_succ_self _))

theorem jsJoin_cons {re a : List Char} {S : List (List Char)} (h : ¬ S = []) :
    jsJoin re (a :: S) = a ++ re ++ jsJoin re S := by
  cases S with
  | nil => exact absurd rfl h
  | cons b T => rfl

theorem join_splitF (se re : List Char) :
    ∀ (fuel : Nat) (l : List Char),
      jsJoin re (jsSplitF se fuel l) = replaceAllSpecF se re fuel l := by
  intro fuel
  induction fuel with
  | zero =>
    intro l
    rfl
  | succ f ih =>
    intro l
    unfold jsSplitF replaceAllSpecF
    rw [jsIndexOf_zero]
    cases h : subIndex se l with
    | none => rfl
    | some i =>
      dsimp only
      rw [jsJoin_cons (jsSplitF_ne_nil se f _), ih]

theorem join_split_eq_replaceAll {se : List Char} (re l : List Char) (hse : ¬ se = []) :
    jsJoin re (jsSplit se l) = replaceAllSpec se re l := by
  unfold jsSplit replaceAllSpec
  rw [if_neg hse]
  exact join_splitF se re (l.length + 1) l

theorem expandRepl_no_dollar (m p q : List Char) :
    ∀ (re : List Char), ¬ '$' ∈ re → expandRepl m p q re = re
  | [], _ => rfl
  | [c], _ => rfl
  | c :: d :: rest, h => by
    unfold expandRepl
    rw [if_neg (fun hc => h (by
      rw [← hc]
      exact List.mem_cons_self c (d :: rest)))]
    rw [expandRepl_no_dollar m p q (d :: rest) (fun hm => h (List.mem_cons_of_mem c hm))]

theorem jsReplaceFirst_no_dollar (pat re l : List Char) (h : ¬ '$' ∈ re) :
    jsReplaceFirst pat re l = replaceFirstSpec pat re l := by
  unfold jsReplaceFirst replaceFirstSpec
  rw [jsIndexOf_zero]
  cases hs : subIndex pat l with
  | none => rfl
  | some i =>
    dsimp only
    rw [expandRepl_no_dollar _ _ _ re h]

/-- C7: `:s/search/replace/` performs a literal first-occurrence
substring substitution on the current line and `:s/search/replace/g`
replaces every occurrence, matching the specification-side
`replaceFirstSpec` / `replaceAllSpec` (stated for a non-empty search
string without `/`, and a replacement without `/` or the JavaScript
`$`-escape characters); no other line is modified, and on the line
`foo foo` the two commands yield `bar foo` and `bar bar`
respectively. -/
theorem C7_substitution (s : EditorState) (se re : List Char)
    (hse : ¬ se = []) (hs1 : ¬ '/' ∈ se) (hs2 : ¬ '/' ∈ re) (hd : ¬ '$' ∈ re) :
    executeSubstitution (str "s" ++ ('/' :: (se ++ ('/' :: (re ++ ('/' :: [])))))) s =
      setCurrentLine s (replaceFirstSpec se re (getCurrentLine s)) ∧
    executeSubstitution (str "s" ++ ('/' :: (se ++ ('/' :: (re ++ ('/' :: ['g'])))))) s =
      setCurrentLine s (replaceAllSpec se re (getCurrentLine s)) ∧
    (∀ j, ¬ j = s.cursor.line →
      (executeSubstitution (str "s" ++ ('/' :: (se ++ ('/' :: (re ++ ('/' :: ['g']))))))
          s).lines.getD j [] = s.lines.getD j []) ∧
    executeSubstitution (str "s/foo/bar/g") exC7 = setCurrentLine exC7 (str "bar bar") ∧
    executeSubstitution (str "s/foo/bar/") exC7 = setCurrentLine exC7 (str "bar foo") := by
  have hparts1 : jsSplit ['/'] (str "s" ++ ('/' :: (se ++ ('/' :: (re ++ ('/' :: [])))))) =
      str "s" :: se :: re :: [[]] := by
    rw [@jsSplit_append_slash (str "s") (by decide) (se ++ ('/' :: (re ++ ('/' :: []))))]
    rw [@jsSplit_append_slash se hs1 (re ++ ('/' :: []))]
    rw [@jsSplit_append_slash re hs2 []]
    rfl
  have hpartsg : jsSplit ['/']
      (str "s" ++ ('/' :: (se ++ ('/' :: (re ++ ('/' :: ['g'])))))) =
      str "s" :: se :: re :: [['g']] := by
    rw [@jsSplit_append_slash (str "s") (by decide) (se ++ ('/' :: (re ++ ('/' :: ['g']))))]
    rw [@jsSplit_append_slash se hs1 (re ++ ('/' :: ['g']))]
    rw [@jsSplit_append_slash re hs2 ['g']]
    rfl
  have h1 : executeSubstitution
      (str "s" ++ ('/' :: (se ++ ('/' :: (re ++ ('/' :: [])))))) s =
      setCurrentLine s (replaceFirstSpec se re (getCurrentLine s)) := by
    unfold executeSubstitution
    dsimp only
    rw [hparts1]
    rw [if_pos (by simp)]
    rw [show (str "s" :: se :: re :: [[]] : List (List Char)).getD 1 [] = se from rfl]
    rw [show (str "s" :: se :: re :: [[]] : List (List Char)).getD 2 [] = re from rfl]
    rw [show (str "s" :: se :: re :: [[]] : List (List Char)).getD 3 [] = [] from rfl]
    rw [if_neg (by decide)]
    rw [jsReplaceFirst_no_dollar se re (getCurrentLine s) hd]
  have hg : executeSubstitution
      (str "s" ++ ('/' :: (se ++ ('/' :: (re ++ ('/' :: ['g'])))))) s =
      setCurrentLine s (replaceAllSpec se re (getCurrentLine s)) := by
    unfold executeSubstitution
    dsimp only
    rw [hpartsg]
    rw [if_pos (by simp)]
    rw [show (str "s" :: se :: re :: [['g']] : List (List Char)).getD 1 [] = se from rfl]
    rw [show (str "s" :: se :: re :: [['g']] : List (List Char)).getD 2 [] = re from rfl]
    rw [show (str "s" :: se :: re :: [['g']] : List (List Char)).getD 3 [] = ['g'] from
      rfl]
    rw [if_pos (by decide)]
    rw [join_split_eq_replaceAll re (getCurrentLine s) hse]
  refine ⟨h1, hg, ?_, by decide, by decide⟩
  intro j hj
  rw [hg]
  unfold setCurrentLine
  dsimp only
  exact getD_set_ne s.lines s.cursor.line j _ [] (fun he => hj he.symm)

/-- Witness for `C7_substitution`: the substitution of `foo` by `bar`
on the line `foo foo`. -/
theorem C7_substitution_w :
    executeSubstitution
        (str "s" ++ ('/' :: (str "foo" ++ ('/' :: (str "bar" ++ ('/' :: [])))))) exC7 =
      setCurrentLine exC7 (replaceFirstSpec (str "foo") (str "bar") (getCurrentLine exC7)) ∧
    executeSubstitution
        (str "s" ++ ('/' :: (str "foo" ++ ('/' :: (str "bar" ++ ('/' :: ['g'])))))) exC7 =
      setCurrentLine exC7 (replaceAllSpec (str "foo") (str "bar") (getCurrentLine exC7)) := by
  have h := C7_substitution exC7 (str "foo") (str "bar") (by decide) (by decide)
    (by decide) (by decide)
  exact ⟨h.1, h.2.1⟩

/-! ### C8: malformed command-line input -/

theorem keydown_command (eng : VimEngine) (key : List Char) (ctrl shift : Bool)
    (hmode : eng.state.mode = VimMode.command) :
    handleKeyDown eng key ctrl shift = handleCommandMode eng key := by
  unfold handleKeyDown
  rw [hmode]

/-- C8: pressing `Enter` in command mode on a malformed command — one
that is not `w`/`write`/`q`/`quit`/`wq`/`x`, not a line number, and
whose substitution form (if any) lacks its third `/`-delimited
segment — consumes the key, switches back to normal mode and clears the
command buffer, while leaving lines, cursor, selection, registers, last
search and message untouched. -/
theorem C8_malformed_command (eng : VimEngine) (rest : List Char)
    (hmode : eng.state.mode = VimMode.command)
    (hcb : eng.state.commandBuffer = ':' :: rest)
    (h1 : ¬ rest = str "w") (h2 : ¬ rest = str "write")
    (h3 : ¬ rest = str "q") (h4 : ¬ rest = str "quit")
    (h5 : ¬ rest = str "wq") (h6 : ¬ rest = str "x")
    (h7 : regexAllDigits rest = false)
    (h8 : rest.take 2 = str "s/" → (jsSplit ['/'] rest).length < 3) :
    press eng "Enter" =
      ⟨{ eng.state with mode := VimMode.normal, commandBuffer := [] },
        eng.countBuffer⟩ ∧
    consumed eng "Enter" = true := by
  have hcm : handleCommandMode eng (str "Enter") =
      (⟨executeCommand eng.state, eng.countBuffer⟩, true) := by
    unfold handleCommandMode
    dsimp only
    rw [if_neg (by decide), if_pos rfl]
  have hexec : executeCommand eng.state =
      { eng.state with mode := VimMode.normal, commandBuffer := [] } := by
    unfold executeCommand
    dsimp only
    rw [hcb]
    split
    · rename_i pat hpat
      exact absurd hpat (by simp)
    · rename_i command hcmd
      injection hcmd with hc1 hc2
      subst hc2
      rw [if_neg (fun hor => hor.elim h1 h2)]
      rw [if_neg (fun hor => hor.elim h3 h4)]
      rw [if_neg (fun hor => hor.elim h5 h6)]
      rw [if_neg (by
        rw [h7]
        exact fun hc => Bool.noConfusion hc)]
      by_cases hsub : rest.take 2 = str "s/"
      · rw [if_pos hsub]
        unfold executeSubstitution
        dsimp only
        rw [if_neg (by
          have := h8 hsub
          omega)]
      · rw [if_neg hsub]
    · rfl
  constructor
  · show (handleKeyDown eng (str "Enter") false false).1 = _
    rw [keydown_command eng (str "Enter") false false hmode, hcm, hexec]
  · show (handleKeyDown eng (str "Enter") false false).2 = true
    rw [keydown_command eng (str "Enter") false false hmode, hcm]

/-- Witness for `C8_malformed_command`: the malformed `:s/foo` (missing
its third `/` segment) on a state with non-empty registers, last search
and message. -/
theorem C8_malformed_command_w :
    press exC8 "Enter" =
      ⟨{ exC8.state with mode := VimMode.normal, commandBuffer := [] },
        exC8.countBuffer⟩ ∧
    consumed exC8 "Enter" = true :=
  C8_malformed_command exC8 (str "s/foo") rfl rfl (by decide) (by decide) (by decide)
    (by decide) (by decide) (by decide) (by decide) (fun h => by decide)

end VimTrainer
